import Mathlib

/-! RSCGo: NPC random walk and view-area delta encoder

A shallow embedding of three source files of the server:

* `pkg/game/world/npc.go`      (namespace `GameWorld`): the bounded random walk of NPCs;
* `pkg/server/packets/builders.go` (namespace `Packets`): the per-observer delta encoders;
* `pkg/server/world/pathway.go`: the `uint32` tile coordinates the encoders subtract.

Go machine integers are embedded as `Int` or `Nat` with explicit reductions modulo a power
of two wherever the source converts or wraps.  Pointers to entities are embedded as the
values they point to; within one encoder call nothing else mutates them.
-/

namespace GameWorld

/-! ## `pkg/game/world/npc.go` -/

/-- Modelled from the spec: the `Location` type of package `game/world` is declared outside
the sources at hand.  The spec describes it as integer tile coordinates that support
increment and decrement of a component. -/
structure Location where
  x : Int
  y : Int
deriving DecidableEq, Repr

/-- Accessor `Location.X()`. -/
def Location.X (l : Location) : Int := l.x

/-- Accessor `Location.Y()`. -/
def Location.Y (l : Location) : Int := l.y

/-- Modelled from the spec: the eight compass directions (`North` ... `NorthEast`) are
constants declared outside the sources at hand; they are numbered counter-clockwise from
north, the order of the 8-way direction encoding. -/
def North : Int := 0
/-- Modelled from the spec: see `North`. -/
def NorthWest : Int := 1
/-- Modelled from the spec: see `North`. -/
def West : Int := 2
/-- Modelled from the spec: see `North`. -/
def SouthWest : Int := 3
/-- Modelled from the spec: see `North`. -/
def South : Int := 4
/-- Modelled from the spec: see `North`. -/
def SouthEast : Int := 5
/-- Modelled from the spec: see `North`. -/
def East : Int := 6
/-- Modelled from the spec: see `North`. -/
def NorthEast : Int := 7

/-- The random source consulted by the walk.  The generators `Chance`, `rand.Uint8n` and
`rand.Int31N` live outside the sources at hand, so their outcomes are supplied as
arbitrary streams; the cursors count the draws consumed so far. -/
structure Rng where
  chanceOutcome : Nat → Bool
  dirOutcome : Nat → Nat
  chanceUsed : Nat
  dirUsed : Nat
  intOutcome : Nat → Nat := fun _ => 0
  intUsed : Nat := 0

/-- One call of `Chance(25)`: the next outcome of the stream, consuming it. -/
def Rng.Chance (r : Rng) : Bool × Rng :=
  (r.chanceOutcome r.chanceUsed, { r with chanceUsed := r.chanceUsed + 1 })

/-- Modelled from the spec: one call of `int(rand.Uint8n(8))`, a draw of one of the eight
compass directions, consuming one outcome of the stream. -/
def Rng.Uint8n (r : Rng) : Int × Rng :=
  (((r.dirOutcome r.dirUsed % 8 : Nat) : Int), { r with dirUsed := r.dirUsed + 1 })

/-- The fields of `NPC` (and of its embedded `Mob`) read or written by the walk.  The
transient attributes `pathLength` and `pathDir` are read with `VarInt(name, default)`;
an attribute that was never set is embedded as its default (`0` and `North`).  `Busy` and
`IsFighting` are the results of the methods of those names, `nextMove` is the transient
attribute read with `VarTime`, an instant counted in nanoseconds.  `skillsCur` and
`skillsMax` are the current and maximum levels that `NewNpc` stores for the skills 0 to 3. -/
structure NPC where
  Index : Int
  ID : Int
  Location : GameWorld.Location
  Boundaries0 : GameWorld.Location
  Boundaries1 : GameWorld.Location
  StartPoint : GameWorld.Location
  pathLength : Int
  pathDir : Int
  Busy : Bool := false
  IsFighting : Bool := false
  nextMove : Int := 0
  skillsCur : List Int := []
  skillsMax : List Int := []

/-- The destination computed in the body of the retry loop of `TraversePath`
(`dst := n.Location.Clone()` followed by the two `if` chains on `dir`). -/
def dstFor (loc : Location) (dir : Int) : Location :=
  let dx : Int :=
    if dir = West ∨ dir = SouthWest ∨ dir = NorthWest then loc.x + 1
    else if dir = East ∨ dir = SouthEast ∨ dir = NorthEast then loc.x - 1
    else loc.x
  let dy : Int :=
    if dir = North ∨ dir = NorthWest ∨ dir = NorthEast then loc.y - 1
    else if dir = South ∨ dir = SouthWest ∨ dir = SouthEast then loc.y + 1
    else loc.y
  { x := dx, y := dy }

/-- The rejection test of the retry loop: the destination is unreachable or lies outside
the leash rectangle. -/
def rejected (reachable : Int → Int → Bool) (n : NPC) (dst : Location) : Bool :=
  !reachable dst.X dst.Y ||
    decide (dst.X < n.Boundaries0.X) || decide (dst.X > n.Boundaries1.X) ||
    decide (dst.Y < n.Boundaries0.Y) || decide (dst.Y > n.Boundaries1.Y)

/-- Modelled from the spec: `SetLocation(dst, false)` is declared outside the sources at
hand; it moves the NPC to the destination. -/
def NPC.SetLocation (n : NPC) (dst : GameWorld.Location) : NPC := { n with Location := dst }

/-- The first statement of the loop body: `if Chance(25) { pathDir = int(rand.Uint8n(8)) }`. -/
def redirect (n : NPC) (r : Rng) : NPC × Rng :=
  if r.Chance.1 then ({ n with pathDir := r.Chance.2.Uint8n.1 }, r.Chance.2.Uint8n.2)
  else (n, r.Chance.2)

/-- The loop `for tries := 0; tries < 10; tries++` of `TraversePath`, with `k` iterations
left.  `reachable` stands for `n.Reachable`, which consults collision data outside the
sources at hand. -/
def traverseLoop (reachable : Int → Int → Bool) : Nat → NPC → Rng → NPC × Rng
  | 0, n, r => (n, r)
  | k + 1, n, r =>
    if rejected reachable (redirect n r).1
        (dstFor (redirect n r).1.Location (redirect n r).1.pathDir) then
      traverseLoop reachable k
        { (redirect n r).1 with pathDir := (redirect n r).2.Uint8n.1 } (redirect n r).2.Uint8n.2
    else
      (({ (redirect n r).1 with pathLength := (redirect n r).1.pathLength - 1 } : NPC).SetLocation
        (dstFor (redirect n r).1.Location (redirect n r).1.pathDir), (redirect n r).2)

/-- The method `NPC.TraversePath`. -/
def TraversePath (reachable : Int → Int → Bool) (n : NPC) (r : Rng) : NPC × Rng :=
  if n.pathLength ≤ 0 then (n, r) else traverseLoop reachable 10 n r

/-- The leash rectangle `[Boundaries[0], Boundaries[1]]`, inclusive on both axes. -/
def inLeash (n : NPC) : Prop :=
  n.Boundaries0.X ≤ n.Location.X ∧ n.Location.X ≤ n.Boundaries1.X ∧
  n.Boundaries0.Y ≤ n.Location.Y ∧ n.Location.Y ≤ n.Boundaries1.Y

instance (n : NPC) : Decidable (inLeash n) := by unfold inLeash; infer_instance

/-- An NPC standing in the middle of a 3 by 3 leash with three steps left to walk. -/
def leashNPC : NPC :=
  { Index := 0, ID := 1, Location := { x := 5, y := 5 }, Boundaries0 := { x := 4, y := 4 },
    Boundaries1 := { x := 6, y := 6 }, StartPoint := { x := 5, y := 5 }, pathLength := 3,
    pathDir := North }

/-- A random source whose `Chance(25)` never succeeds and whose k-th direction draw is k. -/
def leashRng : Rng :=
  { chanceOutcome := fun _ => false, dirOutcome := fun k => k, chanceUsed := 0, dirUsed := 0 }

/-! ### Regions -/

/-- Modelled from the spec: the region index is declared outside the sources at hand.  The
static part: `getRegion` gives the cell of a tile, `surroundingRegions` the cell and its
neighbours, `DeathPoint` is the sentinel location of removed NPCs and `Reachable` the
collision test made from a location. -/
structure Grid where
  getRegion : Int → Int → Nat
  surroundingRegions : Int → Int → List Nat
  DeathPoint : Location
  Reachable : Location → Int → Int → Bool

/-- Modelled from the spec: the mutable content of the regions.  `NPCs r i` tells whether
the NPC of index `i` is in the NPC set of region `r`; `Players r` is `r.Players.Size()`. -/
structure Regions where
  NPCs : Nat → Int → Bool
  Players : Nat → Nat

/-- Modelled from the spec: `area.NPCs.Contains(n)` on the entity set of a region. -/
def Regions.Contains (w : Regions) (area : Nat) (n : NPC) : Bool := w.NPCs area n.Index

/-- Modelled from the spec: `area.NPCs.Remove(n)` on the entity set of a region. -/
def Regions.Remove (w : Regions) (area : Nat) (n : NPC) : Regions :=
  { w with NPCs := fun r i => if r = area ∧ i = n.Index then false else w.NPCs r i }

/-- Modelled from the spec: `area.NPCs.Add(n)` on the entity set of a region. -/
def Regions.Add (w : Regions) (area : Nat) (n : NPC) : Regions :=
  { w with NPCs := fun r i => if r = area ∧ i = n.Index then true else w.NPCs r i }

/-- The method `NPC.UpdateRegion`. -/
def NPC.UpdateRegion (g : Grid) (w : Regions) (n : NPC) (x y : Int) : Regions :=
  if g.getRegion x y ≠ g.getRegion n.Location.X n.Location.Y then
    (if w.Contains (g.getRegion n.Location.X n.Location.Y) n then
        w.Remove (g.getRegion n.Location.X n.Location.Y) n
      else w).Add (g.getRegion x y) n
  else w

/-- Modelled from the spec: `SetLocation(dst, false)` seen with the regions; a move triggers
the membership update as a direct side effect, then the coordinates change. -/
def NPC.SetLocationIn (g : Grid) (w : Regions) (n : NPC) (dst : GameWorld.Location) :
    Regions × NPC :=
  (n.UpdateRegion g w dst.X dst.Y, n.SetLocation dst)

/-- The retry loop of `TraversePath` seen with the regions: the same loop as `traverseLoop`,
the accepted move going through `SetLocationIn`. -/
def traverseLoopIn (g : Grid) (reachable : Int → Int → Bool) :
    Nat → Regions → NPC → Rng → Regions × NPC × Rng
  | 0, w, n, r => (w, n, r)
  | k + 1, w, n, r =>
    if rejected reachable (redirect n r).1
        (dstFor (redirect n r).1.Location (redirect n r).1.pathDir) then
      traverseLoopIn g reachable k w
        { (redirect n r).1 with pathDir := (redirect n r).2.Uint8n.1 } (redirect n r).2.Uint8n.2
    else
      ((({ (redirect n r).1 with pathLength := (redirect n r).1.pathLength - 1 } :
          NPC).SetLocationIn g w
          (dstFor (redirect n r).1.Location (redirect n r).1.pathDir)).1,
        (({ (redirect n r).1 with pathLength := (redirect n r).1.pathLength - 1 } :
          NPC).SetLocationIn g w
          (dstFor (redirect n r).1.Location (redirect n r).1.pathDir)).2,
        (redirect n r).2)

/-- The method `NPC.TraversePath` seen with the regions. -/
def TraversePathIn (g : Grid) (reachable : Int → Int → Bool) (w : Regions) (n : NPC) (r : Rng) :
    Regions × NPC × Rng :=
  if n.pathLength ≤ 0 then (w, n, r) else traverseLoopIn g reachable 10 w n r

/-- The NPC is a member of exactly one region's NPC set, the region of its location. -/
def inOwnRegion (g : Grid) (w : Regions) (n : NPC) : Prop :=
  ∀ area, w.NPCs area n.Index = true ↔ area = g.getRegion n.Location.X n.Location.Y

/-! ### The sweep `UpdateNPCPositions` -/

/-- The duration `time.Second`, in nanoseconds. -/
def Second : Int := 1000000000

/-- Modelled from the spec: one call of `rand.Int31N(low, high)`, a draw between `low` and
`high`, consuming one outcome of the stream. -/
def Rng.Int31N (r : Rng) (low high : Int) : Int × Rng :=
  (low + ((r.intOutcome r.intUsed % (high - low + 1).toNat : Nat) : Int),
    { r with intUsed := r.intUsed + 1 })

/-- The loop `for _, r := range surroundingRegions(n.X(), n.Y())` of `UpdateNPCPositions`:
at the first region holding a player, `nextMove` and `pathLength` are re-rolled and the
loop breaks.  `now` is the instant returned by `time.Now()`. -/
def rerollLoop (now : Int) (w : Regions) : List Nat → NPC → Rng → NPC × Rng
  | [], n, r => (n, r)
  | area :: rest, n, r =>
    if w.Players area > 0 then
      ({ n with nextMove := now + Second * (r.Int31N 5 15).1,
                pathLength := ((r.Int31N 5 15).2.Int31N 5 15).1 },
        ((r.Int31N 5 15).2.Int31N 5 15).2)
    else rerollLoop now w rest n r

/-- The statement `if n.TransAttrs.VarTime("nextMove").Before(time.Now()) { ... }`. -/
def rollNPC (g : Grid) (now : Int) (w : Regions) (n : NPC) (r : Rng) : NPC × Rng :=
  if n.nextMove < now then
    rerollLoop now w (g.surroundingRegions n.Location.X n.Location.Y) n r
  else (n, r)

/-- The test `n.Busy() || n.IsFighting() || n.Equals(DeathPoint)`. -/
def skipped (g : Grid) (n : NPC) : Bool :=
  n.Busy || n.IsFighting || decide (n.Location = g.DeathPoint)

/-- The body of the loop `for _, n := range Npcs` of `UpdateNPCPositions`.  The instants
read by `time.Now()` while one NPC is handled are embedded as the single instant `now`. -/
def updateNPC (g : Grid) (now : Int) (w : Regions) (n : NPC) (r : Rng) : Regions × NPC × Rng :=
  if skipped g n then (w, n, r)
  else
    TraversePathIn g (g.Reachable (rollNPC g now w n r).1.Location) w (rollNPC g now w n r).1
      (rollNPC g now w n r).2

/-- The function `UpdateNPCPositions`: the global list `Npcs` is passed in and returned. -/
def UpdateNPCPositions (g : Grid) (now : Int) : List NPC → Regions → Rng → List NPC × Regions × Rng
  | [], w, r => ([], w, r)
  | n :: rest, w, r =>
    ((updateNPC g now w n r).2.1 ::
        (UpdateNPCPositions g now rest (updateNPC g now w n r).1 (updateNPC g now w n r).2.2).1,
      (UpdateNPCPositions g now rest (updateNPC g now w n r).1 (updateNPC g now w n r).2.2).2)

/-! ### The attempts of one `TraversePath` call -/

/-- The state in which the retry loop starts its next iteration after a rejected one. -/
def retry (n : NPC) (r : Rng) : NPC × Rng :=
  ({ (redirect n r).1 with pathDir := (redirect n r).2.Uint8n.1 }, (redirect n r).2.Uint8n.2)

/-- The state in which attempt number `i` (from 0) starts, all earlier ones being rejected. -/
def attemptState (n : NPC) (r : Rng) : Nat → NPC × Rng
  | 0 => (n, r)
  | i + 1 => attemptState (retry n r).1 (retry n r).2 i

/-- The destination tried by attempt number `i`. -/
def attemptDst (n : NPC) (r : Rng) (i : Nat) : Location :=
  dstFor (redirect (attemptState n r i).1 (attemptState n r i).2).1.Location
    (redirect (attemptState n r i).1 (attemptState n r i).2).1.pathDir

/-- Attempt number `i` is rejected: its destination is unreachable or outside the leash. -/
def attemptRejected (reachable : Int → Int → Bool) (n : NPC) (r : Rng) (i : Nat) : Bool :=
  rejected reachable (redirect (attemptState n r i).1 (attemptState n r i).2).1 (attemptDst n r i)

/-! ### `Killed` -/

/-- The interface value `entity.MobileEntity` passed to `Killed`: a player or an NPC, named
by its index. -/
inductive MobileEntity where
  | player (index : Int)
  | npc (index : Int)
deriving DecidableEq, Repr

/-- The struct `NpcBlockingTrigger`.  `Check` is the predicate on (killer, npc); `Action` is
embedded as an identifier of the script action, so that launches can be listed. -/
structure NpcBlockingTrigger where
  Check : Int → NPC → Bool
  Action : Nat

/-- The loop `for _, t := range NpcDeathTriggers` of `Killed`: each `go t.Action(killer, n)`
is recorded, in launch order, in the list of launched actions. -/
def deathTriggerLoop (killer : Int) (n : NPC) : List NpcBlockingTrigger → List Nat → List Nat
  | [], launched => launched
  | t :: rest, launched =>
    if t.Check killer n then deathTriggerLoop killer n rest (launched ++ [t.Action])
    else deathTriggerLoop killer n rest launched

/-- The method `NPC.Killed`, as far as the triggers and the NPC itself are concerned: the
actions launched, and the NPC moved to `DeathPoint` with its fight reset.  The drop, the
experience, the hit points and the delayed respawn concern state kept outside the sources
at hand. -/
def Killed (g : Grid) (NpcDeathTriggers : List NpcBlockingTrigger) (killer : MobileEntity)
    (n : NPC) : List Nat × NPC :=
  ((match killer with
    | MobileEntity.player k => deathTriggerLoop k n NpcDeathTriggers []
    | MobileEntity.npc _ => []),
   { (n.SetLocation g.DeathPoint) with IsFighting := false })

/-! ### Concrete inputs -/

/-- A grid of 48 by 48 tile regions numbered by row, with nothing blocked. -/
def sampleGrid : Grid :=
  { getRegion := fun x y => (x / 48).toNat + 20 * (y / 48).toNat
    surroundingRegions := fun x y => [(x / 48).toNat + 20 * (y / 48).toNat]
    DeathPoint := { x := 0, y := 0 }
    Reachable := fun _ _ _ => true }

/-- An NPC of index 3 on tile (48, 10), the first column of region 1, heading east with a
budget of two steps, leashed to the rectangle (40, 5) - (60, 15). -/
def borderNPC : NPC :=
  { Index := 3, ID := 1, Location := { x := 48, y := 10 }, Boundaries0 := { x := 40, y := 5 },
    Boundaries1 := { x := 60, y := 15 }, StartPoint := { x := 50, y := 10 }, pathLength := 2,
    pathDir := East }

/-- Regions in which `borderNPC` is registered in region 1 only and a player stands in
region 1. -/
def sampleRegions : Regions :=
  { NPCs := fun area i => decide (area = 1 ∧ i = 3)
    Players := fun area => if area = 1 then 1 else 0 }

/-- Two death triggers that both match every kill, with actions 10 and 11, followed by one
that never matches. -/
def sampleTriggers : List NpcBlockingTrigger :=
  [{ Check := fun _ _ => true, Action := 10 }, { Check := fun _ _ => true, Action := 11 },
   { Check := fun _ _ => false, Action := 12 }]

/-- The NPC `leashNPC` with one step left to walk. -/
def lastStepNPC : NPC := { leashNPC with pathLength := 1 }

/-- The outcome of a `TraversePath` call that accepts attempt number `j`: the NPC stands on
the destination of that attempt with one step less to walk, and the random source is as the
first statement of that attempt left it. -/
def acceptedAt (n : NPC) (r : Rng) (j : Nat) : NPC × Rng :=
  (({ (redirect (attemptState n r j).1 (attemptState n r j).2).1 with
      pathLength := (redirect (attemptState n r j).1 (attemptState n r j).2).1.pathLength - 1 } :
      NPC).SetLocation (attemptDst n r j),
    (redirect (attemptState n r j).1 (attemptState n r j).2).2)

/-! ### `NewNpc` -/

/-- The struct `NpcDefinition`, without its three text fields. -/
structure NpcDefinition where
  ID : Int
  Hits : Int
  Attack : Int
  Strength : Int
  Defense : Int
  Attackable : Bool
deriving DecidableEq, Repr

/-- The two globals `NpcCounter` (an atomic `uint32`) and `Npcs`. -/
structure NpcRegistry where
  NpcCounter : Nat
  Npcs : List NPC

/-- The registry of a world in which no NPC was created yet. -/
def emptyRegistry : NpcRegistry := { NpcCounter := 0, Npcs := [] }

/-- The Go expression `NpcDefs[id]`: `none` stands for the run-time panic raised when the
index is negative or not below the length. -/
def defAt (NpcDefs : List NpcDefinition) (id : Int) : Option NpcDefinition :=
  if id < 0 then none else NpcDefs[id.toNat]?

/-- The function `NewNpc`, called with no other call in flight.  `NpcCounter.Swap(
NpcCounter.Load() + 1)` returns the old counter and stores the old counter plus one,
computed in `uint32`; the new NPC is appended to `Npcs`.  `none` stands for the panic of
`NpcDefs[id]`. -/
def NewNpc (NpcDefs : List NpcDefinition) (w : NpcRegistry)
    (id startX startY minX maxX minY maxY : Int) : Option (NPC × NpcRegistry) :=
  let n : NPC :=
    { Index := (w.NpcCounter : Int), ID := id, Location := { x := startX, y := startY },
      Boundaries0 := { x := minX, y := minY }, Boundaries1 := { x := maxX, y := maxY },
      StartPoint := { x := startX, y := startY }, pathLength := 0, pathDir := North }
  let counter := (w.NpcCounter + 1) % 4294967296
  if id < 794 then
    match defAt NpcDefs id with
    | none => none
    | some d =>
      some ({ n with skillsCur := [d.Attack, d.Defense, d.Strength, d.Hits],
                     skillsMax := [d.Attack, d.Defense, d.Strength, d.Hits] },
        { NpcCounter := counter,
          Npcs := w.Npcs ++ [{ n with skillsCur := [d.Attack, d.Defense, d.Strength, d.Hits],
                                      skillsMax := [d.Attack, d.Defense, d.Strength, d.Hits] }] })
  else some (n, { NpcCounter := counter, Npcs := w.Npcs ++ [n] })

/-- The arguments of one call of `NewNpc`. -/
structure Spawn where
  id : Int
  startX : Int
  startY : Int
  minX : Int
  maxX : Int
  minY : Int
  maxY : Int
deriving DecidableEq, Repr

/-- A sequence of calls of `NewNpc`, one after the other; the result lists the NPCs
returned, in call order, with the final registry. -/
def spawnAll (NpcDefs : List NpcDefinition) : List Spawn → NpcRegistry →
    Option (List NPC × NpcRegistry)
  | [], w => some ([], w)
  | a :: rest, w =>
    match NewNpc NpcDefs w a.id a.startX a.startY a.minX a.maxX a.minY a.maxY with
    | none => none
    | some (n, w1) =>
      match spawnAll NpcDefs rest w1 with
      | none => none
      | some (ns, w2) => some (n :: ns, w2)

/-- The arguments of a call accepted by `NewNpc`: the id is at least 794 or indexes
`NpcDefs`. -/
def validSpawn (NpcDefs : List NpcDefinition) (a : Spawn) : Prop :=
  794 ≤ a.id ∨ (0 ≤ a.id ∧ a.id < (NpcDefs.length : Int))

/-- Two definitions, for the ids 0 and 1. -/
def sampleDefs : List NpcDefinition :=
  [{ ID := 0, Hits := 3, Attack := 2, Strength := 2, Defense := 1, Attackable := true },
   { ID := 1, Hits := 7, Attack := 5, Strength := 6, Defense := 4, Attackable := true }]

/-- Three calls: ids 1, 0 and 800. -/
def sampleSpawns : List Spawn :=
  [{ id := 1, startX := 50, startY := 50, minX := 45, maxX := 55, minY := 45, maxY := 55 },
   { id := 0, startX := 60, startY := 50, minX := 58, maxX := 62, minY := 48, maxY := 52 },
   { id := 800, startX := 70, startY := 70, minX := 70, maxX := 70, minY := 70, maxY := 70 }]

end GameWorld

namespace Packets

/-! ## `pkg/server/packets/builders.go` -/

/-- One fixed-width field of a packet payload: `width` bits holding `value`. -/
structure Field where
  width : Nat
  value : Nat
deriving DecidableEq, Repr

/-- Modelled from the spec: the `Packet` type and its writers are declared outside the
sources at hand.  A packet is its numeric opcode and the sequence of fields written so
far, in wire order. -/
structure Packet where
  Opcode : Nat
  Payload : List Field
deriving DecidableEq, Repr

/-- Modelled from the spec: `NewOutgoingPacket(opcode)`, an empty packet with that opcode. -/
def NewOutgoingPacket (opcode : Nat) : Packet := { Opcode := opcode, Payload := [] }

/-- Modelled from the spec: `AddBits(value, numBits)` appends a field of `numBits` bits; a
field of that width holds the `numBits` low-order bits of the (two's complement) value. -/
def Packet.AddBits (p : Packet) (value : Int) (numBits : Nat) : Packet :=
  { p with Payload := p.Payload ++ [{ width := numBits, value := (value % 2 ^ numBits).toNat }] }

/-- Modelled from the spec: `AddByte(b)` appends one byte; the argument is a `uint8`. -/
def Packet.AddByte (p : Packet) (b : Nat) : Packet :=
  { p with Payload := p.Payload ++ [{ width := 8, value := b }] }

/-- Modelled from the spec: `AddShort(s)` appends a 16-bit field; the argument is a `uint16`. -/
def Packet.AddShort (p : Packet) (v : Nat) : Packet :=
  { p with Payload := p.Payload ++ [{ width := 16, value := v }] }

/-- Modelled from the spec: `AddLong(l)` appends a 64-bit field; the argument is a `uint64`. -/
def Packet.AddLong (p : Packet) (v : Nat) : Packet :=
  { p with Payload := p.Payload ++ [{ width := 64, value := v }] }

/-- Conversion of a Go integer to `uint32`. -/
def uint32 (i : Int) : Nat := (i % 4294967296).toNat

/-- Conversion of a Go integer to `uint16`. -/
def uint16 (i : Int) : Nat := (i % 65536).toNat

/-- Conversion of a Go integer to `byte`. -/
def byte (i : Int) : Nat := (i % 256).toNat

/-- Subtraction of two `uint32` values, which wraps modulo `2^32`. -/
def sub32 (a b : Nat) : Nat := uint32 ((a : Int) - (b : Int))

/-- Addition of two `uint32` values, which wraps modulo `2^32`. -/
def add32 (a b : Nat) : Nat := uint32 ((a : Int) + (b : Int))

/-- The `Location` of package `server/world`; `X` and `Y` are `uint32`
(`pathway.go` builds `&Location{X: destX, Y: destY}` from `uint32` values and
`PlayerPositions` reads them with `atomic.LoadUint32`). -/
structure Location where
  X : Nat
  Y : Nat
deriving DecidableEq, Repr

/-- Modelled from the spec: `LongestDelta` is declared outside the sources at hand; it is
the longest single-axis tile delta between two locations. -/
def Location.LongestDelta (l other : Location) : Int :=
  max (((l.X : Int) - (other.X : Int)).natAbs : Int) (((l.Y : Int) - (other.Y : Int)).natAbs : Int)

/-- Modelled from the spec: `WithinRange(other, radius)` is declared outside the sources at
hand; a location is within `radius` tiles when its longest axis delta is at most `radius`. -/
def Location.WithinRange (l other : Location) (radius : Int) : Bool :=
  decide (l.LongestDelta other ≤ radius)

/-- The fields of `world.NPC` read by the encoders.  `moved` and `changed` are the transient
attributes read with `VarBool(name, false)`; `removed` is the region-removed flag that
`ResetNpcUpdateFlags` clears on every NPC. -/
structure NPC extends Location where
  Index : Int
  ID : Int
  Direction : Int
  moved : Bool
  changed : Bool
  removed : Bool
deriving DecidableEq, Repr

/-- The fields of a `world.Player` read by the encoders when the player is looked at by an
observer.  The four `plr...` fields are the transient attributes read with
`VarBool(name, false)`; `Username37` is `strutil.Base37(Username)`. -/
structure PlayerInfo extends Location where
  Index : Int
  Direction : Int
  plrremove : Bool
  plrself : Bool
  plrmoved : Bool
  plrchanged : Bool
  AppearanceTicket : Int
  Username37 : Nat
deriving DecidableEq, Repr

/-- The fields of `world.Object` read by the encoders, and the address `ptr` of the object:
the encoders hold objects as `*world.Object` and `ObjectLocations` compares two such
pointers, so two objects are the same object exactly when their addresses agree, whatever
their fields hold. -/
structure Object extends Location where
  ID : Int
  Direction : Int
  Boundary : Bool
  ptr : Nat
deriving DecidableEq, Repr

/-- The observing `world.Player`: its own fields and its view-state caches.  The Go lists
hold `interface{}` values that the encoders type-assert; here each list is typed, so the
assertion always succeeds.  `KnownAppearances` is the Go map from player index to ticket. -/
structure Player extends PlayerInfo where
  LocalPlayers : List PlayerInfo
  LocalNPCs : List NPC
  LocalObjects : List Object
  KnownAppearances : Int → Option Int

/-- The statement `delete(m, k)` on a Go map. -/
def mapDelete (m : Int → Option Int) (k : Int) : Int → Option Int :=
  fun i => if i = k then none else m i

/-- The statement `m[k] = v` on a Go map. -/
def mapSet (m : Int → Option Int) (k v : Int) : Int → Option Int :=
  fun i => if i = k then some v else m i

/-- The local variables of one encoder call: the packet being built, the observer (whose
caches the call mutates) and the record counter. -/
structure Enc where
  p : Packet
  player : Player
  counter : Nat

/-- The value returned by an encoder: `nil` when `counter <= 0`, the packet otherwise. -/
def Enc.result (s : Enc) : Option Packet × Player :=
  (if s.counter ≤ 0 then none else some s.p, s.player)

/-! ### `NPCPositions` -/

/-- Body of the loop `for _, n := range player.LocalNPCs.List` of `NPCPositions`.
`Remove` is modelled from the spec as removal of the entry from the cached set; the loop
ranges over the list as it was when the loop started. -/
def npcEntry (s : Enc) (n : NPC) : Enc :=
  if n.LongestDelta s.player.toLocation > 15 then
    { p := ((s.p.AddBits 1 1).AddBits 1 1).AddBits 3 2
      player := { s.player with LocalNPCs := s.player.LocalNPCs.erase n }
      counter := s.counter + 1 }
  else if n.moved || n.changed then
    { s with
      p := if n.moved then ((s.p.AddBits 1 1).AddBits 0 1).AddBits n.Direction 3
           else ((s.p.AddBits 1 1).AddBits 1 1).AddBits n.Direction 4
      counter := s.counter + 1 }
  else
    { s with p := s.p.AddBits 0 1 }

/-- The two offset computations of the new-NPC record: `offsetX := (n.X - player.X)` is a
`uint32`, so is the comparison `offsetX < 0` and the addition `offsetX += 32`. -/
def npcOffset (a b : Nat) : Nat :=
  if ((sub32 a b : Nat) : Int) < 0 then add32 (sub32 a b) 32 else sub32 a b

/-- Body of the loop `for _, n := range player.NewNPCs()` after the cap test. -/
def npcNew (s : Enc) (n : NPC) : Enc :=
  { s with
    p := ((((s.p.AddBits n.Index 12).AddBits (npcOffset n.X s.player.X) 5).AddBits
            (npcOffset n.Y s.player.Y) 5).AddBits n.Direction 4).AddBits n.ID 10
    counter := s.counter + 1 }

/-- The loop `for _, n := range player.NewNPCs()` with its `break` on either cap;
`newCount` is the local counter of that name. -/
def npcAdd : List NPC → Nat → Enc → Enc
  | [], _, s => s
  | n :: rest, newCount, s =>
    if s.player.LocalNPCs.length ≥ 255 ∨ newCount ≥ 25 then s
    else npcAdd rest (newCount + 1) (npcNew s n)

/-- The function `NPCPositions`.  `NewNPCs` stands for the method `player.NewNPCs()`, which
is declared outside the sources at hand. -/
def NPCPositions (NewNPCs : Player → List NPC) (player : Player) : Option Packet × Player :=
  let s0 : Enc :=
    { p := (NewOutgoingPacket 79).AddBits player.LocalNPCs.length 8, player := player, counter := 0 }
  let s1 := player.LocalNPCs.foldl npcEntry s0
  (npcAdd (NewNPCs s1.player) 0 s1).result

/-- Modelled from the spec: `NewNPCs()` is declared outside the sources at hand.  Given the
NPCs of the regions the observer can see, the newly visible ones are those absent from the
observer's cache. -/
def NewNPCs (seen : List NPC) (player : Player) : List NPC :=
  seen.filter (fun n => !player.LocalNPCs.contains n)

/-! ### `PlayerPositions` -/

/-- Body of the loop `for _, p1 := range player.LocalPlayers.List` of `PlayerPositions`. -/
def plrEntry (s : Enc) (p1 : PlayerInfo) : Enc :=
  if p1.LongestDelta s.player.toLocation > 15 || p1.plrremove then
    { p := ((s.p.AddBits 1 1).AddBits 1 1).AddBits 3 2
      player := { s.player with
        LocalPlayers := s.player.LocalPlayers.erase p1
        KnownAppearances := mapDelete s.player.KnownAppearances p1.Index }
      counter := s.counter + 1 }
  else if p1.plrmoved || p1.plrchanged then
    { s with
      p := if p1.plrmoved then ((s.p.AddBits 1 1).AddBits 0 1).AddBits p1.Direction 3
           else ((s.p.AddBits 1 1).AddBits 1 1).AddBits p1.Direction 4
      counter := s.counter + 1 }
  else
    { s with p := s.p.AddBits 0 1 }

/-- The two offset computations of the new-player record: the difference of the two
coordinates as Go `int`s, plus 32 when negative. -/
def plrOffset (a b : Nat) : Int :=
  if (a : Int) - (b : Int) < 0 then (a : Int) - (b : Int) + 32 else (a : Int) - (b : Int)

/-- Body of the loop `for _, p1 := range player.NewPlayers()` after the cap test.  `Add` is
modelled from the spec as appending the entry to the cached set. -/
def plrNew (s : Enc) (p1 : PlayerInfo) : Enc :=
  { p := ((((s.p.AddBits p1.Index 11).AddBits (plrOffset p1.X s.player.X) 5).AddBits
            (plrOffset p1.Y s.player.Y) 5).AddBits p1.Direction 4).AddBits 0 1
    player := { s.player with LocalPlayers := s.player.LocalPlayers ++ [p1] }
    counter := s.counter + 1 }

/-- The loop `for _, p1 := range player.NewPlayers()` with its `break` on either cap. -/
def plrAdd : List PlayerInfo → Nat → Enc → Enc
  | [], _, s => s
  | p1 :: rest, newPlayerCount, s =>
    if s.player.LocalPlayers.length ≥ 255 ∨ newPlayerCount ≥ 25 then s
    else plrAdd rest (newPlayerCount + 1) (plrNew s p1)

/-- The state of `PlayerPositions` when the loop over the cached players starts: the
header has been written and the observer's own flags have been counted. -/
def plrStart (player : Player) : Enc :=
  { p := ((((NewOutgoingPacket 191).AddBits player.X 11).AddBits player.Y 13).AddBits
            player.Direction 4).AddBits player.LocalPlayers.length 8
    player := player
    counter :=
      if player.plrremove || !player.plrself || player.plrmoved || player.plrchanged then 1 else 0 }

/-- The function `PlayerPositions`.  `NewPlayers` stands for the method
`player.NewPlayers()`, which is declared outside the sources at hand. -/
def PlayerPositions (NewPlayers : Player → List PlayerInfo) (player : Player) :
    Option Packet × Player :=
  let s1 := player.LocalPlayers.foldl plrEntry (plrStart player)
  (plrAdd (NewPlayers s1.player) 0 s1).result

/-! ### `PlayerAppearances` -/

/-- The test of the first loop of `PlayerAppearances`:
`ticket, ok := KnownAppearances[p1.Index]; !ok || ticket != p1.AppearanceTicket`. -/
def needsAppearance (known : Int → Option Int) (p1 : PlayerInfo) : Bool :=
  match known p1.Index with
  | none => true
  | some ticket => decide (ticket ≠ p1.AppearanceTicket)

/-- The list `appearanceList` built by `PlayerAppearances`. -/
def appearanceList (ourPlayer : Player) : List PlayerInfo :=
  (if !ourPlayer.plrself then [ourPlayer.toPlayerInfo] else []) ++
    ourPlayer.LocalPlayers.filter (needsAppearance ourPlayer.KnownAppearances)

/-- The nine `p.AddByte(0)` of the inner loop `for i := 0; i < 9; i++`. -/
def addZeros : Nat → Packet → Packet
  | 0, p => p
  | k + 1, p => addZeros k (p.AddByte 0)

/-- Body of the loop `for _, player := range appearanceList`; the state is the packet and
the `KnownAppearances` map of the observer. -/
def appearanceEntry (s : Packet × (Int → Option Int)) (player : PlayerInfo) :
    Packet × (Int → Option Int) :=
  ((((((((addZeros 9 ((((((((s.1.AddShort (uint16 player.Index)).AddByte 5).AddShort
      (uint16 player.AppearanceTicket)).AddLong player.Username37).AddByte 12).AddByte 1).AddByte
      2).AddByte 3)).AddByte 2).AddByte 8).AddByte 14).AddByte 0).AddByte 3).AddByte 0),
    mapSet s.2 player.Index player.AppearanceTicket)

/-- The function `PlayerAppearances`. -/
def PlayerAppearances (ourPlayer : Player) : Option Packet × Player :=
  if (appearanceList ourPlayer).length ≤ 0 then (none, ourPlayer)
  else
    let r := (appearanceList ourPlayer).foldl appearanceEntry
      ((NewOutgoingPacket 234).AddShort (uint16 (appearanceList ourPlayer).length),
        ourPlayer.KnownAppearances)
    (some r.1, { ourPlayer with KnownAppearances := r.2 })

/-! ### `ObjectLocations` and `BoundaryLocations` -/

/-- The Go comparison `q != o` of the pointer returned by `world.GetObject` with a cached
`*world.Object`: the two differ when the store returned `nil` or an object at another
address; the fields of the two objects play no part. -/
def differsFrom (q : Option Object) (o : Object) : Bool :=
  match q with
  | none => true
  | some stored => decide (stored.ptr ≠ o.ptr)

/-- Body of the first loop of `ObjectLocations`.  `GetObject` stands for `world.GetObject`,
the lookup in the object store kept outside the sources at hand; the test
`world.GetObject(int(o.X), int(o.Y)) != o` is the pointer comparison `differsFrom`. -/
def objEntry (GetObject : Nat → Nat → Option Object) (s : Enc) (o : Object) : Enc :=
  if o.Boundary then s
  else if !s.player.WithinRange o.toLocation 21 || differsFrom (GetObject o.X o.Y) o then
    { p := ((s.p.AddShort 60000).AddByte (byte (sub32 o.X s.player.X))).AddByte
            (byte (sub32 o.Y s.player.Y))
      player := { s.player with LocalObjects := s.player.LocalObjects.erase o }
      counter := s.counter + 1 }
  else s

/-- Body of the second loop of `ObjectLocations`. -/
def objNew (s : Enc) (o : Object) : Enc :=
  if o.Boundary then s
  else
    { p := ((s.p.AddShort (uint16 o.ID)).AddByte (byte (sub32 o.X s.player.X))).AddByte
            (byte (sub32 o.Y s.player.Y))
      player := { s.player with LocalObjects := s.player.LocalObjects ++ [o] }
      counter := s.counter + 1 }

/-- The function `ObjectLocations`; it returns `nil` when `counter == 0`. -/
def ObjectLocations (GetObject : Nat → Nat → Option Object) (player : Player)
    (newObjects : List Object) : Option Packet × Player :=
  let s0 : Enc := { p := NewOutgoingPacket 48, player := player, counter := 0 }
  let s1 := player.LocalObjects.foldl (objEntry GetObject) s0
  let s2 := newObjects.foldl objNew s1
  (if s2.counter = 0 then none else some s2.p, s2.player)

/-- Body of the first loop of `BoundaryLocations`. -/
def bndEntry (s : Enc) (o : Object) : Enc :=
  if !o.Boundary then s
  else if !s.player.WithinRange o.toLocation 21 then
    { p := ((s.p.AddByte 255).AddByte (byte (sub32 o.X s.player.X))).AddByte
            (byte (sub32 o.Y s.player.Y))
      player := { s.player with LocalObjects := s.player.LocalObjects.erase o }
      counter := s.counter + 1 }
  else s

/-- Body of the second loop of `BoundaryLocations`. -/
def bndNew (s : Enc) (o : Object) : Enc :=
  if !o.Boundary then s
  else
    { p := (((s.p.AddShort (uint16 o.ID)).AddByte (byte (sub32 o.X s.player.X))).AddByte
            (byte (sub32 o.Y s.player.Y))).AddByte (byte o.Direction)
      player := { s.player with LocalObjects := s.player.LocalObjects ++ [o] }
      counter := s.counter + 1 }

/-- The function `BoundaryLocations`; it returns `nil` when `counter == 0`. -/
def BoundaryLocations (player : Player) (newObjects : List Object) : Option Packet × Player :=
  let s0 : Enc := { p := NewOutgoingPacket 91, player := player, counter := 0 }
  let s1 := player.LocalObjects.foldl bndEntry s0
  let s2 := newObjects.foldl bndNew s1
  (if s2.counter = 0 then none else some s2.p, s2.player)

/-! ### Record layouts, stated separately from the encoders

The definitions below describe, in the words of the wire format, what each loop body is
expected to write; the theorems compare them with the embedded code. -/

/-- The removal record: bit 1, bit 1, then the value 3 in two bits. -/
def removalRecord : List Field :=
  [{ width := 1, value := 1 }, { width := 1, value := 1 }, { width := 2, value := 3 }]

/-- The record of an entity that stays: one bit 0 when nothing changed; bit 1, bit 0 and the
direction in 3 bits when it moved; bit 1, bit 1 and the direction in 4 bits when only its
sprite changed. -/
def updateRecord (moved changed : Bool) (dir : Int) : List Field :=
  if moved then
    [{ width := 1, value := 1 }, { width := 1, value := 0 }, { width := 3, value := (dir % 8).toNat }]
  else if changed then
    [{ width := 1, value := 1 }, { width := 1, value := 1 }, { width := 4, value := (dir % 16).toNat }]
  else [{ width := 1, value := 0 }]

/-- The longest single-axis delta of the NPC from the observer exceeds 15. -/
def npcGone (loc : Location) (n : NPC) : Bool := decide (n.LongestDelta loc > 15)

/-- The longest single-axis delta of the player from the observer exceeds 15, or the
player is flagged `plrremove`. -/
def plrGone (loc : Location) (p1 : PlayerInfo) : Bool :=
  decide (p1.LongestDelta loc > 15) || p1.plrremove

/-- The per-entity record of a cached NPC. -/
def npcEntryBits (loc : Location) (n : NPC) : List Field :=
  if npcGone loc n then removalRecord else updateRecord n.moved n.changed n.Direction

/-- The per-entity record of a cached player. -/
def plrEntryBits (loc : Location) (p1 : PlayerInfo) : List Field :=
  if plrGone loc p1 then removalRecord else updateRecord p1.plrmoved p1.plrchanged p1.Direction

/-- A cached NPC whose record is a removal or an update (not the no-change bit). -/
def npcCounted (loc : Location) (n : NPC) : Bool := npcGone loc n || n.moved || n.changed

/-- A cached player whose record is a removal or an update (not the no-change bit). -/
def plrCounted (loc : Location) (p1 : PlayerInfo) : Bool :=
  plrGone loc p1 || p1.plrmoved || p1.plrchanged

/-- The new-NPC record: 12-bit index, two 5-bit offsets, 4-bit direction, 10-bit type. -/
def npcNewBits (loc : Location) (n : NPC) : List Field :=
  [{ width := 12, value := (n.Index % 4096).toNat },
   { width := 5, value := (((n.X : Int) - (loc.X : Int)) % 32).toNat },
   { width := 5, value := (((n.Y : Int) - (loc.Y : Int)) % 32).toNat },
   { width := 4, value := (n.Direction % 16).toNat },
   { width := 10, value := (n.ID % 1024).toNat }]

/-- The new-player record: 11-bit index, two 5-bit offsets, 4-bit direction, one bit 0. -/
def plrNewBits (loc : Location) (p1 : PlayerInfo) : List Field :=
  [{ width := 11, value := (p1.Index % 2048).toNat },
   { width := 5, value := (((p1.X : Int) - (loc.X : Int)) % 32).toNat },
   { width := 5, value := (((p1.Y : Int) - (loc.Y : Int)) % 32).toNat },
   { width := 4, value := (p1.Direction % 16).toNat },
   { width := 1, value := 0 }]

/-- The number of entries the addition loop takes from the list of new entities: none once
the cache holds 255 entries, at most 25 otherwise. -/
def capTake (cached fresh : Nat) : Nat := min fresh (min 25 (255 - cached))

/-- The number of entries the new-NPC loop takes when `newCount` records were already
written: the cache length is tested but never changes during the loop. -/
def npcTake (cached fresh newCount : Nat) : Nat :=
  if cached ≥ 255 then 0 else min fresh (25 - newCount)

/-- The `KnownAppearances` map once the tickets of the removed players are deleted. -/
def forgetGone (loc : Location) (l : List PlayerInfo) (known : Int → Option Int) :
    Int → Option Int :=
  l.foldl (fun m q => if plrGone loc q then mapDelete m q.Index else m) known

/-- The observer as the cached-NPC loop leaves it: the NPCs beyond 15 tiles are evicted. -/
def npcKept (player : Player) : Player :=
  { player with LocalNPCs := player.LocalNPCs.filter (fun q => !npcGone player.toLocation q) }

/-- The observer as the cached-player loop leaves it: the players beyond 15 tiles or flagged
`plrremove` are evicted and their tickets deleted. -/
def plrKept (player : Player) : Player :=
  { player with
    LocalPlayers := player.LocalPlayers.filter (fun q => !plrGone player.toLocation q)
    KnownAppearances := forgetGone player.toLocation player.LocalPlayers player.KnownAppearances }

/-- The observer's own flags count as one record of `PlayerPositions`. -/
def selfCounted (player : Player) : Nat :=
  if player.plrremove || !player.plrself || player.plrmoved || player.plrchanged then 1 else 0

/-- The fixed header of `PlayerPositions`: own X in 11 bits, own Y in 13 bits, own direction
in 4 bits, then the number of cached players in 8 bits. -/
def plrHeader (player : Player) : List Field :=
  [{ width := 11, value := player.X % 2048 },
   { width := 13, value := player.Y % 8192 },
   { width := 4, value := (player.Direction % 16).toNat },
   { width := 8, value := player.LocalPlayers.length % 256 }]

/-- A cached freestanding object that `ObjectLocations` removes: out of range (more than
21 tiles away) or no longer the object stored at its tile, that is, the store holds nothing
there or an object at another address. -/
def objGone (GetObject : Nat → Nat → Option Object) (loc : Location) (o : Object) : Bool :=
  !o.Boundary && (!loc.WithinRange o.toLocation 21 || differsFrom (GetObject o.X o.Y) o)

/-- A cached boundary that `BoundaryLocations` removes: more than 21 tiles away. -/
def bndGone (loc : Location) (o : Object) : Bool :=
  o.Boundary && !loc.WithinRange o.toLocation 21

/-- The removal record of `ObjectLocations`: the 16-bit value 60000 and two offset bytes. -/
def objRemoveBits (loc : Location) (o : Object) : List Field :=
  [{ width := 16, value := 60000 }, { width := 8, value := byte (sub32 o.X loc.X) },
   { width := 8, value := byte (sub32 o.Y loc.Y) }]

/-- The addition record of `ObjectLocations`: the 16-bit id and two offset bytes. -/
def objNewBits (loc : Location) (o : Object) : List Field :=
  [{ width := 16, value := uint16 o.ID }, { width := 8, value := byte (sub32 o.X loc.X) },
   { width := 8, value := byte (sub32 o.Y loc.Y) }]

/-- The removal record of `BoundaryLocations`: the byte 255 and two offset bytes. -/
def bndRemoveBits (loc : Location) (o : Object) : List Field :=
  [{ width := 8, value := 255 }, { width := 8, value := byte (sub32 o.X loc.X) },
   { width := 8, value := byte (sub32 o.Y loc.Y) }]

/-- The addition record of `BoundaryLocations`: the 16-bit id, two offset bytes and the
direction byte. -/
def bndNewBits (loc : Location) (o : Object) : List Field :=
  [{ width := 16, value := uint16 o.ID }, { width := 8, value := byte (sub32 o.X loc.X) },
   { width := 8, value := byte (sub32 o.Y loc.Y) }, { width := 8, value := byte o.Direction }]

/-- A state in which no encoder has anything to report for this observer: its own
attribute `plrself` is set and its other three attributes are not; every cached NPC and
player is within 15 tiles with no flag set; the current ticket of every cached player is
the one recorded in `KnownAppearances`; every cached object is within 21 tiles and, when
freestanding, still the very object (same address) stored at its tile; and there is no new
NPC, player or object to add. -/
def settled (NewNPCs : Player → List NPC) (NewPlayers : Player → List PlayerInfo)
    (GetObject : Nat → Nat → Option Object) (newObjects : List Object) (player : Player) : Prop :=
  player.plrself = true ∧ player.plrremove = false ∧ player.plrmoved = false ∧
  player.plrchanged = false ∧
  (∀ n ∈ player.LocalNPCs,
    n.LongestDelta player.toLocation ≤ 15 ∧ n.moved = false ∧ n.changed = false) ∧
  (∀ q ∈ player.LocalPlayers,
    q.LongestDelta player.toLocation ≤ 15 ∧ q.plrremove = false ∧ q.plrmoved = false ∧
    q.plrchanged = false ∧ player.KnownAppearances q.Index = some q.AppearanceTicket) ∧
  (∀ o ∈ player.LocalObjects,
    player.toLocation.LongestDelta o.toLocation ≤ 21 ∧
    (o.Boundary = false → differsFrom (GetObject o.X o.Y) o = false)) ∧
  NewNPCs player = [] ∧ NewPlayers player = [] ∧ newObjects = []

/-- The appearance record of one player: 16-bit index, the byte 5, the 16-bit ticket, the
64-bit name hash, the worn-items length 12 with its twelve bytes, then hair, top, bottom,
skin, combat level and skull bytes. -/
def appearanceBits (player : PlayerInfo) : List Field :=
  [{ width := 16, value := uint16 player.Index }, { width := 8, value := 5 },
   { width := 16, value := uint16 player.AppearanceTicket },
   { width := 64, value := player.Username37 }, { width := 8, value := 12 },
   { width := 8, value := 1 }, { width := 8, value := 2 }, { width := 8, value := 3 }] ++
  List.replicate 9 { width := 8, value := 0 } ++
  [{ width := 8, value := 2 }, { width := 8, value := 8 }, { width := 8, value := 14 },
   { width := 8, value := 0 }, { width := 8, value := 3 }, { width := 8, value := 0 }]

/-- The update-size field that opens the appearance packet: the number of records, as a
`uint16`. -/
def appearanceSize (l : List PlayerInfo) : Field := { width := 16, value := uint16 l.length }

/-- The `KnownAppearances` map once the ticket of every serialised player is recorded, in
the order of serialisation. -/
def recordTickets (l : List PlayerInfo) (known : Int → Option Int) : Int → Option Int :=
  l.foldl (fun m q => mapSet m q.Index q.AppearanceTicket) known

/-! ### Concrete observers used as test inputs -/

/-- A player at tile (100, 100) with no flag set, no cached entity and no known ticket. -/
def idleObserver : Player :=
  { X := 100, Y := 100, Index := 1, Direction := 0, plrremove := false, plrself := false,
    plrmoved := false, plrchanged := false, AppearanceTicket := 0, Username37 := 0,
    LocalPlayers := [], LocalNPCs := [], LocalObjects := [], KnownAppearances := fun _ => none }

/-- An NPC of type 7 with the given index at the given tile, no flag set. -/
def npcAt (i : Int) (x y : Nat) : NPC :=
  { X := x, Y := y, Index := i, ID := 7, Direction := 0, moved := false, changed := false,
    removed := false }

/-- Thirty NPCs, indices 0 to 29, all standing on the tile of `idleObserver`. -/
def thirtyNPCs : List NPC := (List.range 30).map (fun i => npcAt i 100 100)

/-- A player of index 2 standing three tiles east of `idleObserver`, no flag set, ticket 4. -/
def quietNeighbour : PlayerInfo :=
  { X := 103, Y := 100, Index := 2, Direction := 0, plrremove := false, plrself := true,
    plrmoved := false, plrchanged := false, AppearanceTicket := 4, Username37 := 0 }

/-- A freestanding object and a boundary near `idleObserver`. -/
def quietObjects : List Object :=
  [{ X := 104, Y := 99, ID := 1, Direction := 0, Boundary := false, ptr := 1 },
   { X := 98, Y := 101, ID := 2, Direction := 1, Boundary := true, ptr := 2 }]

/-- The object store holding the freestanding object of `quietObjects`. -/
def quietStore (x y : Nat) : Option Object :=
  if x = 104 ∧ y = 99 then
    some { X := 104, Y := 99, ID := 1, Direction := 0, Boundary := false, ptr := 1 }
  else none

/-- The object store after the object at (104, 99) was replaced by a new object with the same
fields: the store now returns another address than the one cached in `quietObjects`. -/
def replacedStore (x y : Nat) : Option Object :=
  if x = 104 ∧ y = 99 then
    some { X := 104, Y := 99, ID := 1, Direction := 0, Boundary := false, ptr := 7 }
  else none

/-- An observer that already knows everything around it: `plrself` is set, one NPC, one
player (with its ticket recorded) and two objects are cached and nothing is flagged. -/
def quietObserver : Player :=
  { idleObserver with
    plrself := true
    LocalPlayers := [quietNeighbour]
    LocalNPCs := [npcAt 5 101 99]
    LocalObjects := quietObjects
    KnownAppearances := fun i => if i = 2 then some 4 else none }

/-- An observer whose `plrself` is set and whose only cached player has no recorded ticket. -/
def unticketedObserver : Player :=
  { idleObserver with plrself := true, LocalPlayers := [quietNeighbour] }

/-- An NPC on the observer's tile whose region-removed flag is set. -/
def flaggedNPC : NPC := { npcAt 5 100 100 with removed := true }

/-- An observer, `plrself` set, whose only cached NPC is `flaggedNPC`. -/
def flaggedObserver : Player :=
  { idleObserver with plrself := true, LocalNPCs := [flaggedNPC] }

/-- A player fifteen tiles east of `idleObserver` that moved this tick, facing 6. -/
def movedNeighbour : PlayerInfo :=
  { quietNeighbour with X := 115, Direction := 6, plrmoved := true }

/-- An observer caching `movedNeighbour` and, further away than 15 tiles, a second player. -/
def busyObserver : Player :=
  { idleObserver with
    Direction := 3
    LocalPlayers := [movedNeighbour, { quietNeighbour with Index := 9, X := 116 }] }

/-- The packet `PlayerPositions` returns for `busyObserver` when nobody new is in view. -/
def busyPacket : Packet :=
  { Opcode := 191, Payload :=
      [{ width := 11, value := 100 }, { width := 13, value := 100 }, { width := 4, value := 3 },
       { width := 8, value := 2 }, { width := 1, value := 1 }, { width := 1, value := 0 },
       { width := 3, value := 6 }, { width := 1, value := 1 }, { width := 1, value := 1 },
       { width := 2, value := 3 }] }

/-- The player `quietNeighbour` one tick earlier: one tile further east and flagged moved. -/
def arrivingNeighbour : PlayerInfo := { quietNeighbour with X := 104, plrmoved := true }

/-- The observer `idleObserver` after one tick in which `arrivingNeighbour` came into view:
`PlayerPositions` followed by `PlayerAppearances`. -/
def afterFirstTick : Player :=
  (PlayerAppearances (PlayerPositions (fun _ => [arrivingNeighbour]) idleObserver).2).2

/-- The observer at the start of the next tick.  The cache of the source holds pointers, so
the cached player shows its current state: it has stepped to (103, 100) and its moved flag
has been cleared. -/
def secondTickObserver : Player := { afterFirstTick with LocalPlayers := [quietNeighbour] }

/-- A byte read as a signed 8-bit integer, as the client reads the offset bytes. -/
def int8 (b : Nat) : Int := if b ≥ 128 then (b : Int) - 256 else (b : Int)

/-- An observer at (100, 100), `plrself` set, caching one boundary 30 tiles to the west (RSC
x grows westwards) and nothing else. -/
def farBoundaryObserver : Player :=
  { idleObserver with
    plrself := true
    LocalObjects := [{ X := 130, Y := 100, ID := 2, Direction := 1, Boundary := true, ptr := 3 }] }

/-- An observer at (100, 100) caching one freestanding object 200 tiles away on the X axis. -/
def farObjectObserver : Player :=
  { idleObserver with
    plrself := true
    LocalObjects :=
      [{ X := 300, Y := 100, ID := 1, Direction := 0, Boundary := false, ptr := 4 }] }

/-- An object store holding the object cached by `farObjectObserver` and nothing else. -/
def farStore (x y : Nat) : Option Object :=
  if x = 300 ∧ y = 100 then
    some { X := 300, Y := 100, ID := 1, Direction := 0, Boundary := false, ptr := 4 }
  else none

/-- An object store holding nothing. -/
def emptyStore (_x _y : Nat) : Option Object := none

end Packets

namespace ServerWorld

/-! ## `pkg/server/world/pathway.go` -/

/-- The struct `Pathway`: `StartX`, `StartY` are `uint32`, the waypoint lists hold Go `int`
offsets and `CurrentWaypoint` is a Go `int`. -/
structure Pathway where
  StartX : Nat
  StartY : Nat
  WaypointsX : List Int
  WaypointsY : List Int
  CurrentWaypoint : Int
deriving DecidableEq, Repr

/-- The constructor `NewPathway`. -/
def NewPathway (destX destY : Nat) : Pathway :=
  { StartX := destX, StartY := destY, WaypointsX := [], WaypointsY := [], CurrentWaypoint := -1 }

/-- The constructor `NewPathwayComplete`. -/
def NewPathwayComplete (destX destY : Nat) (waypointsX waypointsY : List Int) : Pathway :=
  { StartX := destX, StartY := destY, WaypointsX := waypointsX, WaypointsY := waypointsY,
    CurrentWaypoint := -1 }

/-- The Go expression `s[w]` on a slice: `none` stands for the run-time panic raised when
the index is negative or not below the length. -/
def sliceAt (s : List Int) (w : Int) : Option Int :=
  if w < 0 then none else s[w.toNat]?

/-- The method `waypointXoffset`. -/
def Pathway.waypointXoffset (p : Pathway) (w : Int) : Option Int :=
  if w ≥ (p.WaypointsX.length : Int) ∨ w = -1 then some 0 else sliceAt p.WaypointsX w

/-- The method `waypointX`: `p.StartX + uint32(offset)`, computed in `uint32`. -/
def Pathway.waypointX (p : Pathway) (w : Int) : Option Nat :=
  (p.waypointXoffset w).map (fun off => Packets.add32 p.StartX (Packets.uint32 off))

/-- The method `waypointYoffset`. -/
def Pathway.waypointYoffset (p : Pathway) (w : Int) : Option Int :=
  if w ≥ (p.WaypointsY.length : Int) ∨ w = -1 then some 0 else sliceAt p.WaypointsY w

/-- The method `waypointY`: `p.StartY + uint32(offset)`, computed in `uint32`. -/
def Pathway.waypointY (p : Pathway) (w : Int) : Option Nat :=
  (p.waypointYoffset w).map (fun off => Packets.add32 p.StartY (Packets.uint32 off))

/-- The method `Waypoint`. -/
def Pathway.Waypoint (p : Pathway) (w : Int) : Option Packets.Location :=
  match p.waypointX w, p.waypointY w with
  | some x, some y => some { X := x, Y := y }
  | _, _ => none

/-- The method `Start`. -/
def Pathway.Start (p : Pathway) : Packets.Location := { X := p.StartX, Y := p.StartY }

/-- One of the two `switch` statements of `NextTile`, on one axis: the coordinate starts as
the waypoint's and is replaced by `start - 1` or `start + 1`, computed in `uint32`. -/
def stepAxis (start dest : Nat) : Nat :=
  if start > dest then Packets.sub32 start 1
  else if start < dest then Packets.add32 start 1
  else dest

/-- The method `NextTile`. -/
def Pathway.NextTile (p : Pathway) (startX startY : Nat) : Option Packets.Location :=
  match p.waypointX p.CurrentWaypoint, p.waypointY p.CurrentWaypoint with
  | some destX, some destY => some { X := stepAxis startX destX, Y := stepAxis startY destY }
  | _, _ => none

/-- A path with two turns, whose cursor is on the first of them. -/
def samplePath : Pathway :=
  { StartX := 120, StartY := 500, WaypointsX := [3, -2], WaypointsY := [-4, 0],
    CurrentWaypoint := 0 }

/-- Path following: the current tile is replaced `k` times by `NextTile` of itself. -/
def follow (p : Pathway) : Nat → Packets.Location → Option Packets.Location
  | 0, t => some t
  | k + 1, t =>
    match p.NextTile t.X t.Y with
    | some next => follow p k next
    | none => none

end ServerWorld

/-! ## Theorems about `npc.go` -/

namespace GameWorld

theorem redirect_fields (n : NPC) (r : Rng) :
    (redirect n r).1.Location = n.Location ∧ (redirect n r).1.Boundaries0 = n.Boundaries0 ∧
    (redirect n r).1.Boundaries1 = n.Boundaries1 ∧ (redirect n r).1.pathLength = n.pathLength := by
  unfold redirect
  split <;> simp

theorem traverseLoop_boundaries (reachable : Int → Int → Bool) (k : Nat) (n : NPC) (r : Rng) :
    (traverseLoop reachable k n r).1.Boundaries0 = n.Boundaries0 ∧
    (traverseLoop reachable k n r).1.Boundaries1 = n.Boundaries1 := by
  induction k generalizing n r with
  | zero => simp [traverseLoop]
  | succ k ih =>
    have hr := redirect_fields n r
    simp only [traverseLoop]
    split
    · rw [(ih _ _).1, (ih _ _).2]
      exact ⟨hr.2.1, hr.2.2.1⟩
    · exact ⟨hr.2.1, hr.2.2.1⟩

theorem traverseLoop_inLeash (reachable : Int → Int → Bool) (k : Nat) (n : NPC) (r : Rng)
    (h : inLeash n) : inLeash (traverseLoop reachable k n r).1 := by
  induction k generalizing n r with
  | zero => simpa [traverseLoop] using h
  | succ k ih =>
    have hr := redirect_fields n r
    simp only [traverseLoop]
    split
    · apply ih
      simp only [inLeash, hr.1, hr.2.1, hr.2.2.1]
      exact h
    · rename_i hrej
      simp only [rejected, Bool.or_eq_true, Bool.not_eq_true', not_or, decide_eq_true_eq,
        Bool.not_eq_false] at hrej
      rw [hr.2.1, hr.2.2.1] at hrej
      simp only [inLeash, NPC.SetLocation, hr.2.1, hr.2.2.1]
      omega

/-- C1: whatever the outcomes of the random direction draws, of the `Chance(25)` draws and
of the reachability test, an NPC located inside its leash rectangle is still inside it
(inclusive on both axes) after `TraversePath`, and the rectangle itself is untouched, so
the leash is preserved tick after tick. -/
theorem TraversePath_keeps_leash (reachable : Int → Int → Bool) (n : NPC) (r : Rng)
    (h : inLeash n) :
    (TraversePath reachable n r).1.Boundaries0 = n.Boundaries0 ∧
    (TraversePath reachable n r).1.Boundaries1 = n.Boundaries1 ∧
    n.Boundaries0.X ≤ (TraversePath reachable n r).1.Location.X ∧
    (TraversePath reachable n r).1.Location.X ≤ n.Boundaries1.X ∧
    n.Boundaries0.Y ≤ (TraversePath reachable n r).1.Location.Y ∧
    (TraversePath reachable n r).1.Location.Y ≤ n.Boundaries1.Y := by
  unfold TraversePath
  split
  · exact ⟨rfl, rfl, h⟩
  · have hb := traverseLoop_boundaries reachable 10 n r
    have hl := traverseLoop_inLeash reachable 10 n r h
    unfold inLeash at hl
    rw [hb.1, hb.2] at hl
    exact ⟨hb.1, hb.2, hl⟩

theorem TraversePath_keeps_leash_witness :
    inLeash leashNPC ∧
    ((TraversePath (fun _ _ => true) leashNPC leashRng).1.Boundaries0 = leashNPC.Boundaries0 ∧
    (TraversePath (fun _ _ => true) leashNPC leashRng).1.Boundaries1 = leashNPC.Boundaries1 ∧
    leashNPC.Boundaries0.X ≤ (TraversePath (fun _ _ => true) leashNPC leashRng).1.Location.X ∧
    (TraversePath (fun _ _ => true) leashNPC leashRng).1.Location.X ≤ leashNPC.Boundaries1.X ∧
    leashNPC.Boundaries0.Y ≤ (TraversePath (fun _ _ => true) leashNPC leashRng).1.Location.Y ∧
    (TraversePath (fun _ _ => true) leashNPC leashRng).1.Location.Y ≤ leashNPC.Boundaries1.Y) :=
  ⟨by decide, TraversePath_keeps_leash (fun _ _ => true) leashNPC leashRng (by decide)⟩

end GameWorld

/-! ## Theorems about `builders.go` -/

namespace Packets

theorem addBits_payload (p : Packet) (v : Int) (w : Nat) :
    (p.AddBits v w).Payload = p.Payload ++ [{ width := w, value := (v % 2 ^ w).toNat }] := rfl

theorem addBits_opcode (p : Packet) (v : Int) (w : Nat) : (p.AddBits v w).Opcode = p.Opcode := rfl

/-- One iteration of the cached-NPC loop: what it writes, counts and evicts. -/
theorem npcEntry_eq (s : Enc) (n : NPC) :
    npcEntry s n =
      { p := { s.p with Payload := s.p.Payload ++ npcEntryBits s.player.toLocation n }
        player := if npcGone s.player.toLocation n then
            { s.player with LocalNPCs := s.player.LocalNPCs.erase n } else s.player
        counter := s.counter + if npcCounted s.player.toLocation n then 1 else 0 } := by
  unfold npcEntry npcEntryBits npcCounted npcGone
  by_cases h : n.LongestDelta s.player.toLocation > 15
  · simp [h, Packet.AddBits, removalRecord]
  · by_cases hm : n.moved <;> by_cases hc : n.changed <;>
      simp [h, hm, hc, Packet.AddBits, updateRecord]

/-- One iteration of the cached-player loop: what it writes, counts and evicts. -/
theorem plrEntry_eq (s : Enc) (p1 : PlayerInfo) :
    plrEntry s p1 =
      { p := { s.p with Payload := s.p.Payload ++ plrEntryBits s.player.toLocation p1 }
        player := if plrGone s.player.toLocation p1 then
            { s.player with
              LocalPlayers := s.player.LocalPlayers.erase p1
              KnownAppearances := mapDelete s.player.KnownAppearances p1.Index } else s.player
        counter := s.counter + if plrCounted s.player.toLocation p1 then 1 else 0 } := by
  unfold plrEntry plrEntryBits plrCounted plrGone
  by_cases h : p1.LongestDelta s.player.toLocation > 15
  · simp [h, Packet.AddBits, removalRecord]
  · by_cases hr : p1.plrremove
    · simp [h, hr, Packet.AddBits, removalRecord]
    · by_cases hm : p1.plrmoved <;> by_cases hc : p1.plrchanged <;>
        simp [h, hr, hm, hc, Packet.AddBits, updateRecord]

/-- The whole cached-NPC loop, started in a state whose cache is the kept part of the
entries already visited followed by the entries still to visit. -/
theorem npcLoop_spec (l pre : List NPC) (s : Enc)
    (h : s.player.LocalNPCs = pre.filter (fun q => !npcGone s.player.toLocation q) ++ l) :
    l.foldl npcEntry s =
      { p := { s.p with Payload := s.p.Payload ++ l.flatMap (npcEntryBits s.player.toLocation) }
        player := { s.player with
          LocalNPCs := (pre ++ l).filter (fun q => !npcGone s.player.toLocation q) }
        counter := s.counter + l.countP (npcCounted s.player.toLocation) } := by
  induction l generalizing pre s with
  | nil =>
    obtain ⟨p, player, counter⟩ := s
    simp only [List.append_nil] at h
    simp [← h]
  | cons x l ih =>
    rw [List.foldl_cons, npcEntry_eq]
    by_cases hg : npcGone s.player.toLocation x = true
    · have hx : x ∉ pre.filter (fun q => !npcGone s.player.toLocation q) := by
        simp [List.mem_filter, hg]
      rw [ih (pre ++ [x])]
      · simp [hg, List.filter_append, List.countP_cons, npcCounted, npcEntryBits]
        omega
      · simp only [hg, if_true, h, List.erase_append_right _ hx, List.erase_cons_head,
          List.filter_append]
        simp [hg]
    · rw [ih (pre ++ [x])]
      · simp [hg, List.filter_append, List.countP_cons, npcCounted, npcEntryBits]
        omega
      · simp only [hg, h, List.filter_append]
        simp [hg, h]

/-- The whole cached-player loop, in the same form as `npcLoop_spec`. -/
theorem plrLoop_spec (l pre : List PlayerInfo) (s : Enc)
    (h : s.player.LocalPlayers = pre.filter (fun q => !plrGone s.player.toLocation q) ++ l) :
    l.foldl plrEntry s =
      { p := { s.p with Payload := s.p.Payload ++ l.flatMap (plrEntryBits s.player.toLocation) }
        player := { s.player with
          LocalPlayers := (pre ++ l).filter (fun q => !plrGone s.player.toLocation q)
          KnownAppearances := forgetGone s.player.toLocation l s.player.KnownAppearances }
        counter := s.counter + l.countP (plrCounted s.player.toLocation) } := by
  induction l generalizing pre s with
  | nil =>
    obtain ⟨p, player, counter⟩ := s
    simp only [List.append_nil] at h
    simp [← h, forgetGone]
  | cons x l ih =>
    rw [List.foldl_cons, plrEntry_eq]
    by_cases hg : plrGone s.player.toLocation x = true
    · have hx : x ∉ pre.filter (fun q => !plrGone s.player.toLocation q) := by
        simp [List.mem_filter, hg]
      rw [ih (pre ++ [x])]
      · simp [hg, List.filter_append, List.countP_cons, plrCounted, plrEntryBits, forgetGone]
        omega
      · simp only [hg, if_true, h, List.erase_append_right _ hx, List.erase_cons_head,
          List.filter_append]
        simp [hg]
    · rw [ih (pre ++ [x])]
      · simp [hg, List.filter_append, List.countP_cons, plrCounted, plrEntryBits, forgetGone]
        omega
      · simp only [hg, h, List.filter_append]
        simp [hg, h]

theorem npcOffset_field (a b : Nat) :
    (((npcOffset a b : Nat) : Int) % 2 ^ 5).toNat = (((a : Int) - (b : Int)) % 32).toNat := by
  have h0 : (0 : Int) ≤ ((a : Int) - (b : Int)) % 4294967296 := Int.emod_nonneg _ (by norm_num)
  have hs : ((sub32 a b : Nat) : Int) = ((a : Int) - (b : Int)) % 4294967296 := by
    unfold sub32 uint32
    exact Int.toNat_of_nonneg h0
  have hn : ¬ ((sub32 a b : Nat) : Int) < 0 := by omega
  unfold npcOffset
  rw [if_neg hn, hs]
  congr 1
  omega

theorem plrOffset_field (a b : Nat) :
    ((plrOffset a b) % 2 ^ 5).toNat = (((a : Int) - (b : Int)) % 32).toNat := by
  unfold plrOffset
  split
  · congr 1; omega
  · rfl

/-- One iteration of the new-NPC loop: it writes the new-NPC record and counts it; the
observer, and so its cache, is left as it was. -/
theorem npcNew_eq (s : Enc) (n : NPC) :
    npcNew s n =
      { p := { s.p with Payload := s.p.Payload ++ npcNewBits s.player.toLocation n }
        player := s.player
        counter := s.counter + 1 } := by
  unfold npcNew npcNewBits
  simp only [Packet.AddBits, List.append_assoc, List.singleton_append, npcOffset_field]
  norm_num

/-- One iteration of the new-player loop: it writes the new-player record, counts it and
appends the player to the cache. -/
theorem plrNew_eq (s : Enc) (p1 : PlayerInfo) :
    plrNew s p1 =
      { p := { s.p with Payload := s.p.Payload ++ plrNewBits s.player.toLocation p1 }
        player := { s.player with LocalPlayers := s.player.LocalPlayers ++ [p1] }
        counter := s.counter + 1 } := by
  unfold plrNew plrNewBits
  simp only [Packet.AddBits, List.append_assoc, List.singleton_append, plrOffset_field]
  norm_num

/-- The whole new-NPC loop. -/
theorem npcAdd_spec (news : List NPC) (c : Nat) (s : Enc) :
    npcAdd news c s =
      { p := { s.p with Payload := (s.p.Payload ++
          (news.take (npcTake s.player.LocalNPCs.length news.length c)).flatMap
            (npcNewBits s.player.toLocation)) }
        player := s.player
        counter := s.counter + npcTake s.player.LocalNPCs.length news.length c } := by
  induction news generalizing c s with
  | nil => simp [npcAdd, npcTake]
  | cons x l ih =>
    unfold npcAdd
    split
    · rename_i hcap
      have hk : npcTake s.player.LocalNPCs.length (x :: l).length c = 0 := by
        unfold npcTake
        split
        · rfl
        · simp only [List.length_cons]; omega
      rw [hk]
      simp
    · rename_i hcap
      have hk : npcTake s.player.LocalNPCs.length (x :: l).length c =
          npcTake s.player.LocalNPCs.length l.length (c + 1) + 1 := by
        unfold npcTake
        simp only [List.length_cons]
        split
        · omega
        · omega
      rw [ih, npcNew_eq, hk]
      simp [List.take_succ_cons]
      omega

/-- The whole new-player loop. -/
theorem plrAdd_spec (news : List PlayerInfo) (c : Nat) (s : Enc) :
    plrAdd news c s =
      { p := { s.p with Payload := (s.p.Payload ++
          (news.take (min news.length (min (25 - c) (255 - s.player.LocalPlayers.length)))).flatMap
            (plrNewBits s.player.toLocation)) }
        player := { s.player with LocalPlayers := (s.player.LocalPlayers ++
          news.take (min news.length (min (25 - c) (255 - s.player.LocalPlayers.length)))) }
        counter := (s.counter +
          min news.length (min (25 - c) (255 - s.player.LocalPlayers.length))) } := by
  induction news generalizing c s with
  | nil => simp [plrAdd]
  | cons x l ih =>
    unfold plrAdd
    split
    · rename_i hcap
      have hk : min (x :: l).length (min (25 - c) (255 - s.player.LocalPlayers.length)) = 0 := by
        simp only [List.length_cons]; omega
      rw [hk]
      simp
    · rename_i hcap
      have hk : min (x :: l).length (min (25 - c) (255 - s.player.LocalPlayers.length)) =
          min l.length (min (25 - (c + 1)) (255 - (s.player.LocalPlayers.length + 1))) + 1 := by
        simp only [List.length_cons]; omega
      rw [ih, plrNew_eq, hk]
      simp [List.take_succ_cons]
      omega

/-- The state of `NPCPositions` after its first loop. -/
theorem npcLoop_run (player : Player) :
    player.LocalNPCs.foldl npcEntry
        { p := (NewOutgoingPacket 79).AddBits player.LocalNPCs.length 8, player := player,
          counter := 0 } =
      { p := { Opcode := 79, Payload := ({ width := 8, value := player.LocalNPCs.length % 256 } ::
          player.LocalNPCs.flatMap (npcEntryBits player.toLocation)) }
        player := npcKept player
        counter := player.LocalNPCs.countP (npcCounted player.toLocation) } := by
  rw [npcLoop_spec player.LocalNPCs [] _ (by simp)]
  simp [npcKept, Packet.AddBits, NewOutgoingPacket]
  omega

/-- The state of `PlayerPositions` after its first loop. -/
theorem plrLoop_run (player : Player) :
    player.LocalPlayers.foldl plrEntry (plrStart player) =
      { p := { Opcode := 191, Payload := (plrHeader player ++
          player.LocalPlayers.flatMap (plrEntryBits player.toLocation)) }
        player := plrKept player
        counter := selfCounted player + player.LocalPlayers.countP (plrCounted player.toLocation) } := by
  rw [plrLoop_spec player.LocalPlayers [] _ (by simp [plrStart])]
  simp [plrKept, plrStart, plrHeader, selfCounted, Packet.AddBits, NewOutgoingPacket]
  omega

/-- The function `NPCPositions` in closed form. -/
theorem NPCPositions_eq (NewNPCs : Player → List NPC) (player : Player) :
    NPCPositions NewNPCs player =
      (if player.LocalNPCs.countP (npcCounted player.toLocation) +
            npcTake (npcKept player).LocalNPCs.length (NewNPCs (npcKept player)).length 0 = 0
        then none
        else some { Opcode := 79, Payload := (({ width := 8, value := player.LocalNPCs.length % 256 } ::
          player.LocalNPCs.flatMap (npcEntryBits player.toLocation)) ++
          ((NewNPCs (npcKept player)).take
            (npcTake (npcKept player).LocalNPCs.length (NewNPCs (npcKept player)).length 0)).flatMap
            (npcNewBits player.toLocation)) },
       npcKept player) := by
  unfold NPCPositions
  simp only [npcLoop_run, npcAdd_spec, Enc.result]
  simp [npcKept]

/-- The function `PlayerPositions` in closed form. -/
theorem PlayerPositions_eq (NewPlayers : Player → List PlayerInfo) (player : Player) :
    PlayerPositions NewPlayers player =
      (if selfCounted player + player.LocalPlayers.countP (plrCounted player.toLocation) +
            capTake (plrKept player).LocalPlayers.length (NewPlayers (plrKept player)).length = 0
        then none
        else some { Opcode := 191, Payload := (plrHeader player ++
          player.LocalPlayers.flatMap (plrEntryBits player.toLocation) ++
          ((NewPlayers (plrKept player)).take
            (capTake (plrKept player).LocalPlayers.length (NewPlayers (plrKept player)).length)).flatMap
            (plrNewBits player.toLocation)) },
       { plrKept player with LocalPlayers := ((plrKept player).LocalPlayers ++
          (NewPlayers (plrKept player)).take
            (capTake (plrKept player).LocalPlayers.length (NewPlayers (plrKept player)).length)) }) := by
  unfold PlayerPositions
  simp only [plrLoop_run, plrAdd_spec, Enc.result, capTake]
  simp [plrKept]

/-- One iteration of the first loop of `ObjectLocations`. -/
theorem objEntry_eq (G : Nat → Nat → Option Object) (s : Enc) (o : Object) :
    objEntry G s o =
      { p := { s.p with Payload := (s.p.Payload ++
          if objGone G s.player.toLocation o then objRemoveBits s.player.toLocation o else []) }
        player := if objGone G s.player.toLocation o then
            { s.player with LocalObjects := s.player.LocalObjects.erase o } else s.player
        counter := s.counter + if objGone G s.player.toLocation o then 1 else 0 } := by
  unfold objEntry objGone
  by_cases hb : o.Boundary = true
  · simp [hb]
  · by_cases hw : Location.WithinRange s.player.toLocation o.toLocation 21 = true <;>
      by_cases hg : differsFrom (G o.X o.Y) o = true <;>
      simp [hb, hw, hg, objRemoveBits, Packet.AddShort, Packet.AddByte]

/-- One iteration of the first loop of `BoundaryLocations`. -/
theorem bndEntry_eq (s : Enc) (o : Object) :
    bndEntry s o =
      { p := { s.p with Payload := (s.p.Payload ++
          if bndGone s.player.toLocation o then bndRemoveBits s.player.toLocation o else []) }
        player := if bndGone s.player.toLocation o then
            { s.player with LocalObjects := s.player.LocalObjects.erase o } else s.player
        counter := s.counter + if bndGone s.player.toLocation o then 1 else 0 } := by
  unfold bndEntry bndGone
  by_cases hb : o.Boundary = true
  · by_cases hw : Location.WithinRange s.player.toLocation o.toLocation 21 = true <;>
      simp [hb, hw, bndRemoveBits, Packet.AddByte]
  · simp [hb]

/-- A loop whose body evicts the entries selected by `gone` and writes `bits` for them,
in the form shared by the two object channels. -/
theorem evictLoop_spec (step : Enc → Object → Enc) (gone : Location → Object → Bool)
    (bits : Location → Object → List Field)
    (hstep : ∀ s o, step s o =
      { p := { s.p with Payload := (s.p.Payload ++
          if gone s.player.toLocation o then bits s.player.toLocation o else []) }
        player := if gone s.player.toLocation o then
            { s.player with LocalObjects := s.player.LocalObjects.erase o } else s.player
        counter := s.counter + if gone s.player.toLocation o then 1 else 0 })
    (l pre : List Object) (s : Enc)
    (h : s.player.LocalObjects = pre.filter (fun q => !gone s.player.toLocation q) ++ l) :
    l.foldl step s =
      { p := { s.p with Payload := (s.p.Payload ++
          (l.filter (gone s.player.toLocation)).flatMap (bits s.player.toLocation)) }
        player := { s.player with
          LocalObjects := (pre ++ l).filter (fun q => !gone s.player.toLocation q) }
        counter := s.counter + l.countP (gone s.player.toLocation) } := by
  induction l generalizing pre s with
  | nil =>
    obtain ⟨p, player, counter⟩ := s
    simp only [List.append_nil] at h
    simp [← h]
  | cons x l ih =>
    rw [List.foldl_cons, hstep]
    by_cases hg : gone s.player.toLocation x = true
    · have hx : x ∉ pre.filter (fun q => !gone s.player.toLocation q) := by
        simp [List.mem_filter, hg]
      rw [ih (pre ++ [x])]
      · simp [hg, List.filter_append, List.countP_cons]
        omega
      · simp only [hg, if_true, h, List.erase_append_right _ hx, List.erase_cons_head,
          List.filter_append]
        simp [hg]
    · rw [ih (pre ++ [x])]
      · simp [hg, List.filter_append, List.countP_cons]
      · simp only [hg, h, List.filter_append]
        simp [hg, h]

/-- The second loop of `ObjectLocations`. -/
theorem objNew_fold (news : List Object) (s : Enc) :
    news.foldl objNew s =
      { p := { s.p with Payload := (s.p.Payload ++
          (news.filter (fun o => !o.Boundary)).flatMap (objNewBits s.player.toLocation)) }
        player := { s.player with
          LocalObjects := (s.player.LocalObjects ++ news.filter (fun o => !o.Boundary)) }
        counter := s.counter + news.countP (fun o => !o.Boundary) } := by
  induction news generalizing s with
  | nil => simp
  | cons x l ih =>
    rw [List.foldl_cons, ih]
    by_cases hb : x.Boundary = true
    · simp [objNew, hb]
    · simp [objNew, hb, objNewBits, Packet.AddShort, Packet.AddByte, List.countP_cons]
      omega

/-- The second loop of `BoundaryLocations`. -/
theorem bndNew_fold (news : List Object) (s : Enc) :
    news.foldl bndNew s =
      { p := { s.p with Payload := (s.p.Payload ++
          (news.filter (fun o => o.Boundary)).flatMap (bndNewBits s.player.toLocation)) }
        player := { s.player with
          LocalObjects := (s.player.LocalObjects ++ news.filter (fun o => o.Boundary)) }
        counter := s.counter + news.countP (fun o => o.Boundary) } := by
  induction news generalizing s with
  | nil => simp
  | cons x l ih =>
    rw [List.foldl_cons, ih]
    by_cases hb : x.Boundary = true
    · simp [bndNew, hb, bndNewBits, Packet.AddShort, Packet.AddByte, List.countP_cons]
      omega
    · simp [bndNew, hb]

/-- The function `ObjectLocations` in closed form. -/
theorem ObjectLocations_eq (G : Nat → Nat → Option Object) (player : Player)
    (newObjects : List Object) :
    ObjectLocations G player newObjects =
      (if player.LocalObjects.countP (objGone G player.toLocation) +
            newObjects.countP (fun o => !o.Boundary) = 0 then none
        else some { Opcode := 48, Payload :=
          ((player.LocalObjects.filter (objGone G player.toLocation)).flatMap
              (objRemoveBits player.toLocation) ++
            (newObjects.filter (fun o => !o.Boundary)).flatMap (objNewBits player.toLocation)) },
       { player with LocalObjects :=
          (player.LocalObjects.filter (fun q => !objGone G player.toLocation q) ++
            newObjects.filter (fun o => !o.Boundary)) }) := by
  unfold ObjectLocations
  have h := evictLoop_spec (objEntry G) (objGone G) objRemoveBits (objEntry_eq G)
    player.LocalObjects [] { p := NewOutgoingPacket 48, player := player, counter := 0 } (by simp)
  simp only [h, objNew_fold]
  simp [NewOutgoingPacket]

/-- The function `BoundaryLocations` in closed form. -/
theorem BoundaryLocations_eq (player : Player) (newObjects : List Object) :
    BoundaryLocations player newObjects =
      (if player.LocalObjects.countP (bndGone player.toLocation) +
            newObjects.countP (fun o => o.Boundary) = 0 then none
        else some { Opcode := 91, Payload :=
          ((player.LocalObjects.filter (bndGone player.toLocation)).flatMap
              (bndRemoveBits player.toLocation) ++
            (newObjects.filter (fun o => o.Boundary)).flatMap (bndNewBits player.toLocation)) },
       { player with LocalObjects :=
          (player.LocalObjects.filter (fun q => !bndGone player.toLocation q) ++
            newObjects.filter (fun o => o.Boundary)) }) := by
  unfold BoundaryLocations
  have h := evictLoop_spec bndEntry bndGone bndRemoveBits bndEntry_eq
    player.LocalObjects [] { p := NewOutgoingPacket 91, player := player, counter := 0 } (by simp)
  simp only [h, bndNew_fold]
  simp [NewOutgoingPacket]

/-- C2: the new-NPC loop of `NPCPositions` never adds the NPCs it serialises to
`LocalNPCs`.  For an observer with an empty cache and thirty visible NPCs the first call
serialises the NPCs of index 0 to 24 and leaves the cache empty, so the next call serialises
the same twenty-five again and the NPCs of index 25 to 29 are not serialised. -/
theorem NPCPositions_caps_repeat :
    (∀ (f : Player → List NPC) (player : Player),
        (NPCPositions f player).2.LocalNPCs =
          player.LocalNPCs.filter (fun q => !npcGone player.toLocation q)) ∧
    (NPCPositions (NewNPCs thirtyNPCs) idleObserver).2.LocalNPCs = [] ∧
    (NPCPositions (NewNPCs thirtyNPCs) idleObserver).1 =
      some { Opcode := 79, Payload := ({ width := 8, value := 0 } ::
        (thirtyNPCs.take 25).flatMap (npcNewBits idleObserver.toLocation)) } ∧
    (NPCPositions (NewNPCs thirtyNPCs) (NPCPositions (NewNPCs thirtyNPCs) idleObserver).2).1 =
      (NPCPositions (NewNPCs thirtyNPCs) idleObserver).1 := by
  have hk : npcKept idleObserver = idleObserver := rfl
  have hn : NewNPCs thirtyNPCs idleObserver = thirtyNPCs := by decide
  have h1 : NPCPositions (NewNPCs thirtyNPCs) idleObserver =
      (some { Opcode := 79, Payload := ({ width := 8, value := 0 } ::
        (thirtyNPCs.take 25).flatMap (npcNewBits idleObserver.toLocation)) }, idleObserver) := by
    rw [NPCPositions_eq, hk, hn]
    rfl
  refine ⟨fun f player => ?_, ?_, ?_, ?_⟩
  · rw [NPCPositions_eq]
    rfl
  · rw [h1]
    rfl
  · rw [h1]
  · rw [h1]
    show (NPCPositions (NewNPCs thirtyNPCs) idleObserver).1 = _
    rw [h1]

/-- C3: the players `PlayerPositions` appends to `LocalPlayers` are exactly those it writes
new-player records for: the first `min (len, 25, 255 - cached)` entries of the list returned
by `NewPlayers`.  The entries after that prefix are neither serialised nor cached, and a
cache of at most 255 entries stays at most 255 long. -/
theorem PlayerPositions_adds_what_it_serialises (NewPlayers : Player → List PlayerInfo)
    (player : Player) :
    (PlayerPositions NewPlayers player).2.LocalPlayers =
      (player.LocalPlayers.foldl plrEntry (plrStart player)).player.LocalPlayers ++
        (NewPlayers (player.LocalPlayers.foldl plrEntry (plrStart player)).player).take
          (min (NewPlayers (player.LocalPlayers.foldl plrEntry (plrStart player)).player).length
            (min 25 (255 -
              (player.LocalPlayers.foldl plrEntry (plrStart player)).player.LocalPlayers.length))) ∧
    (∀ pkt, (PlayerPositions NewPlayers player).1 = some pkt →
      pkt.Payload = (player.LocalPlayers.foldl plrEntry (plrStart player)).p.Payload ++
        ((NewPlayers (player.LocalPlayers.foldl plrEntry (plrStart player)).player).take
          (min (NewPlayers (player.LocalPlayers.foldl plrEntry (plrStart player)).player).length
            (min 25 (255 -
              (player.LocalPlayers.foldl plrEntry (plrStart player)).player.LocalPlayers.length)))).flatMap
          (plrNewBits player.toLocation)) ∧
    ((PlayerPositions NewPlayers player).1 = none →
      min (NewPlayers (player.LocalPlayers.foldl plrEntry (plrStart player)).player).length
        (min 25 (255 -
          (player.LocalPlayers.foldl plrEntry (plrStart player)).player.LocalPlayers.length)) = 0) ∧
    (PlayerPositions NewPlayers player).2.LocalPlayers.length ≤ max 255 player.LocalPlayers.length := by
  rw [PlayerPositions_eq, plrLoop_run]
  refine ⟨by simp [capTake], ?_, ?_, ?_⟩
  · intro pkt h
    simp only [capTake] at h ⊢
    split at h
    · exact absurd h (by simp)
    · simp only [Option.some.injEq] at h
      rw [← h]
  · intro h
    simp only [capTake] at h ⊢
    split at h
    · omega
    · exact absurd h (by simp)
  · simp only [capTake]
    have hle : (plrKept player).LocalPlayers.length ≤ player.LocalPlayers.length := by
      simp only [plrKept]
      exact List.length_filter_le _ _
    simp only [List.length_append, List.length_take]
    omega

theorem forgetGone_none (loc : Location) (l : List PlayerInfo) (known : Int → Option Int)
    (h : ∀ q ∈ l, plrGone loc q = false) : forgetGone loc l known = known := by
  unfold forgetGone
  induction l generalizing known with
  | nil => rfl
  | cons x l ih =>
    rw [List.foldl_cons, h x (List.mem_cons_self _ _)]
    exact ih known (fun q hq => h q (List.mem_cons_of_mem _ hq))

theorem settled_facts (NewNPCs : Player → List NPC) (NewPlayers : Player → List PlayerInfo)
    (G : Nat → Nat → Option Object) (newObjects : List Object) (player : Player)
    (h : settled NewNPCs NewPlayers G newObjects player) :
    selfCounted player = 0 ∧
    (∀ n ∈ player.LocalNPCs, npcGone player.toLocation n = false ∧
      npcCounted player.toLocation n = false) ∧
    (∀ q ∈ player.LocalPlayers, plrGone player.toLocation q = false ∧
      plrCounted player.toLocation q = false ∧
      needsAppearance player.KnownAppearances q = false) ∧
    (∀ o ∈ player.LocalObjects, objGone G player.toLocation o = false ∧
      bndGone player.toLocation o = false) := by
  obtain ⟨h1, h2, h3, h4, hn, hp, ho, -, -, -⟩ := h
  refine ⟨by simp [selfCounted, h1, h2, h3, h4], ?_, ?_, ?_⟩
  · intro n hmem
    obtain ⟨a, b, c⟩ := hn n hmem
    have : ¬ n.LongestDelta player.toLocation > 15 := by omega
    simp [npcCounted, npcGone, this, b, c]
  · intro q hmem
    obtain ⟨a, b, c, d, e⟩ := hp q hmem
    have : ¬ q.LongestDelta player.toLocation > 15 := by omega
    simp [plrCounted, plrGone, needsAppearance, this, b, c, d, e]
  · intro o hmem
    obtain ⟨a, b⟩ := ho o hmem
    by_cases hb : o.Boundary = true
    · simp [objGone, bndGone, Location.WithinRange, hb, a]
    · simp only [Bool.not_eq_true] at hb
      simp [objGone, bndGone, Location.WithinRange, hb, a, b hb]

/-- In a settled state each of the five encoders returns no packet and changes nothing. -/
theorem settled_calls (NewNPCs : Player → List NPC) (NewPlayers : Player → List PlayerInfo)
    (G : Nat → Nat → Option Object) (newObjects : List Object) (player : Player)
    (h : settled NewNPCs NewPlayers G newObjects player) :
    NPCPositions NewNPCs player = (none, player) ∧
    PlayerPositions NewPlayers player = (none, player) ∧
    PlayerAppearances player = (none, player) ∧
    ObjectLocations G player newObjects = (none, player) ∧
    BoundaryLocations player newObjects = (none, player) := by
  obtain ⟨hs, hn, hp, ho⟩ := settled_facts NewNPCs NewPlayers G newObjects player h
  obtain ⟨h1, -, -, -, -, -, -, hnn, hnp, hno⟩ := h
  have kn : npcKept player = player := by
    simp only [npcKept]
    rw [List.filter_eq_self.mpr (fun n hm => by simp [(hn n hm).1])]
  have kp : plrKept player = player := by
    simp only [plrKept]
    rw [List.filter_eq_self.mpr (fun q hm => by simp [(hp q hm).1]),
      forgetGone_none _ _ _ (fun q hm => (hp q hm).1)]
  have cn : player.LocalNPCs.countP (npcCounted player.toLocation) = 0 := by
    rw [List.countP_eq_zero]
    intro n hm
    simp [(hn n hm).2]
  have cp : player.LocalPlayers.countP (plrCounted player.toLocation) = 0 := by
    rw [List.countP_eq_zero]
    intro q hm
    simp [(hp q hm).2.1]
  have co : player.LocalObjects.countP (objGone G player.toLocation) = 0 := by
    rw [List.countP_eq_zero]
    intro o hm
    simp [(ho o hm).1]
  have cb : player.LocalObjects.countP (bndGone player.toLocation) = 0 := by
    rw [List.countP_eq_zero]
    intro o hm
    simp [(ho o hm).2]
  refine ⟨?_, ?_, ?_, ?_, ?_⟩
  · rw [NPCPositions_eq, kn, hnn, cn]
    simp [npcTake]
  · rw [PlayerPositions_eq, kp, hnp, cp, hs]
    simp [capTake]
  · have hl : appearanceList player = [] := by
      unfold appearanceList
      rw [List.filter_eq_nil_iff.mpr (fun q hm => by simp [(hp q hm).2.2])]
      simp [h1]
    simp [PlayerAppearances, hl]
  · rw [ObjectLocations_eq, co, hno]
    simp only [List.countP_nil, if_true, List.filter_nil, List.append_nil]
    rw [List.filter_eq_self.mpr (fun o hm => by simp [(ho o hm).1])]
  · rw [BoundaryLocations_eq, cb, hno]
    simp only [List.countP_nil, if_true, List.filter_nil, List.append_nil]
    rw [List.filter_eq_self.mpr (fun o hm => by simp [(ho o hm).2])]

/-- C5 as stated fails: with no flag set at all (so `plrself` unset) and nothing around,
`PlayerPositions` and `PlayerAppearances` return a packet on both of two consecutive calls;
and with `plrself` set, a cached player whose ticket is not yet recorded makes
`PlayerAppearances` return a packet although no flag is set and nobody moved. -/
theorem idempotence_needs_plrself_and_tickets :
    (PlayerPositions (fun _ => []) idleObserver).1 ≠ none ∧
    (PlayerPositions (fun _ => []) (PlayerPositions (fun _ => []) idleObserver).2).1 ≠ none ∧
    (PlayerAppearances idleObserver).1 ≠ none ∧
    (PlayerAppearances (PlayerAppearances idleObserver).2).1 ≠ none ∧
    (PlayerAppearances unticketedObserver).1 ≠ none := by
  refine ⟨by decide, by decide, by decide, by decide, by decide⟩

/-- C5 (amended): in a settled state (see `settled`) each of `NPCPositions`,
`PlayerPositions`, `PlayerAppearances`, `ObjectLocations` and `BoundaryLocations` returns no
packet and leaves the observer unchanged, so a second call returns no packet either. -/
theorem encoders_idempotent_when_settled (NewNPCs : Player → List NPC)
    (NewPlayers : Player → List PlayerInfo) (G : Nat → Nat → Option Object)
    (newObjects : List Object) (player : Player)
    (h : settled NewNPCs NewPlayers G newObjects player) :
    (NPCPositions NewNPCs player = (none, player) ∧
      (NPCPositions NewNPCs (NPCPositions NewNPCs player).2).1 = none) ∧
    (PlayerPositions NewPlayers player = (none, player) ∧
      (PlayerPositions NewPlayers (PlayerPositions NewPlayers player).2).1 = none) ∧
    (PlayerAppearances player = (none, player) ∧
      (PlayerAppearances (PlayerAppearances player).2).1 = none) ∧
    (ObjectLocations G player newObjects = (none, player) ∧
      (ObjectLocations G (ObjectLocations G player newObjects).2 newObjects).1 = none) ∧
    (BoundaryLocations player newObjects = (none, player) ∧
      (BoundaryLocations (BoundaryLocations player newObjects).2 newObjects).1 = none) := by
  obtain ⟨a, b, c, d, e⟩ := settled_calls NewNPCs NewPlayers G newObjects player h
  refine ⟨⟨a, ?_⟩, ⟨b, ?_⟩, ⟨c, ?_⟩, ⟨d, ?_⟩, ⟨e, ?_⟩⟩
  · rw [a]; show (NPCPositions NewNPCs player).1 = none; rw [a]
  · rw [b]; show (PlayerPositions NewPlayers player).1 = none; rw [b]
  · rw [c]; show (PlayerAppearances player).1 = none; rw [c]
  · rw [d]; show (ObjectLocations G player newObjects).1 = none; rw [d]
  · rw [e]; show (BoundaryLocations player newObjects).1 = none; rw [e]

theorem encoders_idempotent_when_settled_witness :
    settled (NewNPCs [npcAt 5 101 99]) (fun _ => []) quietStore [] quietObserver ∧
    ((NPCPositions (NewNPCs [npcAt 5 101 99]) quietObserver = (none, quietObserver) ∧
      (NPCPositions (NewNPCs [npcAt 5 101 99])
        (NPCPositions (NewNPCs [npcAt 5 101 99]) quietObserver).2).1 = none) ∧
    (PlayerPositions (fun _ => []) quietObserver = (none, quietObserver) ∧
      (PlayerPositions (fun _ => []) (PlayerPositions (fun _ => []) quietObserver).2).1 = none) ∧
    (PlayerAppearances quietObserver = (none, quietObserver) ∧
      (PlayerAppearances (PlayerAppearances quietObserver).2).1 = none) ∧
    (ObjectLocations quietStore quietObserver [] = (none, quietObserver) ∧
      (ObjectLocations quietStore (ObjectLocations quietStore quietObserver []).2 []).1 = none) ∧
    (BoundaryLocations quietObserver [] = (none, quietObserver) ∧
      (BoundaryLocations (BoundaryLocations quietObserver []).2 []).1 = none)) :=
  ⟨by unfold settled; decide,
   encoders_idempotent_when_settled (NewNPCs [npcAt 5 101 99]) (fun _ => []) quietStore []
     quietObserver (by unfold settled; decide)⟩

theorem countP_counted_split (loc : Location) (l : List NPC) :
    l.countP (npcCounted loc) =
      l.countP (npcGone loc) + l.countP (fun n => !npcGone loc n && (n.moved || n.changed)) := by
  induction l with
  | nil => rfl
  | cons x l ih =>
    simp only [List.countP_cons, ih, npcCounted]
    by_cases h1 : npcGone loc x = true <;> by_cases h2 : x.moved = true <;>
      by_cases h3 : x.changed = true <;> simp [h1, h2, h3] <;> omega

/-- C6: each of `NPCPositions`, `ObjectLocations` and `BoundaryLocations` returns no packet
exactly when the call wrote no removal, update or addition record; otherwise it returns a
packet with opcode 79, 48 and 91 respectively whose payload is made of those records (for
the NPC channel: after the 8-bit count, one record per cached NPC, then the additions). -/
theorem empty_result_rule (NewNPCs : Player → List NPC) (G : Nat → Nat → Option Object)
    (player : Player) (newObjects : List Object) :
    (((NPCPositions NewNPCs player).1 = none ↔
        player.LocalNPCs.countP (npcGone player.toLocation) +
        player.LocalNPCs.countP
          (fun n => !npcGone player.toLocation n && (n.moved || n.changed)) +
        ((NewNPCs (npcKept player)).take
          (npcTake (npcKept player).LocalNPCs.length (NewNPCs (npcKept player)).length 0)).length
          = 0) ∧
      ∀ pkt, (NPCPositions NewNPCs player).1 = some pkt →
        pkt.Opcode = 79 ∧
        pkt.Payload = { width := 8, value := player.LocalNPCs.length % 256 } ::
          player.LocalNPCs.flatMap (npcEntryBits player.toLocation) ++
          ((NewNPCs (npcKept player)).take
            (npcTake (npcKept player).LocalNPCs.length (NewNPCs (npcKept player)).length 0)).flatMap
            (npcNewBits player.toLocation)) ∧
    (((ObjectLocations G player newObjects).1 = none ↔
        player.LocalObjects.countP (objGone G player.toLocation) +
        newObjects.countP (fun o => !o.Boundary) = 0) ∧
      ∀ pkt, (ObjectLocations G player newObjects).1 = some pkt →
        pkt.Opcode = 48 ∧
        pkt.Payload =
          (player.LocalObjects.filter (objGone G player.toLocation)).flatMap
            (objRemoveBits player.toLocation) ++
          (newObjects.filter (fun o => !o.Boundary)).flatMap (objNewBits player.toLocation)) ∧
    (((BoundaryLocations player newObjects).1 = none ↔
        player.LocalObjects.countP (bndGone player.toLocation) +
        newObjects.countP (fun o => o.Boundary) = 0) ∧
      ∀ pkt, (BoundaryLocations player newObjects).1 = some pkt →
        pkt.Opcode = 91 ∧
        pkt.Payload =
          (player.LocalObjects.filter (bndGone player.toLocation)).flatMap
            (bndRemoveBits player.toLocation) ++
          (newObjects.filter (fun o => o.Boundary)).flatMap (bndNewBits player.toLocation)) := by
  have hsplit := countP_counted_split player.toLocation player.LocalNPCs
  refine ⟨⟨?_, ?_⟩, ⟨?_, ?_⟩, ⟨?_, ?_⟩⟩
  · rw [NPCPositions_eq, ← hsplit, List.length_take]
    have hle : npcTake (npcKept player).LocalNPCs.length (NewNPCs (npcKept player)).length 0 ≤
        (NewNPCs (npcKept player)).length := by
      unfold npcTake
      split <;> omega
    rw [Nat.min_eq_left hle]
    dsimp only
    split <;> simp_all
  · intro pkt h
    rw [NPCPositions_eq] at h
    dsimp only at h
    split at h
    · exact absurd h (by simp)
    · simp only [Option.some.injEq] at h
      rw [← h]
      simp
  · rw [ObjectLocations_eq]
    dsimp only
    split <;> simp_all
  · intro pkt h
    rw [ObjectLocations_eq] at h
    dsimp only at h
    split at h
    · exact absurd h (by simp)
    · simp only [Option.some.injEq] at h
      rw [← h]
      exact ⟨rfl, rfl⟩
  · rw [BoundaryLocations_eq]
    dsimp only
    split <;> simp_all
  · intro pkt h
    rw [BoundaryLocations_eq] at h
    dsimp only at h
    split at h
    · exact absurd h (by simp)
    · simp only [Option.some.injEq] at h
      rw [← h]
      exact ⟨rfl, rfl⟩

theorem forgetGone_miss (loc : Location) (l : List PlayerInfo) (known : Int → Option Int) (i : Int)
    (h : ∀ q ∈ l, plrGone loc q = true → q.Index ≠ i) : forgetGone loc l known i = known i := by
  unfold forgetGone
  induction l generalizing known with
  | nil => rfl
  | cons x l ih =>
    rw [List.foldl_cons, ih _ (fun q hq => h q (List.mem_cons_of_mem _ hq))]
    split
    · rename_i hg
      have := h x (List.mem_cons_self _ _) hg
      simp [mapDelete, Ne.symm this]
    · rfl

/-- The observer as `PlayerPositions` leaves it. -/
theorem PlayerPositions_state (NewPlayers : Player → List PlayerInfo) (player : Player) :
    (PlayerPositions NewPlayers player).2.toPlayerInfo = player.toPlayerInfo ∧
    (PlayerPositions NewPlayers player).2.LocalPlayers =
      player.LocalPlayers.filter (fun q => !plrGone player.toLocation q) ++
        (NewPlayers (plrKept player)).take
          (capTake (plrKept player).LocalPlayers.length (NewPlayers (plrKept player)).length) ∧
    (PlayerPositions NewPlayers player).2.KnownAppearances =
      forgetGone player.toLocation player.LocalPlayers player.KnownAppearances := by
  rw [PlayerPositions_eq]
  simp [plrKept]

/-- C8: `NPCPositions` tests only the distance.  An NPC flagged removed that stands on the
observer's tile gets the one-bit no-change record, stays in `LocalNPCs`, and the call
returns no packet; the same NPC more than 15 tiles away is removed. -/
theorem NPCPositions_ignores_removed_flag :
    (npcEntry { p := (NewOutgoingPacket 79).AddBits 1 8, player := flaggedObserver, counter := 0 }
        flaggedNPC).p.Payload = [{ width := 8, value := 1 }, { width := 1, value := 0 }] ∧
    (NPCPositions (fun _ => []) flaggedObserver).1 = none ∧
    (NPCPositions (fun _ => []) flaggedObserver).2.LocalNPCs = [flaggedNPC] ∧
    (NPCPositions (fun _ => [])
        { flaggedObserver with LocalNPCs := [{ flaggedNPC with Y := 116 }] }).2.LocalNPCs = [] := by
  refine ⟨by decide, by decide, by decide, by decide⟩

/-- C10: a packet returned by `PlayerPositions` for an observer caching at most 255 players
starts with the observer's X in 11 bits, Y in 13 bits, direction in 4 bits and the number
of cached players in 8 bits, whatever the observer's flags; then comes exactly one record
per cached player (a removal record or an update/no-change record), then the additions. -/
theorem PlayerPositions_self_header (NewPlayers : Player → List PlayerInfo) (player : Player)
    (pkt : Packet) (hlen : player.LocalPlayers.length ≤ 255)
    (h : (PlayerPositions NewPlayers player).1 = some pkt) :
    ∃ records : List (List Field), ∃ additions : List Field,
      pkt.Payload =
        [{ width := 11, value := player.X % 2048 }, { width := 13, value := player.Y % 8192 },
         { width := 4, value := (player.Direction % 16).toNat },
         { width := 8, value := records.length }] ++ records.flatMap id ++ additions ∧
      records.length = player.LocalPlayers.length ∧
      records = player.LocalPlayers.map (plrEntryBits player.toLocation) ∧
      (∀ r ∈ records, r = removalRecord ∨ ∃ m c d, r = updateRecord m c d) ∧
      additions = ((NewPlayers (plrKept player)).take
        (capTake (plrKept player).LocalPlayers.length (NewPlayers (plrKept player)).length)).flatMap
          (plrNewBits player.toLocation) := by
  rw [PlayerPositions_eq] at h
  dsimp only at h
  refine ⟨player.LocalPlayers.map (plrEntryBits player.toLocation), _, ?_, by simp, rfl, ?_, rfl⟩
  · split at h
    · exact absurd h (by simp)
    · simp only [Option.some.injEq] at h
      rw [← h]
      have hm : player.LocalPlayers.length % 256 = player.LocalPlayers.length := by omega
      simp [plrHeader, hm, List.flatMap_map]
  · intro r hr
    obtain ⟨q, -, rfl⟩ := List.mem_map.mp hr
    unfold plrEntryBits
    split
    · exact Or.inl rfl
    · exact Or.inr ⟨_, _, _, rfl⟩

theorem PlayerPositions_self_header_witness :
    (busyObserver.LocalPlayers.length ≤ 255 ∧
      (PlayerPositions (fun _ => []) busyObserver).1 = some busyPacket) ∧
    ∃ records : List (List Field), ∃ additions : List Field,
      busyPacket.Payload =
        [{ width := 11, value := busyObserver.X % 2048 },
         { width := 13, value := busyObserver.Y % 8192 },
         { width := 4, value := (busyObserver.Direction % 16).toNat },
         { width := 8, value := records.length }] ++ records.flatMap id ++ additions ∧
      records.length = busyObserver.LocalPlayers.length ∧
      records = busyObserver.LocalPlayers.map (plrEntryBits busyObserver.toLocation) ∧
      (∀ r ∈ records, r = removalRecord ∨ ∃ m c d, r = updateRecord m c d) ∧
      additions = (((fun _ => []) (plrKept busyObserver) : List PlayerInfo).take
        (capTake (plrKept busyObserver).LocalPlayers.length
          ((fun _ => []) (plrKept busyObserver) : List PlayerInfo).length)).flatMap
          (plrNewBits busyObserver.toLocation) :=
  ⟨⟨by decide, by decide⟩,
   PlayerPositions_self_header (fun _ => []) busyObserver busyPacket (by decide) (by decide)⟩

/-- One iteration of the serialising loop of `PlayerAppearances`. -/
theorem appearanceEntry_eq (s : Packet × (Int → Option Int)) (player : PlayerInfo) :
    appearanceEntry s player =
      ({ s.1 with Payload := s.1.Payload ++ appearanceBits player },
        mapSet s.2 player.Index player.AppearanceTicket) := by
  simp [appearanceEntry, addZeros, appearanceBits, Packet.AddShort, Packet.AddByte,
    Packet.AddLong, List.replicate]

/-- The serialising loop of `PlayerAppearances`. -/
theorem appearance_fold (l : List PlayerInfo) (s : Packet × (Int → Option Int)) :
    l.foldl appearanceEntry s =
      ({ s.1 with Payload := s.1.Payload ++ l.flatMap appearanceBits }, recordTickets l s.2) := by
  induction l generalizing s with
  | nil => simp [recordTickets]
  | cons x l ih =>
    rw [List.foldl_cons, ih, appearanceEntry_eq]
    simp [recordTickets]

theorem recordTickets_snoc (l : List PlayerInfo) (x : PlayerInfo) (known : Int → Option Int) :
    recordTickets (l ++ [x]) known = mapSet (recordTickets l known) x.Index x.AppearanceTicket := by
  simp [recordTickets, List.foldl_append]

theorem recordTickets_miss (l : List PlayerInfo) (known : Int → Option Int) (i : Int)
    (h : ∀ q ∈ l, q.Index ≠ i) : recordTickets l known i = known i := by
  induction l using List.reverseRecOn with
  | nil => rfl
  | append_singleton l x ih =>
    rw [recordTickets_snoc]
    have hx : ¬ i = x.Index := fun e => h x (by simp) e.symm
    simp only [mapSet, if_neg hx]
    exact ih (fun q hq => h q (by simp [hq]))

theorem recordTickets_hit (l : List PlayerInfo) (known : Int → Option Int) (p1 : PlayerInfo)
    (hmem : p1 ∈ l)
    (h : ∀ q ∈ l, q.Index = p1.Index → q.AppearanceTicket = p1.AppearanceTicket) :
    recordTickets l known p1.Index = some p1.AppearanceTicket := by
  induction l using List.reverseRecOn with
  | nil => simp at hmem
  | append_singleton l x ih =>
    rw [recordTickets_snoc]
    by_cases hx : p1.Index = x.Index
    · simp only [mapSet, if_pos hx]
      rw [h x (by simp) hx.symm]
    · simp only [mapSet, if_neg hx]
      have hm : p1 ∈ l := by
        rcases List.mem_append.mp hmem with hm | hm
        · exact hm
        · simp only [List.mem_singleton] at hm
          exact absurd (by rw [hm]) hx
      exact ih hm (fun q hq => h q (by simp [hq]))

/-- The function `PlayerAppearances` in closed form. -/
theorem PlayerAppearances_eq (ourPlayer : Player) :
    PlayerAppearances ourPlayer =
      if (appearanceList ourPlayer).length ≤ 0 then (none, ourPlayer)
      else
        (some { Opcode := 234, Payload := (appearanceSize (appearanceList ourPlayer) ::
            (appearanceList ourPlayer).flatMap appearanceBits) },
          { ourPlayer with KnownAppearances :=
              (recordTickets (appearanceList ourPlayer) ourPlayer.KnownAppearances) }) := by
  unfold PlayerAppearances
  split
  · rfl
  · simp [appearance_fold, NewOutgoingPacket, Packet.AddShort, appearanceSize]

theorem needsAppearance_iff (known : Int → Option Int) (p1 : PlayerInfo) :
    needsAppearance known p1 = true ↔ known p1.Index ≠ some p1.AppearanceTicket := by
  unfold needsAppearance
  cases h : known p1.Index with
  | none => simp
  | some t => simp

theorem recordTickets_some (l : List PlayerInfo) (known : Int → Option Int) (p1 : PlayerInfo)
    (hmem : p1 ∈ l) :
    ∃ q ∈ l, q.Index = p1.Index ∧ recordTickets l known p1.Index = some q.AppearanceTicket := by
  induction l using List.reverseRecOn with
  | nil => simp at hmem
  | append_singleton l x ih =>
    rw [recordTickets_snoc]
    by_cases hx : p1.Index = x.Index
    · exact ⟨x, by simp, hx.symm, by simp [mapSet, hx]⟩
    · have hm : p1 ∈ l := by
        rcases List.mem_append.mp hmem with hm | hm
        · exact hm
        · simp only [List.mem_singleton] at hm
          exact absurd (by rw [hm]) hx
      obtain ⟨q, hq, hi, hk⟩ := ih hm
      exact ⟨q, by simp [hq], hi, by simp only [mapSet, if_neg hx]; exact hk⟩

/-- C11: `PlayerAppearances` serialises the observer itself when `plrself` is unset, then
exactly the cached players whose ticket recorded in `KnownAppearances` is absent or differs
from their current `AppearanceTicket`; a cached player whose recorded ticket equals its
current one is not in that list.  After the call the map holds, for every index in the
packet, a ticket serialised for that index (the one of the last such record, hence the
ticket of the player when indices are distinct), and every other entry is unchanged. -/
theorem PlayerAppearances_ticket_rule (ourPlayer : Player) :
    appearanceList ourPlayer =
      (if ourPlayer.plrself = true then [] else [ourPlayer.toPlayerInfo]) ++
        ourPlayer.LocalPlayers.filter
          (fun p1 => decide (ourPlayer.KnownAppearances p1.Index ≠ some p1.AppearanceTicket)) ∧
    (∀ p1 ∈ ourPlayer.LocalPlayers,
      (p1 ∈ ourPlayer.LocalPlayers.filter (needsAppearance ourPlayer.KnownAppearances) ↔
        ourPlayer.KnownAppearances p1.Index ≠ some p1.AppearanceTicket)) ∧
    (∀ pkt, (PlayerAppearances ourPlayer).1 = some pkt →
      pkt.Opcode = 234 ∧
      pkt.Payload = appearanceSize (appearanceList ourPlayer) ::
        (appearanceList ourPlayer).flatMap appearanceBits) ∧
    ((PlayerAppearances ourPlayer).1 = none ↔ appearanceList ourPlayer = []) ∧
    (∀ p1 ∈ appearanceList ourPlayer,
      ∃ q ∈ appearanceList ourPlayer, q.Index = p1.Index ∧
        (PlayerAppearances ourPlayer).2.KnownAppearances p1.Index = some q.AppearanceTicket) ∧
    (∀ p1 ∈ appearanceList ourPlayer,
      (∀ q ∈ appearanceList ourPlayer, q.Index = p1.Index →
        q.AppearanceTicket = p1.AppearanceTicket) →
      (PlayerAppearances ourPlayer).2.KnownAppearances p1.Index = some p1.AppearanceTicket) ∧
    (∀ i, (∀ p1 ∈ appearanceList ourPlayer, p1.Index ≠ i) →
      (PlayerAppearances ourPlayer).2.KnownAppearances i = ourPlayer.KnownAppearances i) ∧
    (PlayerAppearances ourPlayer).2.LocalPlayers = ourPlayer.LocalPlayers := by
  have hfilter : ourPlayer.LocalPlayers.filter (needsAppearance ourPlayer.KnownAppearances) =
      ourPlayer.LocalPlayers.filter
        (fun p1 => decide (ourPlayer.KnownAppearances p1.Index ≠ some p1.AppearanceTicket)) := by
    apply List.filter_congr
    intro x _
    rw [Bool.eq_iff_iff, needsAppearance_iff]
    simp
  have hlen : (appearanceList ourPlayer).length ≤ 0 ↔ appearanceList ourPlayer = [] := by
    rw [Nat.le_zero, List.length_eq_zero]
  refine ⟨?_, ?_, ?_, ?_, ?_, ?_, ?_, ?_⟩
  · unfold appearanceList
    rw [hfilter]
    cases ourPlayer.plrself <;> simp
  · intro p1 hp
    rw [List.mem_filter, needsAppearance_iff]
    simp [hp]
  · intro pkt h
    rw [PlayerAppearances_eq] at h
    split at h
    · exact absurd h (by simp)
    · simp only [Option.some.injEq] at h
      rw [← h]
      exact ⟨rfl, rfl⟩
  · rw [PlayerAppearances_eq, ← hlen]
    split <;> simp_all
  · intro p1 hp
    rw [PlayerAppearances_eq]
    split
    · rename_i h0
      rw [hlen.mp h0] at hp
      simp at hp
    · exact recordTickets_some _ _ _ hp
  · intro p1 hp hq
    rw [PlayerAppearances_eq]
    split
    · rename_i h0
      rw [hlen.mp h0] at hp
      simp at hp
    · exact recordTickets_hit _ _ _ hp hq
  · intro i hi
    rw [PlayerAppearances_eq]
    split
    · rfl
    · exact recordTickets_miss _ _ _ hi
  · rw [PlayerAppearances_eq]
    split <;> rfl

theorem mem_appearanceList (o : Player) (q : PlayerInfo) (h : q ∈ appearanceList o) :
    q = o.toPlayerInfo ∨ (q ∈ o.LocalPlayers ∧ needsAppearance o.KnownAppearances q = true) := by
  unfold appearanceList at h
  rcases List.mem_append.mp h with h | h
  · left
    split at h <;> simp_all
  · right
    exact List.mem_filter.mp h

/-- After `PlayerAppearances` the ticket of a cached player is the recorded one, provided
every serialised record with the same index carries the same ticket. -/
theorem PlayerAppearances_records (o : Player) (p1 : PlayerInfo) (hmem : p1 ∈ o.LocalPlayers)
    (h : ∀ q ∈ appearanceList o, q.Index = p1.Index → q.AppearanceTicket = p1.AppearanceTicket) :
    (PlayerAppearances o).2.KnownAppearances p1.Index = some p1.AppearanceTicket := by
  have hk : o.KnownAppearances p1.Index = some p1.AppearanceTicket ∨ p1 ∈ appearanceList o := by
    by_cases hn : needsAppearance o.KnownAppearances p1 = true
    · right
      unfold appearanceList
      exact List.mem_append_right _ (List.mem_filter.mpr ⟨hmem, hn⟩)
    · left
      by_contra hc
      exact hn ((needsAppearance_iff _ _).mpr hc)
  rw [PlayerAppearances_eq]
  split
  · rename_i h0
    have he : appearanceList o = [] := List.length_eq_zero.mp (Nat.le_zero.mp h0)
    rcases hk with hk | hk
    · exact hk
    · rw [he] at hk
      simp at hk
  · show recordTickets (appearanceList o) o.KnownAppearances p1.Index = _
    by_cases hex : ∃ q ∈ appearanceList o, q.Index = p1.Index
    · obtain ⟨q, hq, hi⟩ := hex
      have := recordTickets_hit (appearanceList o) o.KnownAppearances q hq
        (fun r hr hri => by rw [h r hr (hri.trans hi), h q hq hi])
      rw [hi, h q hq hi] at this
      exact this
    · push_neg at hex
      rw [recordTickets_miss _ _ _ hex]
      rcases hk with hk | hk
      · exact hk
      · exact absurd rfl (hex p1 hk)

/-- A tick in which a cached player with a recorded ticket stays in range and unflagged:
the player stays cached, its ticket stays recorded and its appearance is not resent. -/
theorem quiet_tick (NewPlayers : Player → List PlayerInfo) (o : Player) (p1 : PlayerInfo)
    (hmem : p1 ∈ o.LocalPlayers)
    (hk : o.KnownAppearances p1.Index = some p1.AppearanceTicket)
    (hrange : p1.LongestDelta o.toLocation ≤ 15) (hr : p1.plrremove = false)
    (hself : o.Index ≠ p1.Index)
    (huniq : ∀ q, q ∈ o.LocalPlayers ∨ q ∈ NewPlayers (plrKept o) → q.Index = p1.Index → q = p1) :
    p1 ∈ (PlayerAppearances (PlayerPositions NewPlayers o).2).2.LocalPlayers ∧
    (PlayerAppearances (PlayerPositions NewPlayers o).2).2.KnownAppearances p1.Index =
      some p1.AppearanceTicket ∧
    p1 ∉ appearanceList (PlayerPositions NewPlayers o).2 ∧
    (∀ q ∈ appearanceList (PlayerPositions NewPlayers o).2, q.Index ≠ p1.Index) := by
  obtain ⟨hinfo, hcache, hknown⟩ := PlayerPositions_state NewPlayers o
  have hng : plrGone o.toLocation p1 = false := by
    have : ¬ p1.LongestDelta o.toLocation > 15 := by omega
    simp [plrGone, this, hr]
  have hin : p1 ∈ (PlayerPositions NewPlayers o).2.LocalPlayers := by
    rw [hcache]
    exact List.mem_append_left _ (List.mem_filter.mpr ⟨hmem, by simp [hng]⟩)
  have hsub : ∀ q ∈ (PlayerPositions NewPlayers o).2.LocalPlayers,
      q ∈ o.LocalPlayers ∨ q ∈ NewPlayers (plrKept o) := by
    intro q hq
    rw [hcache] at hq
    rcases List.mem_append.mp hq with hq | hq
    · exact Or.inl (List.mem_filter.mp hq).1
    · exact Or.inr (List.mem_of_mem_take hq)
  have hk2 : (PlayerPositions NewPlayers o).2.KnownAppearances p1.Index =
      some p1.AppearanceTicket := by
    rw [hknown, forgetGone_miss _ _ _ _ (fun q hq hg hi => ?_), hk]
    have := huniq q (Or.inl hq) hi
    rw [this, hng] at hg
    exact Bool.noConfusion hg
  have hnot : p1 ∉ appearanceList (PlayerPositions NewPlayers o).2 := by
    intro hc
    rcases mem_appearanceList _ _ hc with h | ⟨-, h⟩
    · apply hself
      rw [h]
      show o.toPlayerInfo.Index = (PlayerPositions NewPlayers o).2.toPlayerInfo.Index
      rw [hinfo]
    · exact (needsAppearance_iff _ _).mp h hk2
  have hmiss : ∀ q ∈ appearanceList (PlayerPositions NewPlayers o).2, q.Index ≠ p1.Index := by
    intro q hq hi
    rcases mem_appearanceList _ _ hq with h | ⟨hc, -⟩
    · apply hself
      rw [← hi, h]
      show o.toPlayerInfo.Index = (PlayerPositions NewPlayers o).2.toPlayerInfo.Index
      rw [hinfo]
    · have := huniq q (hsub q hc) hi
      rw [this] at hq
      exact hnot hq
  refine ⟨?_, ?_, hnot, hmiss⟩
  · rw [PlayerAppearances_eq]
    split <;> exact hin
  · rw [PlayerAppearances_eq]
    split
    · exact hk2
    · show recordTickets _ _ p1.Index = _
      rw [recordTickets_miss _ _ _ hmiss, hk2]

/-- The payload of a packet returned by `PlayerPositions`, split at one cached player. -/
theorem PlayerPositions_payload_split (NewPlayers : Player → List PlayerInfo) (player : Player)
    (pkt : Packet) (h : (PlayerPositions NewPlayers player).1 = some pkt)
    (before after : List PlayerInfo) (q : PlayerInfo)
    (hsplit : player.LocalPlayers = before ++ q :: after) :
    ∃ additions : List Field,
      pkt.Payload =
        [{ width := 11, value := player.X % 2048 }, { width := 13, value := player.Y % 8192 },
         { width := 4, value := (player.Direction % 16).toNat },
         { width := 8, value := player.LocalPlayers.length % 256 }] ++
        before.flatMap (plrEntryBits player.toLocation) ++ plrEntryBits player.toLocation q ++
        after.flatMap (plrEntryBits player.toLocation) ++ additions := by
  rw [PlayerPositions_eq] at h
  dsimp only at h
  split at h
  · exact absurd h (by simp)
  · simp only [Option.some.injEq] at h
    refine ⟨((NewPlayers (plrKept player)).take (capTake (plrKept player).LocalPlayers.length
      (NewPlayers (plrKept player)).length)).flatMap (plrNewBits player.toLocation), ?_⟩
    rw [← h]
    have hf : player.LocalPlayers.flatMap (plrEntryBits player.toLocation) =
        before.flatMap (plrEntryBits player.toLocation) ++ plrEntryBits player.toLocation q ++
          after.flatMap (plrEntryBits player.toLocation) := by
      rw [hsplit]
      simp
    rw [hf]
    simp only [plrHeader, List.append_assoc]

/-- C12: if one tick serialises player `p1` as new for an observer (and every record sent
for the index of `p1` carries the ticket of `p1`), then after `PlayerPositions` and
`PlayerAppearances` of that tick `p1` is cached with its ticket recorded, whatever the flags
and the tile of `p1` in that tick.  Let `p2` be the state of the same player (same index,
same ticket) in a later tick, possibly at another tile and with other flags than in the
first tick.  If in that tick `p2` is cached, within 15 tiles and unflagged, and the observer
still holds the ticket recorded by the first tick, then after `PlayerPositions` and
`PlayerAppearances` of the later tick `p2` is still cached, `KnownAppearances` holds for its
index the same ticket as after the first tick, no appearance record is sent for that index,
and the record of `p2` in the position packet is the single no-change bit. -/
theorem cache_round_trip (NewPlayers : Player → List PlayerInfo) (player : Player)
    (p1 : PlayerInfo)
    (hnew : p1 ∈ (NewPlayers (plrKept player)).take
      (capTake (plrKept player).LocalPlayers.length (NewPlayers (plrKept player)).length))
    (hself : player.Index = p1.Index → player.AppearanceTicket = p1.AppearanceTicket)
    (huniq : ∀ q, q ∈ player.LocalPlayers ∨ q ∈ NewPlayers (plrKept player) →
      q.Index = p1.Index → q.AppearanceTicket = p1.AppearanceTicket) :
    p1 ∈ (PlayerAppearances (PlayerPositions NewPlayers player).2).2.LocalPlayers ∧
    (PlayerAppearances (PlayerPositions NewPlayers player).2).2.KnownAppearances p1.Index =
      some p1.AppearanceTicket ∧
    ∀ (NewPlayers2 : Player → List PlayerInfo) (player2 : Player) (p2 : PlayerInfo),
      p2.Index = p1.Index → p2.AppearanceTicket = p1.AppearanceTicket →
      p2 ∈ player2.LocalPlayers →
      player2.KnownAppearances p1.Index =
        (PlayerAppearances (PlayerPositions NewPlayers player).2).2.KnownAppearances p1.Index →
      p2.LongestDelta player2.toLocation ≤ 15 → p2.plrremove = false →
      p2.plrmoved = false → p2.plrchanged = false →
      player2.Index ≠ p1.Index →
      (∀ q, q ∈ player2.LocalPlayers ∨ q ∈ NewPlayers2 (plrKept player2) →
        q.Index = p1.Index → q = p2) →
      p2 ∈ (PlayerAppearances (PlayerPositions NewPlayers2 player2).2).2.LocalPlayers ∧
      (PlayerAppearances (PlayerPositions NewPlayers2 player2).2).2.KnownAppearances p1.Index =
        (PlayerAppearances (PlayerPositions NewPlayers player).2).2.KnownAppearances p1.Index ∧
      p2 ∉ appearanceList (PlayerPositions NewPlayers2 player2).2 ∧
      (∀ q ∈ appearanceList (PlayerPositions NewPlayers2 player2).2, q.Index ≠ p1.Index) ∧
      plrEntryBits player2.toLocation p2 = [{ width := 1, value := 0 }] ∧
      (∀ pkt, (PlayerPositions NewPlayers2 player2).1 = some pkt →
        ∀ before after, player2.LocalPlayers = before ++ p2 :: after →
          ∃ additions : List Field,
            pkt.Payload =
              [{ width := 11, value := player2.X % 2048 },
               { width := 13, value := player2.Y % 8192 },
               { width := 4, value := (player2.Direction % 16).toNat },
               { width := 8, value := player2.LocalPlayers.length % 256 }] ++
              before.flatMap (plrEntryBits player2.toLocation) ++ [{ width := 1, value := 0 }] ++
              after.flatMap (plrEntryBits player2.toLocation) ++ additions) := by
  obtain ⟨hinfo, hcache, -⟩ := PlayerPositions_state NewPlayers player
  have hin : p1 ∈ (PlayerPositions NewPlayers player).2.LocalPlayers := by
    rw [hcache]
    exact List.mem_append_right _ hnew
  have hrec : (PlayerAppearances (PlayerPositions NewPlayers player).2).2.KnownAppearances
      p1.Index = some p1.AppearanceTicket := by
    apply PlayerAppearances_records _ _ hin
    intro q hq hi
    rcases mem_appearanceList _ _ hq with h | ⟨hc, -⟩
    · have hq2 : q = player.toPlayerInfo := by rw [h, hinfo]
      rw [hq2] at hi ⊢
      exact hself hi
    · rw [hcache] at hc
      rcases List.mem_append.mp hc with hc | hc
      · exact huniq q (Or.inl (List.mem_filter.mp hc).1) hi
      · exact huniq q (Or.inr (List.mem_of_mem_take hc)) hi
  refine ⟨?_, hrec, ?_⟩
  · rw [PlayerAppearances_eq]
    split <;> exact hin
  · intro NP2 player2 p2 hidx htick hmem hk hrange hr hm hc hself2 huniq2
    rw [hrec] at hk ⊢
    rw [← hidx, ← htick] at hk ⊢
    rw [← hidx] at hself2 huniq2
    obtain ⟨a, b, c, d⟩ := quiet_tick NP2 player2 p2 hmem hk hrange hr hself2 huniq2
    have hbits : plrEntryBits player2.toLocation p2 = [{ width := 1, value := 0 }] := by
      have : ¬ p2.LongestDelta player2.toLocation > 15 := by omega
      simp [plrEntryBits, plrGone, this, hr, updateRecord, hm, hc]
    refine ⟨a, b, c, d, hbits, ?_⟩
    intro pkt hpkt before after hsplit
    obtain ⟨additions, hpay⟩ :=
      PlayerPositions_payload_split NP2 player2 pkt hpkt before after p2 hsplit
    rw [hbits] at hpay
    exact ⟨additions, hpay⟩

theorem cache_round_trip_witness :
    (arrivingNeighbour ∈
        ((fun _ => [arrivingNeighbour]) (plrKept idleObserver) : List PlayerInfo).take
        (capTake (plrKept idleObserver).LocalPlayers.length
          ((fun _ => [arrivingNeighbour]) (plrKept idleObserver) : List PlayerInfo).length) ∧
      (idleObserver.Index = arrivingNeighbour.Index →
        idleObserver.AppearanceTicket = arrivingNeighbour.AppearanceTicket)) ∧
    arrivingNeighbour ∈ afterFirstTick.LocalPlayers ∧
    afterFirstTick.KnownAppearances arrivingNeighbour.Index = some 4 ∧
    (quietNeighbour ≠ arrivingNeighbour ∧ quietNeighbour ∈ secondTickObserver.LocalPlayers ∧
      afterFirstTick.LocalPlayers = [arrivingNeighbour] ∧
      (PlayerPositions (fun _ => []) secondTickObserver).1 =
        some { Opcode := 191, Payload :=
          [{ width := 11, value := 100 }, { width := 13, value := 100 },
           { width := 4, value := 0 }, { width := 8, value := 1 }, { width := 1, value := 0 }] } ∧
      (appearanceList (PlayerPositions (fun _ => []) secondTickObserver).2).map
        (fun q => q.Index) = [1] ∧
      (PlayerAppearances
        (PlayerPositions (fun _ => []) secondTickObserver).2).2.KnownAppearances 2 = some 4) ∧
    quietNeighbour ∈
      (PlayerAppearances (PlayerPositions (fun _ => []) secondTickObserver).2).2.LocalPlayers ∧
    (PlayerAppearances (PlayerPositions (fun _ => []) secondTickObserver).2).2.KnownAppearances
      arrivingNeighbour.Index = afterFirstTick.KnownAppearances arrivingNeighbour.Index ∧
    quietNeighbour ∉ appearanceList (PlayerPositions (fun _ => []) secondTickObserver).2 ∧
    plrEntryBits secondTickObserver.toLocation quietNeighbour = [{ width := 1, value := 0 }] :=
  have huniq : ∀ q : PlayerInfo,
      q ∈ idleObserver.LocalPlayers ∨
        q ∈ ((fun _ => [arrivingNeighbour]) (plrKept idleObserver) : List PlayerInfo) →
      q.Index = arrivingNeighbour.Index →
      q.AppearanceTicket = arrivingNeighbour.AppearanceTicket := by
    intro q hq _
    rcases hq with hq | hq
    · exact absurd hq (List.not_mem_nil q)
    · rw [List.mem_singleton.mp hq]
  have huniq2 : ∀ q : PlayerInfo,
      q ∈ secondTickObserver.LocalPlayers ∨
        q ∈ ((fun _ => []) (plrKept secondTickObserver) : List PlayerInfo) →
      q.Index = arrivingNeighbour.Index → q = quietNeighbour := by
    intro q hq _
    rcases hq with hq | hq
    · have hl : secondTickObserver.LocalPlayers = [quietNeighbour] := rfl
      rw [hl] at hq
      exact List.mem_singleton.mp hq
    · exact absurd hq (List.not_mem_nil q)
  have main := cache_round_trip (fun _ => [arrivingNeighbour]) idleObserver arrivingNeighbour
    (by decide) (by decide) huniq
  have second := main.2.2 (fun _ => []) secondTickObserver quietNeighbour (by decide)
    (by decide) (by decide) rfl (by decide) (by decide) (by decide) (by decide) (by decide) huniq2
  ⟨⟨by decide, by decide⟩, main.1, main.2.1,
    ⟨by decide, by decide, by decide, by decide, by decide, by decide⟩,
    second.1, second.2.1, second.2.2.1, second.2.2.2.2.1⟩

end Packets

/-! ## Theorems about `pathway.go` -/

namespace ServerWorld

theorem sliceAt_some (s : List Int) (w : Int) (h0 : 0 ≤ w) (h1 : w < (s.length : Int)) :
    ∃ v, sliceAt s w = some v := by
  unfold sliceAt
  rw [if_neg (by omega)]
  have hlt : w.toNat < s.length := by omega
  exact ⟨s[w.toNat], List.getElem?_eq_getElem hlt⟩

/-- With a cursor of at least -1 both offsets are read without an out-of-range access and
the waypoint coordinates are `uint32` values. -/
theorem waypoint_defined (p : Pathway) (w : Int) (hw : -1 ≤ w) :
    ∃ x y, p.waypointX w = some x ∧ p.waypointY w = some y ∧ x < 4294967296 ∧ y < 4294967296 := by
  have hx : ∃ off, p.waypointXoffset w = some off := by
    unfold Pathway.waypointXoffset
    split
    · exact ⟨0, rfl⟩
    · rename_i h
      push_neg at h
      exact sliceAt_some _ _ (by omega) h.1
  have hy : ∃ off, p.waypointYoffset w = some off := by
    unfold Pathway.waypointYoffset
    split
    · exact ⟨0, rfl⟩
    · rename_i h
      push_neg at h
      exact sliceAt_some _ _ (by omega) h.1
  obtain ⟨ox, hox⟩ := hx
  obtain ⟨oy, hoy⟩ := hy
  refine ⟨Packets.add32 p.StartX (Packets.uint32 ox), Packets.add32 p.StartY (Packets.uint32 oy),
    by simp [Pathway.waypointX, hox], by simp [Pathway.waypointY, hoy], ?_, ?_⟩
  · unfold Packets.add32 Packets.uint32
    omega
  · unfold Packets.add32 Packets.uint32
    omega

theorem stepAxis_spec (start dest : Nat) (hs : start < 4294967296) (hd : dest < 4294967296) :
    stepAxis start dest =
      (if start > dest then start - 1 else if start < dest then start + 1 else dest) := by
  unfold stepAxis Packets.sub32 Packets.add32 Packets.uint32
  split
  · omega
  · split <;> omega

/-- C13: for a pathway whose cursor is at least -1 (constructors set it to -1) and a start
tile given by two `uint32` values, `NextTile` returns a tile: on each axis, independently,
`start - 1` if the start is beyond the waypoint, `start + 1` if it is before, the
waypoint's coordinate if equal, with no wrap-around.  Each coordinate differs from the start
by at most 1; the result is the waypoint when the start is on it, and otherwise its longest
axis delta to the waypoint is one less than that of the start. -/
theorem NextTile_single_step (p : Pathway) (startX startY : Nat)
    (hx : startX < 4294967296) (hy : startY < 4294967296) (hw : -1 ≤ p.CurrentWaypoint) :
    ∃ dest next : Packets.Location,
      p.Waypoint p.CurrentWaypoint = some dest ∧
      p.NextTile startX startY = some next ∧
      next.X = (if startX > dest.X then startX - 1
        else if startX < dest.X then startX + 1 else dest.X) ∧
      next.Y = (if startY > dest.Y then startY - 1
        else if startY < dest.Y then startY + 1 else dest.Y) ∧
      ((next.X : Int) - (startX : Int)).natAbs ≤ 1 ∧
      ((next.Y : Int) - (startY : Int)).natAbs ≤ 1 ∧
      ((startX = dest.X ∧ startY = dest.Y) → next = dest) ∧
      (¬ (startX = dest.X ∧ startY = dest.Y) →
        next.LongestDelta dest + 1 =
          ({ X := startX, Y := startY } : Packets.Location).LongestDelta dest) := by
  obtain ⟨dx, dy, h1, h2, bx, by1⟩ := waypoint_defined p p.CurrentWaypoint hw
  have sx := stepAxis_spec startX dx hx bx
  have sy := stepAxis_spec startY dy hy by1
  refine ⟨{ X := dx, Y := dy }, { X := stepAxis startX dx, Y := stepAxis startY dy },
    by simp [Pathway.Waypoint, h1, h2], by simp [Pathway.NextTile, h1, h2], sx, sy, ?_, ?_, ?_, ?_⟩
  · simp only [sx]
    split
    · omega
    · split <;> omega
  · simp only [sy]
    split
    · omega
    · split <;> omega
  · rintro ⟨rfl, rfl⟩
    simp [sx, sy]
  · intro hne
    simp only [Packets.Location.LongestDelta, sx, sy]
    dsimp only at hne ⊢
    split_ifs <;> simp only [max_def] <;> split_ifs <;> omega

theorem NextTile_single_step_witness :
    ((117 : Nat) < 4294967296 ∧ (496 : Nat) < 4294967296 ∧ -1 ≤ samplePath.CurrentWaypoint) ∧
    samplePath.Waypoint samplePath.CurrentWaypoint = some { X := 123, Y := 496 } ∧
    samplePath.NextTile 117 496 = some { X := 118, Y := 496 } ∧
    ∃ dest next : Packets.Location,
      samplePath.Waypoint samplePath.CurrentWaypoint = some dest ∧
      samplePath.NextTile 117 496 = some next ∧
      next.X = (if 117 > dest.X then 117 - 1 else if 117 < dest.X then 117 + 1 else dest.X) ∧
      next.Y = (if 496 > dest.Y then 496 - 1 else if 496 < dest.Y then 496 + 1 else dest.Y) ∧
      ((next.X : Int) - ((117 : Nat) : Int)).natAbs ≤ 1 ∧
      ((next.Y : Int) - ((496 : Nat) : Int)).natAbs ≤ 1 ∧
      (((117 : Nat) = dest.X ∧ (496 : Nat) = dest.Y) → next = dest) ∧
      (¬ ((117 : Nat) = dest.X ∧ (496 : Nat) = dest.Y) →
        next.LongestDelta dest + 1 =
          ({ X := 117, Y := 496 } : Packets.Location).LongestDelta dest) :=
  ⟨⟨by decide, by decide, by decide⟩, by decide, by decide,
    NextTile_single_step samplePath 117 496 (by decide) (by decide) (by decide)⟩

end ServerWorld

/-! ## Theorems about the regions and the sweep of `npc.go` -/

namespace GameWorld

/-- C14: when the region of (x, y) differs from the region of the NPC's location,
`UpdateRegion` leaves the NPC out of the NPC set of its current region and in the set of the
new one, and changes nothing else (no other NPC, no other region, no player set); when the
two regions are the same it changes nothing at all. -/
theorem UpdateRegion_membership (g : Grid) (w : Regions) (n : NPC) (x y : Int) :
    (g.getRegion x y ≠ g.getRegion n.Location.X n.Location.Y →
      (n.UpdateRegion g w x y).NPCs (g.getRegion x y) n.Index = true ∧
      (n.UpdateRegion g w x y).NPCs (g.getRegion n.Location.X n.Location.Y) n.Index = false ∧
      (∀ area i, ¬ (i = n.Index ∧
          (area = g.getRegion n.Location.X n.Location.Y ∨ area = g.getRegion x y)) →
        (n.UpdateRegion g w x y).NPCs area i = w.NPCs area i) ∧
      (n.UpdateRegion g w x y).Players = w.Players) ∧
    (g.getRegion x y = g.getRegion n.Location.X n.Location.Y → n.UpdateRegion g w x y = w) := by
  constructor
  · intro hne
    have hne2 : ¬ g.getRegion n.Location.X n.Location.Y = g.getRegion x y := fun e => hne e.symm
    unfold NPC.UpdateRegion
    rw [if_pos hne]
    refine ⟨by simp [Regions.Add], ?_, ?_, ?_⟩
    · by_cases hc : w.Contains (g.getRegion n.Location.X n.Location.Y) n = true
      · simp [hc, Regions.Add, Regions.Remove, hne2]
      · simp only [hc]
        simp only [Regions.Contains, Bool.not_eq_true] at hc
        simp [Regions.Add, hne2, hc]
    · intro area i hi
      have h1 : ¬ (area = g.getRegion x y ∧ i = n.Index) := fun h => hi ⟨h.2, Or.inr h.1⟩
      have h2 : ¬ (area = g.getRegion n.Location.X n.Location.Y ∧ i = n.Index) :=
        fun h => hi ⟨h.2, Or.inl h.1⟩
      split
      · show (if area = g.getRegion x y ∧ i = n.Index then true
          else if area = g.getRegion n.Location.X n.Location.Y ∧ i = n.Index then false
          else w.NPCs area i) = w.NPCs area i
        rw [if_neg h1, if_neg h2]
      · show (if area = g.getRegion x y ∧ i = n.Index then true else w.NPCs area i) =
          w.NPCs area i
        rw [if_neg h1]
    · split <;> simp [Regions.Add, Regions.Remove]
  · intro he
    unfold NPC.UpdateRegion
    rw [if_neg (by simp [he])]

theorem SetLocationIn_inOwnRegion (g : Grid) (w : Regions) (n : NPC) (dst : Location)
    (h : inOwnRegion g w n) :
    inOwnRegion g (n.SetLocationIn g w dst).1 (n.SetLocationIn g w dst).2 := by
  intro area
  simp only [NPC.SetLocationIn, NPC.SetLocation, NPC.UpdateRegion]
  have hcur := h (g.getRegion n.Location.X n.Location.Y)
  by_cases hne : g.getRegion dst.X dst.Y = g.getRegion n.Location.X n.Location.Y
  · rw [if_neg (by simp [hne]), h area, hne]
  · rw [if_pos hne]
    have hc : w.Contains (g.getRegion n.Location.X n.Location.Y) n = true := by
      simp only [Regions.Contains]
      exact hcur.mpr rfl
    rw [if_pos hc]
    by_cases ha : area = g.getRegion dst.X dst.Y
    · simp [Regions.Add, Regions.Remove, ha]
    · by_cases hb : area = g.getRegion n.Location.X n.Location.Y
      · simp [Regions.Add, Regions.Remove, ha, hb]
      · have := h area
        simp only [hb, iff_false, Bool.not_eq_true] at this
        simp [Regions.Add, Regions.Remove, ha, hb, this]

theorem redirect_index (n : NPC) (r : Rng) : (redirect n r).1.Index = n.Index := by
  unfold redirect
  split <;> rfl

theorem traverseLoopIn_inOwnRegion (g : Grid) (reachable : Int → Int → Bool) (k : Nat)
    (w : Regions) (n : NPC) (r : Rng) (h : inOwnRegion g w n) :
    inOwnRegion g (traverseLoopIn g reachable k w n r).1 (traverseLoopIn g reachable k w n r).2.1 := by
  induction k generalizing n r with
  | zero => exact h
  | succ k ih =>
    have hf := redirect_fields n r
    have hi := redirect_index n r
    simp only [traverseLoopIn]
    split
    · apply ih
      intro area
      simp only [hf.1, hi]
      exact h area
    · apply SetLocationIn_inOwnRegion
      intro area
      simp only [hf.1, hi]
      exact h area

theorem traverseLoopIn_walk (g : Grid) (reachable : Int → Int → Bool) (k : Nat)
    (w : Regions) (n : NPC) (r : Rng) :
    (traverseLoopIn g reachable k w n r).2 = traverseLoop reachable k n r := by
  induction k generalizing n r with
  | zero => rfl
  | succ k ih =>
    simp only [traverseLoopIn, traverseLoop]
    split
    · exact ih _ _
    · rfl

/-- C15: if the NPC is in the NPC set of exactly one region, the region of its location,
then the same holds after a move made by `SetLocation` (region update for the destination,
then the change of location) and after a whole `TraversePath`, whose NPC and random source
are those of the walk studied without the regions. -/
theorem move_keeps_region_membership (g : Grid) (reachable : Int → Int → Bool) (w : Regions)
    (n : NPC) (r : Rng) (h : inOwnRegion g w n) :
    (∀ area, (TraversePathIn g reachable w n r).1.NPCs area
        (TraversePathIn g reachable w n r).2.1.Index = true ↔
      area = g.getRegion (TraversePathIn g reachable w n r).2.1.Location.X
        (TraversePathIn g reachable w n r).2.1.Location.Y) ∧
    (∀ dst : Location, ∀ area,
      (n.SetLocationIn g w dst).1.NPCs area (n.SetLocationIn g w dst).2.Index = true ↔
        area = g.getRegion dst.X dst.Y) ∧
    (TraversePathIn g reachable w n r).2 = TraversePath reachable n r := by
  refine ⟨?_, ?_, ?_⟩
  · unfold TraversePathIn
    split
    · exact h
    · exact traverseLoopIn_inOwnRegion g reachable 10 w n r h
  · intro dst
    exact SetLocationIn_inOwnRegion g w n dst h
  · unfold TraversePathIn TraversePath
    split
    · rfl
    · exact traverseLoopIn_walk g reachable 10 w n r

theorem move_keeps_region_membership_witness :
    inOwnRegion sampleGrid sampleRegions borderNPC ∧
    (TraversePathIn sampleGrid (fun _ _ => true) sampleRegions borderNPC leashRng).2.1.Location =
      { x := 47, y := 10 } ∧
    ((∀ area, (TraversePathIn sampleGrid (fun _ _ => true) sampleRegions borderNPC leashRng).1.NPCs
        area (TraversePathIn sampleGrid (fun _ _ => true) sampleRegions borderNPC leashRng).2.1.Index
          = true ↔
      area = sampleGrid.getRegion
        (TraversePathIn sampleGrid (fun _ _ => true) sampleRegions borderNPC leashRng).2.1.Location.X
        (TraversePathIn sampleGrid (fun _ _ => true) sampleRegions borderNPC
          leashRng).2.1.Location.Y) ∧
    (∀ dst : Location, ∀ area,
      (borderNPC.SetLocationIn sampleGrid sampleRegions dst).1.NPCs area
        (borderNPC.SetLocationIn sampleGrid sampleRegions dst).2.Index = true ↔
        area = sampleGrid.getRegion dst.X dst.Y) ∧
    (TraversePathIn sampleGrid (fun _ _ => true) sampleRegions borderNPC leashRng).2 =
      TraversePath (fun _ _ => true) borderNPC leashRng) :=
  have h : inOwnRegion sampleGrid sampleRegions borderNPC := by
    intro area
    simp [sampleRegions, borderNPC, sampleGrid, Location.X, Location.Y]
  ⟨h, by decide,
    move_keeps_region_membership sampleGrid (fun _ _ => true) sampleRegions borderNPC leashRng h⟩

theorem updateNPC_skipped (g : Grid) (now : Int) (w : Regions) (n : NPC) (r : Rng)
    (h : skipped g n = true) : updateNPC g now w n r = (w, n, r) := by
  unfold updateNPC
  rw [if_pos h]

theorem sweep_skipped_slot (g : Grid) (now : Int) (npcs : List NPC) (w : Regions) (r : Rng)
    (i : Nat) (n : NPC) (hi : npcs[i]? = some n) (h : skipped g n = true) :
    (UpdateNPCPositions g now npcs w r).1[i]? = some n := by
  induction npcs generalizing i w r with
  | nil => simp at hi
  | cons x l ih =>
    cases i with
    | zero =>
      simp only [List.getElem?_cons_zero, Option.some.injEq] at hi
      subst hi
      simp [UpdateNPCPositions, updateNPC_skipped g now w x r h]
    | succ i =>
      simp only [List.getElem?_cons_succ] at hi
      simp only [UpdateNPCPositions, List.getElem?_cons_succ]
      exact ih _ _ i hi

theorem sweep_without_skipped (g : Grid) (now : Int) (npcs : List NPC) (w : Regions) (r : Rng) :
    (UpdateNPCPositions g now npcs w r).2 =
      (UpdateNPCPositions g now (npcs.filter (fun n => !skipped g n)) w r).2 := by
  induction npcs generalizing w r with
  | nil => rfl
  | cons x l ih =>
    by_cases h : skipped g x = true
    · simp only [List.filter_cons, h, Bool.not_true, Bool.false_eq_true, if_false]
      simp only [UpdateNPCPositions, updateNPC_skipped g now w x r h]
      exact ih w r
    · simp only [Bool.not_eq_true] at h
      simp only [List.filter_cons, h, Bool.not_false, if_true]
      simp only [UpdateNPCPositions]
      exact ih _ _

/-- C16: an NPC that is busy, fighting or located at `DeathPoint` is left exactly as it was
by the body of the sweep, which also leaves the regions and the random source untouched (no
draw is consumed); in the list returned by `UpdateNPCPositions` the NPC is unchanged at its
position, and the regions and the random source come out as if the skipped NPCs were not in
the list. -/
theorem skip_rule (g : Grid) (now : Int) (w : Regions) (n : NPC) (r : Rng) (npcs : List NPC)
    (i : Nat) (hi : npcs[i]? = some n)
    (h : n.Busy = true ∨ n.IsFighting = true ∨ n.Location = g.DeathPoint) :
    updateNPC g now w n r = (w, n, r) ∧
    (UpdateNPCPositions g now npcs w r).1[i]? = some n ∧
    (∀ m, (UpdateNPCPositions g now npcs w r).1[i]? = some m →
      m.Location = n.Location ∧ m.nextMove = n.nextMove ∧ m.pathLength = n.pathLength ∧
      m.pathDir = n.pathDir) ∧
    (UpdateNPCPositions g now npcs w r).2 =
      (UpdateNPCPositions g now (npcs.filter (fun m => !skipped g m)) w r).2 := by
  have hs : skipped g n = true := by
    unfold skipped
    rcases h with h | h | h <;> simp [h]
  have hslot := sweep_skipped_slot g now npcs w r i n hi hs
  refine ⟨updateNPC_skipped g now w n r hs, hslot, ?_, sweep_without_skipped g now npcs w r⟩
  intro m hm
  rw [hslot] at hm
  simp only [Option.some.injEq] at hm
  subst hm
  exact ⟨rfl, rfl, rfl, rfl⟩

theorem skip_rule_witness :
    ([{ borderNPC with IsFighting := true }, borderNPC][0]? =
        some { borderNPC with IsFighting := true } ∧
      (({ borderNPC with IsFighting := true } : NPC).Busy = true ∨
        ({ borderNPC with IsFighting := true } : NPC).IsFighting = true ∨
        ({ borderNPC with IsFighting := true } : NPC).Location = sampleGrid.DeathPoint)) ∧
    (updateNPC sampleGrid 100 sampleRegions { borderNPC with IsFighting := true } leashRng =
        (sampleRegions, { borderNPC with IsFighting := true }, leashRng) ∧
    (UpdateNPCPositions sampleGrid 100 [{ borderNPC with IsFighting := true }, borderNPC]
        sampleRegions leashRng).1[0]? = some { borderNPC with IsFighting := true } ∧
    (∀ m, (UpdateNPCPositions sampleGrid 100 [{ borderNPC with IsFighting := true }, borderNPC]
        sampleRegions leashRng).1[0]? = some m →
      m.Location = ({ borderNPC with IsFighting := true } : NPC).Location ∧
      m.nextMove = ({ borderNPC with IsFighting := true } : NPC).nextMove ∧
      m.pathLength = ({ borderNPC with IsFighting := true } : NPC).pathLength ∧
      m.pathDir = ({ borderNPC with IsFighting := true } : NPC).pathDir) ∧
    (UpdateNPCPositions sampleGrid 100 [{ borderNPC with IsFighting := true }, borderNPC]
        sampleRegions leashRng).2 =
      (UpdateNPCPositions sampleGrid 100
        ([{ borderNPC with IsFighting := true }, borderNPC].filter
          (fun m => !skipped sampleGrid m)) sampleRegions leashRng).2) :=
  ⟨⟨rfl, Or.inr (Or.inl rfl)⟩,
    skip_rule sampleGrid 100 sampleRegions { borderNPC with IsFighting := true } leashRng
      [{ borderNPC with IsFighting := true }, borderNPC] 0 rfl (Or.inr (Or.inl rfl))⟩

theorem rerollLoop_none (now : Int) (w : Regions) (areas : List Nat) (n : NPC) (r : Rng)
    (h : ∀ area ∈ areas, ¬ w.Players area > 0) : rerollLoop now w areas n r = (n, r) := by
  induction areas with
  | nil => rfl
  | cons a l ih =>
    unfold rerollLoop
    rw [if_neg (h a (List.mem_cons_self _ _))]
    exact ih (fun area ha => h area (List.mem_cons_of_mem _ ha))

theorem rerollLoop_some (now : Int) (w : Regions) (areas : List Nat) (n : NPC) (r : Rng)
    (h : ∃ area ∈ areas, w.Players area > 0) :
    rerollLoop now w areas n r =
      ({ n with nextMove := now + Second * (r.Int31N 5 15).1,
                pathLength := ((r.Int31N 5 15).2.Int31N 5 15).1 },
        ((r.Int31N 5 15).2.Int31N 5 15).2) := by
  induction areas with
  | nil => simp at h
  | cons a l ih =>
    unfold rerollLoop
    by_cases ha : w.Players a > 0
    · rw [if_pos ha]
    · rw [if_neg ha]
      apply ih
      obtain ⟨area, hm, hp⟩ := h
      rcases List.mem_cons.mp hm with rfl | hm
      · exact absurd hp ha
      · exact ⟨area, hm, hp⟩

theorem Int31N_range (r : Rng) : 5 ≤ (r.Int31N 5 15).1 ∧ (r.Int31N 5 15).1 ≤ 15 := by
  unfold Rng.Int31N
  have h : ((15 : Int) - 5 + 1).toNat = 11 := by decide
  simp only [h]
  omega

/-- The body of the sweep on an NPC that is not skipped: `TraversePath` run on the outcome of
the re-roll step, which re-rolls exactly when `nextMove` has elapsed and a surrounding region
holds a player. -/
theorem updateNPC_reroll (g : Grid) (now : Int) (w : Regions) (n : NPC) (r : Rng)
    (hskip : skipped g n = false) :
    updateNPC g now w n r =
      TraversePathIn g (g.Reachable (rollNPC g now w n r).1.Location) w (rollNPC g now w n r).1
        (rollNPC g now w n r).2 ∧
    ((n.nextMove < now ∧
        ∃ area ∈ g.surroundingRegions n.Location.X n.Location.Y, w.Players area > 0) →
      ∃ d b : Int, 5 ≤ d ∧ d ≤ 15 ∧ 5 ≤ b ∧ b ≤ 15 ∧
        rollNPC g now w n r =
          ({ n with nextMove := now + Second * d, pathLength := b },
           { r with intUsed := r.intUsed + 2 })) ∧
    (¬ (n.nextMove < now ∧
        ∃ area ∈ g.surroundingRegions n.Location.X n.Location.Y, w.Players area > 0) →
      rollNPC g now w n r = (n, r) ∧
      updateNPC g now w n r = TraversePathIn g (g.Reachable n.Location) w n r) := by
  have hu : updateNPC g now w n r =
      TraversePathIn g (g.Reachable (rollNPC g now w n r).1.Location) w (rollNPC g now w n r).1
        (rollNPC g now w n r).2 := by
    unfold updateNPC
    rw [if_neg (by simp [hskip])]
  refine ⟨hu, ?_, ?_⟩
  · rintro ⟨ht, hp⟩
    refine ⟨(r.Int31N 5 15).1, ((r.Int31N 5 15).2.Int31N 5 15).1, (Int31N_range r).1,
      (Int31N_range r).2, (Int31N_range _).1, (Int31N_range _).2, ?_⟩
    unfold rollNPC
    rw [if_pos ht, rerollLoop_some now w _ n r hp]
    rfl
  · intro hnot
    have hr : rollNPC g now w n r = (n, r) := by
      unfold rollNPC
      split
      · rename_i ht
        apply rerollLoop_none
        intro area ha hp
        exact hnot ⟨ht, area, ha, hp⟩
      · rfl
    refine ⟨hr, ?_⟩
    rw [hu, hr]

/-- The retry loop either accepts a first attempt `j` among its `k` iterations, all earlier
ones being rejected, or rejects all `k` of them. -/
theorem traverseLoop_cases (reachable : Int → Int → Bool) (k : Nat) (n : NPC) (r : Rng) :
    (∃ j, j < k ∧ (∀ i, i < j → attemptRejected reachable n r i = true) ∧
        attemptRejected reachable n r j = false ∧
        traverseLoop reachable k n r = acceptedAt n r j) ∨
    ((∀ i, i < k → attemptRejected reachable n r i = true) ∧
        traverseLoop reachable k n r = attemptState n r k) := by
  induction k generalizing n r with
  | zero => exact Or.inr ⟨fun i hi => absurd hi (Nat.not_lt_zero i), rfl⟩
  | succ k ih =>
    by_cases h0 : attemptRejected reachable n r 0 = true
    · have hstep : traverseLoop reachable (k + 1) n r =
          traverseLoop reachable k (retry n r).1 (retry n r).2 := by
        have h0' : rejected reachable (redirect n r).1
            (dstFor (redirect n r).1.Location (redirect n r).1.pathDir) = true := h0
        simp only [traverseLoop, h0', if_true]
        rfl
      rcases ih (retry n r).1 (retry n r).2 with ⟨j, hj, hrej, hacc, heq⟩ | ⟨hrej, heq⟩
      · refine Or.inl ⟨j + 1, by omega, ?_, hacc, ?_⟩
        · intro i hi
          cases i with
          | zero => exact h0
          | succ i => exact hrej i (by omega)
        · rw [hstep, heq]
          rfl
      · refine Or.inr ⟨?_, ?_⟩
        · intro i hi
          cases i with
          | zero => exact h0
          | succ i => exact hrej i (by omega)
        · rw [hstep, heq]
          rfl
    · simp only [Bool.not_eq_true] at h0
      refine Or.inl ⟨0, by omega, fun i hi => absurd hi (Nat.not_lt_zero i), h0, ?_⟩
      have h0' : rejected reachable (redirect n r).1
          (dstFor (redirect n r).1.Location (redirect n r).1.pathDir) = false := h0
      simp only [traverseLoop, h0']
      rfl

theorem redirect_draws (n : NPC) (r : Rng) :
    (redirect n r).2.chanceUsed = r.chanceUsed + 1 ∧
    (0 ≤ n.pathDir ∧ n.pathDir ≤ 7 →
      0 ≤ (redirect n r).1.pathDir ∧ (redirect n r).1.pathDir ≤ 7) := by
  unfold redirect
  split
  · refine ⟨rfl, fun _ => ?_⟩
    simp only [Rng.Uint8n]
    omega
  · exact ⟨rfl, fun h => h⟩

theorem retry_fields (n : NPC) (r : Rng) :
    (retry n r).1.Location = n.Location ∧ (retry n r).1.Boundaries0 = n.Boundaries0 ∧
    (retry n r).1.Boundaries1 = n.Boundaries1 ∧ (retry n r).1.pathLength = n.pathLength ∧
    (retry n r).2.chanceUsed = r.chanceUsed + 1 ∧
    0 ≤ (retry n r).1.pathDir ∧ (retry n r).1.pathDir ≤ 7 := by
  have hf := redirect_fields n r
  have hd := redirect_draws n r
  refine ⟨hf.1, hf.2.1, hf.2.2.1, hf.2.2.2, ?_, ?_, ?_⟩
  · show (redirect n r).2.Uint8n.2.chanceUsed = _
    simp only [Rng.Uint8n]
    exact hd.1
  · show 0 ≤ (redirect n r).2.Uint8n.1
    simp only [Rng.Uint8n]
    omega
  · show (redirect n r).2.Uint8n.1 ≤ 7
    simp only [Rng.Uint8n]
    omega

/-- The state in which an attempt starts differs from the initial one only by the direction
and the draws consumed: one `Chance` draw per earlier attempt. -/
theorem attemptState_fields (n : NPC) (r : Rng) (i : Nat) :
    (attemptState n r i).1.Location = n.Location ∧
    (attemptState n r i).1.Boundaries0 = n.Boundaries0 ∧
    (attemptState n r i).1.Boundaries1 = n.Boundaries1 ∧
    (attemptState n r i).1.pathLength = n.pathLength ∧
    (attemptState n r i).2.chanceUsed = r.chanceUsed + i ∧
    (0 ≤ n.pathDir ∧ n.pathDir ≤ 7 →
      0 ≤ (attemptState n r i).1.pathDir ∧ (attemptState n r i).1.pathDir ≤ 7) := by
  induction i generalizing n r with
  | zero => exact ⟨rfl, rfl, rfl, rfl, rfl, fun h => h⟩
  | succ i ih =>
    obtain ⟨a, b, c, d, e, f⟩ := ih (retry n r).1 (retry n r).2
    obtain ⟨a', b', c', d', e', f'⟩ := retry_fields n r
    refine ⟨a.trans a', b.trans b', c.trans c', d.trans d', ?_, fun _ => f f'⟩
    show (attemptState (retry n r).1 (retry n r).2 i).2.chanceUsed = _
    rw [e, e']
    omega

/-- A compass direction leads to one of the eight neighbouring tiles. -/
theorem dstFor_neighbour (loc : Location) (dir : Int) (h : 0 ≤ dir ∧ dir ≤ 7) :
    ((dstFor loc dir).x - loc.x).natAbs ≤ 1 ∧ ((dstFor loc dir).y - loc.y).natAbs ≤ 1 ∧
    dstFor loc dir ≠ loc := by
  obtain ⟨h0, h7⟩ := h
  have hne : ∀ a b : Location, (a.x ≠ b.x ∨ a.y ≠ b.y) → a ≠ b := by
    intro a b hab e
    rw [e] at hab
    rcases hab with hab | hab <;> exact hab rfl
  interval_cases dir <;>
    simp only [dstFor, North, NorthWest, West, SouthWest, South, SouthEast, East, NorthEast] <;>
    norm_num <;> apply hne <;> simp

/-- What an accepted attempt leaves behind. -/
theorem acceptedAt_facts (reachable : Int → Int → Bool) (n : NPC) (r : Rng) (j : Nat)
    (hdir : 0 ≤ n.pathDir ∧ n.pathDir ≤ 7)
    (hacc : attemptRejected reachable n r j = false) :
    (acceptedAt n r j).1.Location = attemptDst n r j ∧
    (acceptedAt n r j).1.pathLength = n.pathLength - 1 ∧
    (acceptedAt n r j).2.chanceUsed = r.chanceUsed + (j + 1) ∧
    ((attemptDst n r j).x - n.Location.x).natAbs ≤ 1 ∧
    ((attemptDst n r j).y - n.Location.y).natAbs ≤ 1 ∧
    attemptDst n r j ≠ n.Location ∧
    reachable (attemptDst n r j).X (attemptDst n r j).Y = true ∧
    n.Boundaries0.X ≤ (attemptDst n r j).X ∧ (attemptDst n r j).X ≤ n.Boundaries1.X ∧
    n.Boundaries0.Y ≤ (attemptDst n r j).Y ∧ (attemptDst n r j).Y ≤ n.Boundaries1.Y := by
  obtain ⟨sl, sb0, sb1, sp, sc, sd⟩ := attemptState_fields n r j
  obtain ⟨fl, fb0, fb1, fp⟩ := redirect_fields (attemptState n r j).1 (attemptState n r j).2
  obtain ⟨dc, dd⟩ := redirect_draws (attemptState n r j).1 (attemptState n r j).2
  have hnb := dstFor_neighbour (redirect (attemptState n r j).1 (attemptState n r j).2).1.Location
    (redirect (attemptState n r j).1 (attemptState n r j).2).1.pathDir (dd (sd hdir))
  rw [fl, sl] at hnb
  have hrej : rejected reachable (redirect (attemptState n r j).1 (attemptState n r j).2).1
      (attemptDst n r j) = false := hacc
  simp only [rejected, Bool.or_eq_false_iff, Bool.not_eq_false', decide_eq_false_iff_not,
    fb0, fb1, sb0, sb1] at hrej
  have hdst : attemptDst n r j = dstFor n.Location
      (redirect (attemptState n r j).1 (attemptState n r j).2).1.pathDir := by
    unfold attemptDst
    rw [fl, sl]
  refine ⟨rfl, ?_, ?_, ?_, ?_, ?_, hrej.1.1.1.1, ?_, ?_, ?_, ?_⟩
  · show (redirect (attemptState n r j).1 (attemptState n r j).2).1.pathLength - 1 = _
    rw [fp, sp]
  · show (redirect (attemptState n r j).1 (attemptState n r j).2).2.chanceUsed = _
    rw [dc, sc]
    omega
  · rw [hdst]; exact hnb.1
  · rw [hdst]; exact hnb.2.1
  · rw [hdst]; exact hnb.2.2
  · omega
  · omega
  · omega
  · omega

/-- C19: a `TraversePath` call on an NPC with steps left and a compass direction makes at
most 10 attempts (one `Chance` draw each).  Either some attempt `j` is the first whose
destination is reachable and inside the leash: the NPC then stands on that destination, a
neighbouring tile, `pathLength` is one less and exactly `j + 1` attempts were made; or all
10 attempts are rejected and location and `pathLength` are unchanged.  The call always
returns a state: no error is signalled. -/
theorem TraversePath_outcome (reachable : Int → Int → Bool) (n : NPC) (r : Rng)
    (hlen : n.pathLength > 0) (hdir : 0 ≤ n.pathDir ∧ n.pathDir ≤ 7) :
    (∃ j, j < 10 ∧ (∀ i, i < j → attemptRejected reachable n r i = true) ∧
        attemptRejected reachable n r j = false ∧
        reachable (attemptDst n r j).X (attemptDst n r j).Y = true ∧
        n.Boundaries0.X ≤ (attemptDst n r j).X ∧ (attemptDst n r j).X ≤ n.Boundaries1.X ∧
        n.Boundaries0.Y ≤ (attemptDst n r j).Y ∧ (attemptDst n r j).Y ≤ n.Boundaries1.Y ∧
        (TraversePath reachable n r).1.Location = attemptDst n r j ∧
        ((attemptDst n r j).x - n.Location.x).natAbs ≤ 1 ∧
        ((attemptDst n r j).y - n.Location.y).natAbs ≤ 1 ∧
        attemptDst n r j ≠ n.Location ∧
        (TraversePath reachable n r).1.pathLength = n.pathLength - 1 ∧
        (TraversePath reachable n r).2.chanceUsed = r.chanceUsed + (j + 1)) ∨
    ((∀ i, i < 10 → attemptRejected reachable n r i = true) ∧
        (TraversePath reachable n r).1.Location = n.Location ∧
        (TraversePath reachable n r).1.pathLength = n.pathLength ∧
        (TraversePath reachable n r).2.chanceUsed = r.chanceUsed + 10) := by
  have ht : TraversePath reachable n r = traverseLoop reachable 10 n r := by
    unfold TraversePath
    rw [if_neg (by omega)]
  rw [ht]
  rcases traverseLoop_cases reachable 10 n r with ⟨j, hj, hrej, hacc, heq⟩ | ⟨hrej, heq⟩
  · left
    obtain ⟨a, b, c, d, e, f, g1, g2, g3, g4, g5⟩ := acceptedAt_facts reachable n r j hdir hacc
    rw [heq]
    exact ⟨j, hj, hrej, hacc, g1, g2, g3, g4, g5, a, d, e, f, b, c⟩
  · right
    obtain ⟨sl, -, -, sp, sc, -⟩ := attemptState_fields n r 10
    rw [heq]
    exact ⟨hrej, sl, sp, sc⟩

theorem TraversePath_outcome_witness :
    (leashNPC.pathLength > 0 ∧ 0 ≤ leashNPC.pathDir ∧ leashNPC.pathDir ≤ 7) ∧
    (TraversePath (fun x y => decide (x = 6 ∧ y = 5)) leashNPC leashRng).1.Location =
      { x := 6, y := 5 } ∧
    (TraversePath (fun x y => decide (x = 6 ∧ y = 5)) leashNPC leashRng).1.pathLength = 2 ∧
    (TraversePath (fun x y => decide (x = 6 ∧ y = 5)) leashNPC leashRng).2.chanceUsed = 4 ∧
    ((∃ j, j < 10 ∧
        (∀ i, i < j →
          attemptRejected (fun x y => decide (x = 6 ∧ y = 5)) leashNPC leashRng i = true) ∧
        attemptRejected (fun x y => decide (x = 6 ∧ y = 5)) leashNPC leashRng j = false ∧
        (fun x y => decide (x = 6 ∧ y = 5)) (attemptDst leashNPC leashRng j).X
          (attemptDst leashNPC leashRng j).Y = true ∧
        leashNPC.Boundaries0.X ≤ (attemptDst leashNPC leashRng j).X ∧
        (attemptDst leashNPC leashRng j).X ≤ leashNPC.Boundaries1.X ∧
        leashNPC.Boundaries0.Y ≤ (attemptDst leashNPC leashRng j).Y ∧
        (attemptDst leashNPC leashRng j).Y ≤ leashNPC.Boundaries1.Y ∧
        (TraversePath (fun x y => decide (x = 6 ∧ y = 5)) leashNPC leashRng).1.Location =
          attemptDst leashNPC leashRng j ∧
        ((attemptDst leashNPC leashRng j).x - leashNPC.Location.x).natAbs ≤ 1 ∧
        ((attemptDst leashNPC leashRng j).y - leashNPC.Location.y).natAbs ≤ 1 ∧
        attemptDst leashNPC leashRng j ≠ leashNPC.Location ∧
        (TraversePath (fun x y => decide (x = 6 ∧ y = 5)) leashNPC leashRng).1.pathLength =
          leashNPC.pathLength - 1 ∧
        (TraversePath (fun x y => decide (x = 6 ∧ y = 5)) leashNPC leashRng).2.chanceUsed =
          leashRng.chanceUsed + (j + 1)) ∨
      ((∀ i, i < 10 →
          attemptRejected (fun x y => decide (x = 6 ∧ y = 5)) leashNPC leashRng i = true) ∧
        (TraversePath (fun x y => decide (x = 6 ∧ y = 5)) leashNPC leashRng).1.Location =
          leashNPC.Location ∧
        (TraversePath (fun x y => decide (x = 6 ∧ y = 5)) leashNPC leashRng).1.pathLength =
          leashNPC.pathLength ∧
        (TraversePath (fun x y => decide (x = 6 ∧ y = 5)) leashNPC leashRng).2.chanceUsed =
          leashRng.chanceUsed + 10)) :=
  ⟨⟨by decide, by decide, by decide⟩, by decide, by decide, by decide,
    TraversePath_outcome (fun x y => decide (x = 6 ∧ y = 5)) leashNPC leashRng (by decide)
      ⟨by decide, by decide⟩⟩

theorem TraversePath_idle (reachable : Int → Int → Bool) (n : NPC) (r : Rng)
    (h : n.pathLength ≤ 0) : TraversePath reachable n r = (n, r) := by
  unfold TraversePath
  rw [if_pos h]

/-- C18 as stated fails: an NPC whose counter is 1 and whose ten attempts are all rejected
(here no tile is reachable) does not move, and its counter is still 1 after the call. -/
theorem last_step_can_be_rejected :
    lastStepNPC.pathLength = 1 ∧ inLeash lastStepNPC ∧
    (TraversePath (fun _ _ => false) lastStepNPC leashRng).1.Location = lastStepNPC.Location ∧
    (TraversePath (fun _ _ => false) lastStepNPC leashRng).1.pathLength = 1 := by
  refine ⟨by decide, by decide, by decide, by decide⟩

/-- The first accepted attempt decides the outcome of the retry loop. -/
theorem traverseLoop_first (reachable : Int → Int → Bool) (k : Nat) (n : NPC) (r : Rng) (j : Nat)
    (hj : j < k) (hrej : ∀ i, i < j → attemptRejected reachable n r i = true)
    (hacc : attemptRejected reachable n r j = false) :
    traverseLoop reachable k n r = acceptedAt n r j := by
  rcases traverseLoop_cases reachable k n r with ⟨j', hj', hrej', hacc', heq⟩ | ⟨hall, -⟩
  · have hjj : j' = j := by
      rcases Nat.lt_trichotomy j' j with h | h | h
      · rw [hrej j' h] at hacc'
        exact Bool.noConfusion hacc'
      · exact h
      · rw [hrej' j h] at hacc
        exact Bool.noConfusion hacc
    rw [heq, hjj]
  · rw [hall j hj] at hacc
    exact Bool.noConfusion hacc

/-- C18 (amended): let the counter of the NPC be 1 and its direction a compass direction.  If
some attempt `j` of the ten is the first whose destination is not rejected, `TraversePath`
leaves the NPC on that destination, a neighbouring tile, with its counter at 0, after
`j + 1` attempts; every later `TraversePath` call then changes nothing and consumes no draw,
and neither does the body of the sweep while `nextMove` has not elapsed, whatever players the
regions hold.  If all ten attempts are rejected the NPC keeps its tile and its counter of
1.  One of the two cases always holds, so the NPC moves exactly when an attempt is accepted.
In general a call with a counter of zero or less changes nothing. -/
theorem last_step (reachable : Int → Int → Bool) (n : NPC) (r : Rng)
    (hlen : n.pathLength = 1) (hdir : 0 ≤ n.pathDir ∧ n.pathDir ≤ 7) :
    (∀ j, j < 10 → (∀ i, i < j → attemptRejected reachable n r i = true) →
      attemptRejected reachable n r j = false →
      (TraversePath reachable n r).1.Location = attemptDst n r j ∧
      (TraversePath reachable n r).1.pathLength = 0 ∧
      ((TraversePath reachable n r).1.Location.x - n.Location.x).natAbs ≤ 1 ∧
      ((TraversePath reachable n r).1.Location.y - n.Location.y).natAbs ≤ 1 ∧
      (TraversePath reachable n r).1.Location ≠ n.Location ∧
      (TraversePath reachable n r).2.chanceUsed = r.chanceUsed + (j + 1) ∧
      (∀ (reachable2 : Int → Int → Bool) (r2 : Rng),
        TraversePath reachable2 (TraversePath reachable n r).1 r2 =
          ((TraversePath reachable n r).1, r2)) ∧
      (∀ (g : Grid) (now : Int) (w : Regions) (r2 : Rng),
        skipped g (TraversePath reachable n r).1 = false →
        ¬ (TraversePath reachable n r).1.nextMove < now →
        updateNPC g now w (TraversePath reachable n r).1 r2 =
          (w, (TraversePath reachable n r).1, r2))) ∧
    ((∀ i, i < 10 → attemptRejected reachable n r i = true) →
      (TraversePath reachable n r).1.Location = n.Location ∧
      (TraversePath reachable n r).1.pathLength = 1 ∧
      (TraversePath reachable n r).2.chanceUsed = r.chanceUsed + 10) ∧
    ((∃ j, j < 10 ∧ (∀ i, i < j → attemptRejected reachable n r i = true) ∧
        attemptRejected reachable n r j = false) ∨
      (∀ i, i < 10 → attemptRejected reachable n r i = true)) ∧
    ((TraversePath reachable n r).1.Location ≠ n.Location ↔
      ∃ j, j < 10 ∧ attemptRejected reachable n r j = false) ∧
    (∀ (reachable2 : Int → Int → Bool) (m : NPC) (r2 : Rng), m.pathLength ≤ 0 →
      TraversePath reachable2 m r2 = (m, r2)) ∧
    (∀ (g : Grid) (now : Int) (w : Regions) (m : NPC) (r2 : Rng), skipped g m = false →
      m.pathLength ≤ 0 → ¬ m.nextMove < now → updateNPC g now w m r2 = (w, m, r2)) := by
  have ht : TraversePath reachable n r = traverseLoop reachable 10 n r := by
    unfold TraversePath
    rw [if_neg (by omega)]
  have hsweep : ∀ (g : Grid) (now : Int) (w : Regions) (m : NPC) (r2 : Rng),
      skipped g m = false → m.pathLength ≤ 0 → ¬ m.nextMove < now →
      updateNPC g now w m r2 = (w, m, r2) := by
    intro g now w m r2 hs hl hnm
    unfold updateNPC rollNPC
    rw [if_neg (by simp [hs]), if_neg hnm]
    unfold TraversePathIn
    rw [if_pos hl]
  have hstay : (∀ i, i < 10 → attemptRejected reachable n r i = true) →
      (TraversePath reachable n r).1.Location = n.Location ∧
      (TraversePath reachable n r).1.pathLength = 1 ∧
      (TraversePath reachable n r).2.chanceUsed = r.chanceUsed + 10 := by
    intro hall
    rcases traverseLoop_cases reachable 10 n r with ⟨j, hj, -, hacc, -⟩ | ⟨-, heq⟩
    · rw [hall j hj] at hacc
      exact Bool.noConfusion hacc
    · obtain ⟨sl, -, -, sp, sc, -⟩ := attemptState_fields n r 10
      rw [ht, heq]
      exact ⟨sl, sp.trans hlen, sc⟩
  have hmove : ∀ j, j < 10 → (∀ i, i < j → attemptRejected reachable n r i = true) →
      attemptRejected reachable n r j = false →
      (TraversePath reachable n r).1.Location = attemptDst n r j ∧
      (TraversePath reachable n r).1.pathLength = 0 ∧
      ((TraversePath reachable n r).1.Location.x - n.Location.x).natAbs ≤ 1 ∧
      ((TraversePath reachable n r).1.Location.y - n.Location.y).natAbs ≤ 1 ∧
      (TraversePath reachable n r).1.Location ≠ n.Location ∧
      (TraversePath reachable n r).2.chanceUsed = r.chanceUsed + (j + 1) := by
    intro j hj hrej hacc
    obtain ⟨a, b, c, d, e, f, -⟩ := acceptedAt_facts reachable n r j hdir hacc
    rw [ht, traverseLoop_first reachable 10 n r j hj hrej hacc]
    have hz : (acceptedAt n r j).1.pathLength = 0 := by rw [b, hlen]; rfl
    refine ⟨a, hz, ?_, ?_, ?_, c⟩
    · rw [a]; exact d
    · rw [a]; exact e
    · rw [a]; exact f
  have hcases : (∃ j, j < 10 ∧ (∀ i, i < j → attemptRejected reachable n r i = true) ∧
        attemptRejected reachable n r j = false) ∨
      (∀ i, i < 10 → attemptRejected reachable n r i = true) := by
    rcases traverseLoop_cases reachable 10 n r with ⟨j, hj, hrej, hacc, -⟩ | ⟨hall, -⟩
    · exact Or.inl ⟨j, hj, hrej, hacc⟩
    · exact Or.inr hall
  refine ⟨?_, hstay, hcases, ?_, fun reachable2 m r2 h => TraversePath_idle reachable2 m r2 h,
    hsweep⟩
  · intro j hj hrej hacc
    obtain ⟨a, b, c, d, e, f⟩ := hmove j hj hrej hacc
    refine ⟨a, b, c, d, e, f, ?_, ?_⟩
    · intro reachable2 r2
      exact TraversePath_idle reachable2 _ r2 (by omega)
    · intro g now w r2 hs hnm
      exact hsweep g now w _ r2 hs (by omega) hnm
  · constructor
    · intro hne
      rcases hcases with ⟨j, hj, -, hacc⟩ | hall
      · exact ⟨j, hj, hacc⟩
      · exact absurd (hstay hall).1 hne
    · rintro ⟨j, hj, hacc⟩
      rcases hcases with ⟨j', hj', hrej', hacc'⟩ | hall
      · exact (hmove j' hj' hrej' hacc').2.2.2.2.1
      · rw [hall j hj] at hacc
        exact Bool.noConfusion hacc

theorem last_step_witness :
    (lastStepNPC.pathLength = 1 ∧ 0 ≤ lastStepNPC.pathDir ∧ lastStepNPC.pathDir ≤ 7) ∧
    attemptRejected (fun _ _ => true) lastStepNPC leashRng 0 = false ∧
    (∀ i, i < 10 → attemptRejected (fun _ _ => false) lastStepNPC leashRng i = true) ∧
    (TraversePath (fun _ _ => true) lastStepNPC leashRng).1.Location = { x := 5, y := 4 } ∧
    (TraversePath (fun _ _ => true) lastStepNPC leashRng).1.pathLength = 0 ∧
    ((TraversePath (fun _ _ => true) lastStepNPC leashRng).1.Location =
        attemptDst lastStepNPC leashRng 0 ∧
      (TraversePath (fun _ _ => true) lastStepNPC leashRng).1.pathLength = 0 ∧
      ((TraversePath (fun _ _ => true) lastStepNPC leashRng).1.Location.x -
        lastStepNPC.Location.x).natAbs ≤ 1 ∧
      ((TraversePath (fun _ _ => true) lastStepNPC leashRng).1.Location.y -
        lastStepNPC.Location.y).natAbs ≤ 1 ∧
      (TraversePath (fun _ _ => true) lastStepNPC leashRng).1.Location ≠ lastStepNPC.Location ∧
      (TraversePath (fun _ _ => true) lastStepNPC leashRng).2.chanceUsed =
        leashRng.chanceUsed + (0 + 1) ∧
      (∀ (reachable2 : Int → Int → Bool) (r2 : Rng),
        TraversePath reachable2 (TraversePath (fun _ _ => true) lastStepNPC leashRng).1 r2 =
          ((TraversePath (fun _ _ => true) lastStepNPC leashRng).1, r2)) ∧
      (∀ (g : Grid) (now : Int) (w : Regions) (r2 : Rng),
        skipped g (TraversePath (fun _ _ => true) lastStepNPC leashRng).1 = false →
        ¬ (TraversePath (fun _ _ => true) lastStepNPC leashRng).1.nextMove < now →
        updateNPC g now w (TraversePath (fun _ _ => true) lastStepNPC leashRng).1 r2 =
          (w, (TraversePath (fun _ _ => true) lastStepNPC leashRng).1, r2))) ∧
    ((TraversePath (fun _ _ => false) lastStepNPC leashRng).1.Location = lastStepNPC.Location ∧
      (TraversePath (fun _ _ => false) lastStepNPC leashRng).1.pathLength = 1 ∧
      (TraversePath (fun _ _ => false) lastStepNPC leashRng).2.chanceUsed =
        leashRng.chanceUsed + 10) :=
  ⟨⟨by decide, by decide, by decide⟩, by decide, by decide, by decide, by decide,
    (last_step (fun _ _ => true) lastStepNPC leashRng (by decide) ⟨by decide, by decide⟩).1 0
      (by decide) (fun i hi => absurd hi (Nat.not_lt_zero i)) (by decide),
    (last_step (fun _ _ => false) lastStepNPC leashRng (by decide) ⟨by decide, by decide⟩).2.1
      (by decide)⟩

theorem UpdateRegion_players (g : Grid) (w : Regions) (n : NPC) (x y : Int) :
    (n.UpdateRegion g w x y).Players = w.Players := by
  unfold NPC.UpdateRegion
  split
  · split <;> rfl
  · rfl

theorem traverseLoopIn_players (g : Grid) (reachable : Int → Int → Bool) (k : Nat)
    (w : Regions) (n : NPC) (r : Rng) :
    (traverseLoopIn g reachable k w n r).1.Players = w.Players := by
  induction k generalizing n r with
  | zero => rfl
  | succ k ih =>
    simp only [traverseLoopIn]
    split
    · exact ih _ _
    · exact UpdateRegion_players g w _ _ _

theorem updateNPC_players (g : Grid) (now : Int) (w : Regions) (n : NPC) (r : Rng) :
    (updateNPC g now w n r).1.Players = w.Players := by
  unfold updateNPC
  split
  · rfl
  · unfold TraversePathIn
    split
    · rfl
    · exact traverseLoopIn_players g _ 10 w _ _

/-- The sweep never changes the number of players of a region. -/
theorem sweep_players (g : Grid) (now : Int) (npcs : List NPC) (w : Regions) (r : Rng) :
    (UpdateNPCPositions g now npcs w r).2.1.Players = w.Players := by
  induction npcs generalizing w r with
  | nil => rfl
  | cons x l ih =>
    simp only [UpdateNPCPositions]
    rw [ih, updateNPC_players]

/-- The entry of the returned list at the position of an NPC is what the body of the sweep
makes of that NPC in the regions and with the random source left by the NPCs before it. -/
theorem sweep_slot (g : Grid) (now : Int) (pre : List NPC) (n : NPC) (post : List NPC)
    (w : Regions) (r : Rng) :
    (UpdateNPCPositions g now (pre ++ n :: post) w r).1[pre.length]? =
      some (updateNPC g now (UpdateNPCPositions g now pre w r).2.1 n
        (UpdateNPCPositions g now pre w r).2.2).2.1 := by
  induction pre generalizing w r with
  | nil => simp [UpdateNPCPositions]
  | cons x l ih =>
    simp only [List.cons_append, UpdateNPCPositions, List.length_cons, List.getElem?_cons_succ]
    exact ih _ _

theorem updateNPC_walk (g : Grid) (now : Int) (w : Regions) (n : NPC) (r : Rng)
    (hskip : skipped g n = false) :
    (updateNPC g now w n r).2 =
      TraversePath (g.Reachable (rollNPC g now w n r).1.Location) (rollNPC g now w n r).1
        (rollNPC g now w n r).2 := by
  unfold updateNPC
  rw [if_neg (by simp [hskip])]
  unfold TraversePathIn TraversePath
  split
  · rfl
  · exact traverseLoopIn_walk g _ 10 w _ _

theorem redirect_nextMove (n : NPC) (r : Rng) : (redirect n r).1.nextMove = n.nextMove := by
  unfold redirect
  split <;> rfl

theorem traverseLoop_nextMove (reachable : Int → Int → Bool) (k : Nat) (n : NPC) (r : Rng) :
    (traverseLoop reachable k n r).1.nextMove = n.nextMove := by
  induction k generalizing n r with
  | zero => rfl
  | succ k ih =>
    simp only [traverseLoop]
    split
    · rw [ih]
      exact redirect_nextMove n r
    · exact redirect_nextMove n r

/-- What one `TraversePath` call does to the budget: nothing when it is spent, one step on the
first accepted attempt, nothing when all ten attempts are rejected; `nextMove` is not
touched. -/
theorem TraversePath_trace (reachable : Int → Int → Bool) (n : NPC) (r : Rng) :
    (TraversePath reachable n r).1.nextMove = n.nextMove ∧
    (n.pathLength ≤ 0 → TraversePath reachable n r = (n, r)) ∧
    (n.pathLength > 0 → ∀ j, j < 10 →
      (∀ i, i < j → attemptRejected reachable n r i = true) →
      attemptRejected reachable n r j = false →
      (TraversePath reachable n r).1.Location = attemptDst n r j ∧
      (TraversePath reachable n r).1.pathLength = n.pathLength - 1) ∧
    (n.pathLength > 0 → (∀ i, i < 10 → attemptRejected reachable n r i = true) →
      (TraversePath reachable n r).1.Location = n.Location ∧
      (TraversePath reachable n r).1.pathLength = n.pathLength) := by
  refine ⟨?_, TraversePath_idle reachable n r, ?_, ?_⟩
  · unfold TraversePath
    split
    · rfl
    · exact traverseLoop_nextMove reachable 10 n r
  · intro hlen j hj hrej hacc
    have ht : TraversePath reachable n r = traverseLoop reachable 10 n r := by
      unfold TraversePath
      rw [if_neg (by omega)]
    rw [ht, traverseLoop_first reachable 10 n r j hj hrej hacc]
    refine ⟨rfl, ?_⟩
    show (redirect (attemptState n r j).1 (attemptState n r j).2).1.pathLength - 1 = _
    rw [(redirect_fields _ _).2.2.2, (attemptState_fields n r j).2.2.2.1]
  · intro hlen hall
    have ht : TraversePath reachable n r = traverseLoop reachable 10 n r := by
      unfold TraversePath
      rw [if_neg (by omega)]
    rcases traverseLoop_cases reachable 10 n r with ⟨j, hj, -, hacc, -⟩ | ⟨-, heq⟩
    · rw [hall j hj] at hacc
      exact Bool.noConfusion hacc
    · obtain ⟨sl, -, -, sp, -, -⟩ := attemptState_fields n r 10
      rw [ht, heq]
      exact ⟨sl, sp⟩

/-- C17: let `n` be an NPC of the list that is not skipped, `pre` the NPCs before it, and
`w1`, `r1` the regions and the random source that `UpdateNPCPositions` has reached when it
comes to `n`; the regions hold the same players as at the start.  The entry `m` returned for
`n` is the outcome of `TraversePath` run on the outcome of the re-roll step.  If `nextMove`
is before `now` and some surrounding region holds a player, that step sets `nextMove` to
`now` plus a drawn 5 to 15 seconds and `pathLength` to a drawn 5 to 15 (two draws), and the
walk then spends one step of the new budget or, with all ten attempts rejected, none.
Otherwise nothing is re-rolled and no draw is consumed, yet `TraversePath` still runs on
`n`: with a positive `pathLength` the first accepted attempt moves the NPC and takes one
step off the budget it already had, ten rejected attempts leave it as it was, and a spent
budget leaves it as it was.  So `nextMove` of the entry differs from that of `n` exactly
when the re-roll condition holds. -/
theorem reroll_condition (g : Grid) (now : Int) (pre : List NPC) (n : NPC) (post : List NPC)
    (w : Regions) (r : Rng) (hskip : skipped g n = false) :
    ∀ (w1 : Regions) (r1 : Rng), (UpdateNPCPositions g now pre w r).2 = (w1, r1) →
    w1.Players = w.Players ∧
    ∃ m : NPC,
      (UpdateNPCPositions g now (pre ++ n :: post) w r).1[pre.length]? = some m ∧
      m = (updateNPC g now w1 n r1).2.1 ∧
      (updateNPC g now w1 n r1).2 =
        TraversePath (g.Reachable (rollNPC g now w1 n r1).1.Location) (rollNPC g now w1 n r1).1
          (rollNPC g now w1 n r1).2 ∧
      updateNPC g now w1 n r1 =
        TraversePathIn g (g.Reachable (rollNPC g now w1 n r1).1.Location) w1
          (rollNPC g now w1 n r1).1 (rollNPC g now w1 n r1).2 ∧
      ((n.nextMove < now ∧
          ∃ area ∈ g.surroundingRegions n.Location.X n.Location.Y, w.Players area > 0) →
        ∃ d b : Int, 5 ≤ d ∧ d ≤ 15 ∧ 5 ≤ b ∧ b ≤ 15 ∧
          rollNPC g now w1 n r1 =
            ({ n with nextMove := now + Second * d, pathLength := b },
             { r1 with intUsed := r1.intUsed + 2 }) ∧
          m.nextMove = now + Second * d ∧
          (∀ j, j < 10 →
            (∀ i, i < j → attemptRejected (g.Reachable n.Location)
              { n with nextMove := now + Second * d, pathLength := b }
              { r1 with intUsed := r1.intUsed + 2 } i = true) →
            attemptRejected (g.Reachable n.Location)
              { n with nextMove := now + Second * d, pathLength := b }
              { r1 with intUsed := r1.intUsed + 2 } j = false →
            m.Location = attemptDst { n with nextMove := now + Second * d, pathLength := b }
              { r1 with intUsed := r1.intUsed + 2 } j ∧
            m.pathLength = b - 1) ∧
          ((∀ i, i < 10 → attemptRejected (g.Reachable n.Location)
              { n with nextMove := now + Second * d, pathLength := b }
              { r1 with intUsed := r1.intUsed + 2 } i = true) →
            m.Location = n.Location ∧ m.pathLength = b)) ∧
      (¬ (n.nextMove < now ∧
          ∃ area ∈ g.surroundingRegions n.Location.X n.Location.Y, w.Players area > 0) →
        rollNPC g now w1 n r1 = (n, r1) ∧
        (updateNPC g now w1 n r1).2 = TraversePath (g.Reachable n.Location) n r1 ∧
        updateNPC g now w1 n r1 = TraversePathIn g (g.Reachable n.Location) w1 n r1 ∧
        m.nextMove = n.nextMove ∧
        (n.pathLength ≤ 0 → m = n ∧ (updateNPC g now w1 n r1).2.2 = r1) ∧
        (n.pathLength > 0 → ∀ j, j < 10 →
          (∀ i, i < j → attemptRejected (g.Reachable n.Location) n r1 i = true) →
          attemptRejected (g.Reachable n.Location) n r1 j = false →
          m.Location = attemptDst n r1 j ∧ m.pathLength = n.pathLength - 1) ∧
        (n.pathLength > 0 →
          (∀ i, i < 10 → attemptRejected (g.Reachable n.Location) n r1 i = true) →
          m.Location = n.Location ∧ m.pathLength = n.pathLength)) ∧
      (m.nextMove ≠ n.nextMove ↔
        (n.nextMove < now ∧
          ∃ area ∈ g.surroundingRegions n.Location.X n.Location.Y, w.Players area > 0)) := by
  intro w1 r1 hst
  have hpl : w1.Players = w.Players := by
    have := sweep_players g now pre w r
    rw [hst] at this
    exact this
  have hslot := sweep_slot g now pre n post w r
  rw [hst] at hslot
  obtain ⟨hin, hroll, hkeep⟩ := updateNPC_reroll g now w1 n r1 hskip
  have hwalk := updateNPC_walk g now w1 n r1 hskip
  rw [hpl] at hroll hkeep
  have hyes : (n.nextMove < now ∧
        ∃ area ∈ g.surroundingRegions n.Location.X n.Location.Y, w.Players area > 0) →
      ∃ d b : Int, 5 ≤ d ∧ d ≤ 15 ∧ 5 ≤ b ∧ b ≤ 15 ∧
        rollNPC g now w1 n r1 =
          ({ n with nextMove := now + Second * d, pathLength := b },
           { r1 with intUsed := r1.intUsed + 2 }) ∧
        (updateNPC g now w1 n r1).2.1.nextMove = now + Second * d ∧
        (∀ j, j < 10 →
          (∀ i, i < j → attemptRejected (g.Reachable n.Location)
            { n with nextMove := now + Second * d, pathLength := b }
            { r1 with intUsed := r1.intUsed + 2 } i = true) →
          attemptRejected (g.Reachable n.Location)
            { n with nextMove := now + Second * d, pathLength := b }
            { r1 with intUsed := r1.intUsed + 2 } j = false →
          (updateNPC g now w1 n r1).2.1.Location =
            attemptDst { n with nextMove := now + Second * d, pathLength := b }
              { r1 with intUsed := r1.intUsed + 2 } j ∧
          (updateNPC g now w1 n r1).2.1.pathLength = b - 1) ∧
        ((∀ i, i < 10 → attemptRejected (g.Reachable n.Location)
            { n with nextMove := now + Second * d, pathLength := b }
            { r1 with intUsed := r1.intUsed + 2 } i = true) →
          (updateNPC g now w1 n r1).2.1.Location = n.Location ∧
          (updateNPC g now w1 n r1).2.1.pathLength = b) := by
    intro hc
    obtain ⟨d, b, hd5, hd15, hb5, hb15, hr⟩ := hroll hc
    have hw2 : (updateNPC g now w1 n r1).2 =
        TraversePath (g.Reachable n.Location)
          { n with nextMove := now + Second * d, pathLength := b }
          { r1 with intUsed := r1.intUsed + 2 } := by
      rw [hwalk, hr]
    obtain ⟨tn, -, tacc, trej⟩ := TraversePath_trace (g.Reachable n.Location)
      { n with nextMove := now + Second * d, pathLength := b }
      { r1 with intUsed := r1.intUsed + 2 }
    have hpos : ({ n with nextMove := now + Second * d, pathLength := b } : NPC).pathLength > 0 := by
      show b > 0
      omega
    refine ⟨d, b, hd5, hd15, hb5, hb15, hr, ?_, ?_, ?_⟩
    · rw [hw2]
      exact tn
    · intro j hj hrej hacc
      rw [hw2]
      exact tacc hpos j hj hrej hacc
    · intro hall
      rw [hw2]
      exact trej hpos hall
  have hno : ¬ (n.nextMove < now ∧
        ∃ area ∈ g.surroundingRegions n.Location.X n.Location.Y, w.Players area > 0) →
      rollNPC g now w1 n r1 = (n, r1) ∧
      (updateNPC g now w1 n r1).2 = TraversePath (g.Reachable n.Location) n r1 := by
    intro hc
    obtain ⟨hr, -⟩ := hkeep hc
    refine ⟨hr, ?_⟩
    rw [hwalk, hr]
  refine ⟨hpl, (updateNPC g now w1 n r1).2.1, hslot, rfl, hwalk, hin, hyes, ?_, ?_⟩
  · intro hc
    obtain ⟨hr, hw2⟩ := hno hc
    obtain ⟨tn, tidle, tacc, trej⟩ := TraversePath_trace (g.Reachable n.Location) n r1
    refine ⟨hr, hw2, (hkeep hc).2, ?_, ?_, ?_, ?_⟩
    · rw [hw2]
      exact tn
    · intro hl
      rw [hw2, tidle hl]
      exact ⟨rfl, rfl⟩
    · intro hl j hj hrej hacc
      rw [hw2]
      exact tacc hl j hj hrej hacc
    · intro hl hall
      rw [hw2]
      exact trej hl hall
  · constructor
    · intro hne
      by_contra hc
      obtain ⟨-, hw2⟩ := hno hc
      apply hne
      rw [hw2]
      exact (TraversePath_trace (g.Reachable n.Location) n r1).1
    · intro hc
      obtain ⟨d, b, hd5, -, -, -, -, hnm, -⟩ := hyes hc
      rw [hnm]
      have hs : Second = 1000000000 := rfl
      have := hc.1
      rw [hs]
      omega

theorem reroll_condition_witness :
    skipped sampleGrid borderNPC = false ∧
    (UpdateNPCPositions sampleGrid 100 [{ borderNPC with IsFighting := true }, borderNPC]
        sampleRegions leashRng).1[1]?.map
        (fun m => (m.Location, m.nextMove, m.pathLength)) =
      some ({ x := 47, y := 10 }, 5000000100, 4) ∧
    (∃ m : NPC,
      (UpdateNPCPositions sampleGrid 100
        ([{ borderNPC with IsFighting := true }] ++ borderNPC :: []) sampleRegions
          leashRng).1[[{ borderNPC with IsFighting := true }].length]? = some m ∧
      (m.nextMove ≠ borderNPC.nextMove ↔
        (borderNPC.nextMove < 100 ∧
          ∃ area ∈ sampleGrid.surroundingRegions borderNPC.Location.X borderNPC.Location.Y,
            sampleRegions.Players area > 0))) :=
  ⟨by decide, by decide,
    ((reroll_condition sampleGrid 100 [{ borderNPC with IsFighting := true }] borderNPC []
        sampleRegions leashRng (by decide)
        (UpdateNPCPositions sampleGrid 100 [{ borderNPC with IsFighting := true }]
          sampleRegions leashRng).2.1
        (UpdateNPCPositions sampleGrid 100 [{ borderNPC with IsFighting := true }]
          sampleRegions leashRng).2.2 rfl).2).imp
      (fun _ h => ⟨h.1, h.2.2.2.2.2.2⟩)⟩

theorem deathTriggerLoop_eq (killer : Int) (n : NPC) (ts : List NpcBlockingTrigger)
    (launched : List Nat) :
    deathTriggerLoop killer n ts launched =
      launched ++ (ts.filter (fun t => t.Check killer n)).map (fun t => t.Action) := by
  induction ts generalizing launched with
  | nil => simp [deathTriggerLoop]
  | cons t rest ih =>
    unfold deathTriggerLoop
    split
    · rename_i h
      rw [ih]
      simp [List.filter_cons, h]
    · rename_i h
      rw [ih]
      simp [List.filter_cons, h]

/-- C20 as stated fails: with two triggers whose `Check` both return true, a kill by a
player launches the actions of both, not only that of the first. -/
theorem Killed_launches_every_match :
    (Killed sampleGrid sampleTriggers (MobileEntity.player 1) borderNPC).1 = [10, 11] := by
  decide

/-- C20 (amended): when a player kills an NPC, `Killed` launches, in list order, the action
of every trigger of `NpcDeathTriggers` whose `Check(killer, npc)` returns true and of no
other trigger; it launches nothing when no `Check` returns true or when the killer is not a
player. -/
theorem Killed_triggers (g : Grid) (triggers : List NpcBlockingTrigger) (k : Int) (n : NPC) :
    (Killed g triggers (MobileEntity.player k) n).1 =
      (triggers.filter (fun t => t.Check k n)).map (fun t => t.Action) ∧
    ((∀ t ∈ triggers, t.Check k n = false) →
      (Killed g triggers (MobileEntity.player k) n).1 = []) ∧
    (Killed g triggers (MobileEntity.npc k) n).1 = [] ∧
    (Killed g triggers (MobileEntity.player k) n).2.Location = g.DeathPoint := by
  have h : (Killed g triggers (MobileEntity.player k) n).1 =
      (triggers.filter (fun t => t.Check k n)).map (fun t => t.Action) := by
    simp [Killed, deathTriggerLoop_eq]
  refine ⟨h, ?_, rfl, rfl⟩
  intro hnone
  rw [h, List.filter_eq_nil_iff.mpr (fun t ht => by simp [hnone t ht])]
  rfl

end GameWorld

/-! ## Theorems about path following in `pathway.go` -/

namespace ServerWorld

theorem longestDelta_zero (a b : Packets.Location) (h : a.LongestDelta b = 0) : a = b := by
  obtain ⟨ax, ay⟩ := a
  obtain ⟨bx, by1⟩ := b
  simp only [Packets.Location.LongestDelta, max_def] at h
  have hx : ax = bx := by split_ifs at h <;> omega
  have hy : ay = by1 := by split_ifs at h <;> omega
  rw [hx, hy]

/-- One `NextTile` step towards the waypoint (dx, dy), from a tile with `uint32` coordinates. -/
theorem NextTile_step (p : Pathway) (dx dy : Nat)
    (h1 : p.waypointX p.CurrentWaypoint = some dx) (h2 : p.waypointY p.CurrentWaypoint = some dy)
    (bx : dx < 4294967296) (by1 : dy < 4294967296) (t : Packets.Location)
    (tx : t.X < 4294967296) (ty : t.Y < 4294967296) :
    ∃ next : Packets.Location, p.NextTile t.X t.Y = some next ∧
      next.X < 4294967296 ∧ next.Y < 4294967296 ∧
      (t = { X := dx, Y := dy } → next = { X := dx, Y := dy }) ∧
      (t ≠ { X := dx, Y := dy } →
        next.LongestDelta { X := dx, Y := dy } + 1 = t.LongestDelta { X := dx, Y := dy }) := by
  have sx := stepAxis_spec t.X dx tx bx
  have sy := stepAxis_spec t.Y dy ty by1
  refine ⟨{ X := stepAxis t.X dx, Y := stepAxis t.Y dy }, by simp [Pathway.NextTile, h1, h2],
    ?_, ?_, ?_, ?_⟩
  · simp only [sx]
    split_ifs <;> omega
  · simp only [sy]
    split_ifs <;> omega
  · intro ht
    rw [ht]
    simp [stepAxis]
  · intro hne
    have hne2 : ¬ (t.X = dx ∧ t.Y = dy) := by
      rintro ⟨e1, e2⟩
      apply hne
      obtain ⟨a, b⟩ := t
      simp only at e1 e2
      rw [e1, e2]
    simp only [Packets.Location.LongestDelta, sx, sy]
    split_ifs <;> simp only [max_def] <;> split_ifs <;> omega

theorem follow_fixed (p : Pathway) (dest : Packets.Location)
    (h : p.NextTile dest.X dest.Y = some dest) (k : Nat) : follow p k dest = some dest := by
  induction k with
  | zero => rfl
  | succ k ih =>
    simp only [follow, h]
    exact ih

/-- Path following from a tile at distance `n` of the waypoint. -/
theorem follow_spec (p : Pathway) (dx dy : Nat)
    (h1 : p.waypointX p.CurrentWaypoint = some dx) (h2 : p.waypointY p.CurrentWaypoint = some dy)
    (bx : dx < 4294967296) (by1 : dy < 4294967296) (n : Nat) (t : Packets.Location)
    (tx : t.X < 4294967296) (ty : t.Y < 4294967296)
    (hd : t.LongestDelta { X := dx, Y := dy } = (n : Int)) :
    (∀ k, k ≤ n → ∃ u, follow p k t = some u ∧
      u.LongestDelta { X := dx, Y := dy } = ((n - k : Nat) : Int)) ∧
    (∀ k, n ≤ k → follow p k t = some { X := dx, Y := dy }) := by
  induction n generalizing t with
  | zero =>
    have ht : t = { X := dx, Y := dy } := longestDelta_zero _ _ (by simpa using hd)
    obtain ⟨next, hn, -, -, hfix, -⟩ := NextTile_step p dx dy h1 h2 bx by1 t tx ty
    have hnext : p.NextTile ({ X := dx, Y := dy } : Packets.Location).X
        ({ X := dx, Y := dy } : Packets.Location).Y = some { X := dx, Y := dy } := by
      rw [← ht, hn, hfix ht, ht]
    refine ⟨fun k hk => ?_, fun k _ => ?_⟩
    · have hk0 : k = 0 := by omega
      subst hk0
      exact ⟨t, rfl, by simpa using hd⟩
    · rw [ht]
      exact follow_fixed p _ hnext k
  | succ n ih =>
    have hne : t ≠ { X := dx, Y := dy } := by
      intro e
      rw [e] at hd
      simp only [Packets.Location.LongestDelta, sub_self, Int.natAbs_zero, Nat.cast_zero,
        max_self] at hd
      omega
    obtain ⟨next, hn, nx, ny, -, hstep⟩ := NextTile_step p dx dy h1 h2 bx by1 t tx ty
    have hdn : next.LongestDelta { X := dx, Y := dy } = (n : Int) := by
      have := hstep hne
      rw [hd] at this
      push_cast at this
      omega
    obtain ⟨ih1, ih2⟩ := ih next nx ny hdn
    refine ⟨fun k hk => ?_, fun k hk => ?_⟩
    · cases k with
      | zero => exact ⟨t, rfl, by simpa using hd⟩
      | succ k =>
        obtain ⟨u, hu, hdu⟩ := ih1 k (by omega)
        refine ⟨u, by simp only [follow, hn]; exact hu, ?_⟩
        rw [hdu]
        congr 1
        omega
    · cases k with
      | zero => omega
      | succ k =>
        simp only [follow, hn]
        exact ih2 k (by omega)

/-- C24: for a pathway whose cursor is at least -1 and a start tile with `uint32`
coordinates, repeated `NextTile` steps reach the current waypoint after exactly
`max(|startX - wx|, |startY - wy|)` steps: after `k` steps, `k` at most that number, the
longest axis delta to the waypoint is that number minus `k` (so the waypoint is not reached
earlier), and from then on every further step returns the waypoint itself. -/
theorem follow_converges (p : Pathway) (start : Packets.Location)
    (hx : start.X < 4294967296) (hy : start.Y < 4294967296) (hw : -1 ≤ p.CurrentWaypoint) :
    ∃ dest : Packets.Location, p.Waypoint p.CurrentWaypoint = some dest ∧
      (∀ k, k ≤ (start.LongestDelta dest).toNat → ∃ t, follow p k start = some t ∧
        t.LongestDelta dest = start.LongestDelta dest - (k : Int)) ∧
      (∀ k, k < (start.LongestDelta dest).toNat → follow p k start ≠ some dest) ∧
      follow p (start.LongestDelta dest).toNat start = some dest ∧
      (∀ k, (start.LongestDelta dest).toNat ≤ k → follow p k start = some dest) ∧
      p.NextTile dest.X dest.Y = some dest := by
  obtain ⟨dx, dy, h1, h2, bx, by1⟩ := waypoint_defined p p.CurrentWaypoint hw
  have hnn : 0 ≤ start.LongestDelta { X := dx, Y := dy } := by
    simp only [Packets.Location.LongestDelta, max_def]
    split_ifs <;> omega
  have hd : start.LongestDelta { X := dx, Y := dy } =
      (((start.LongestDelta { X := dx, Y := dy }).toNat : Nat) : Int) :=
    (Int.toNat_of_nonneg hnn).symm
  obtain ⟨f1, f2⟩ := follow_spec p dx dy h1 h2 bx by1 _ start hx hy hd
  have hself : ({ X := dx, Y := dy } : Packets.Location).LongestDelta { X := dx, Y := dy } = 0 := by
    simp [Packets.Location.LongestDelta]
  refine ⟨{ X := dx, Y := dy }, by simp [Pathway.Waypoint, h1, h2], ?_, ?_, f2 _ (le_refl _),
    f2, ?_⟩
  · intro k hk
    obtain ⟨t, ht, hdt⟩ := f1 k hk
    refine ⟨t, ht, ?_⟩
    rw [hdt]
    omega
  · intro k hk hreach
    obtain ⟨t, ht, hdt⟩ := f1 k (by omega)
    rw [hreach] at ht
    simp only [Option.some.injEq] at ht
    rw [← ht, hself] at hdt
    omega
  · obtain ⟨next, hn, -, -, hfix, -⟩ :=
      NextTile_step p dx dy h1 h2 bx by1 { X := dx, Y := dy } bx by1
    rw [hn, hfix rfl]

theorem follow_converges_witness :
    ((117 : Nat) < 4294967296 ∧ (500 : Nat) < 4294967296 ∧ -1 ≤ samplePath.CurrentWaypoint) ∧
    (follow samplePath 3 { X := 117, Y := 500 } = some { X := 120, Y := 497 } ∧
      follow samplePath 6 { X := 117, Y := 500 } = some { X := 123, Y := 496 } ∧
      follow samplePath 9 { X := 117, Y := 500 } = some { X := 123, Y := 496 }) ∧
    ∃ dest : Packets.Location, samplePath.Waypoint samplePath.CurrentWaypoint = some dest ∧
      (∀ k, k ≤ (({ X := 117, Y := 500 } : Packets.Location).LongestDelta dest).toNat →
        ∃ t, follow samplePath k { X := 117, Y := 500 } = some t ∧
          t.LongestDelta dest =
            ({ X := 117, Y := 500 } : Packets.Location).LongestDelta dest - (k : Int)) ∧
      (∀ k, k < (({ X := 117, Y := 500 } : Packets.Location).LongestDelta dest).toNat →
        follow samplePath k { X := 117, Y := 500 } ≠ some dest) ∧
      follow samplePath (({ X := 117, Y := 500 } : Packets.Location).LongestDelta dest).toNat
        { X := 117, Y := 500 } = some dest ∧
      (∀ k, (({ X := 117, Y := 500 } : Packets.Location).LongestDelta dest).toNat ≤ k →
        follow samplePath k { X := 117, Y := 500 } = some dest) ∧
      samplePath.NextTile dest.X dest.Y = some dest :=
  ⟨⟨by decide, by decide, by decide⟩, ⟨by decide, by decide, by decide⟩,
    follow_converges samplePath { X := 117, Y := 500 } (by decide) (by decide) (by decide)⟩

theorem sliceAt_eq (s : List Int) (w : Int) (h0 : 0 ≤ w) : sliceAt s w = s[w.toNat]? := by
  unfold sliceAt
  rw [if_neg (by omega)]

theorem add32_offset (start : Nat) (off : Int) (hs : start < 4294967296)
    (h0 : 0 ≤ (start : Int) + off) (h1 : (start : Int) + off < 4294967296) :
    ((Packets.add32 start (Packets.uint32 off) : Nat) : Int) = (start : Int) + off := by
  unfold Packets.add32 Packets.uint32
  omega

/-- C25: for an index `w` of at least -1 and `uint32` start coordinates, `Waypoint(w)` is
computed without an out-of-range access.  On each axis the coordinate is the start
coordinate when `w` is -1 or past the end of that axis's list, and otherwise the exact sum
of the start coordinate and the offset at `w`, negative offsets included, whenever the sum
lies in [0, 2^32); so a pathway built by `NewPathway(x, y)` targets (x, y). -/
theorem Waypoint_coordinates (p : Pathway) (w : Int) (hw : -1 ≤ w)
    (hx : p.StartX < 4294967296) (hy : p.StartY < 4294967296) :
    ∃ loc : Packets.Location, p.Waypoint w = some loc ∧
      ((w = -1 ∨ w ≥ (p.WaypointsX.length : Int)) → loc.X = p.StartX) ∧
      ((w = -1 ∨ w ≥ (p.WaypointsY.length : Int)) → loc.Y = p.StartY) ∧
      (0 ≤ w → w < (p.WaypointsX.length : Int) →
        ∃ off, p.WaypointsX[w.toNat]? = some off ∧
          (0 ≤ (p.StartX : Int) + off → (p.StartX : Int) + off < 4294967296 →
            (loc.X : Int) = (p.StartX : Int) + off)) ∧
      (0 ≤ w → w < (p.WaypointsY.length : Int) →
        ∃ off, p.WaypointsY[w.toNat]? = some off ∧
          (0 ≤ (p.StartY : Int) + off → (p.StartY : Int) + off < 4294967296 →
            (loc.Y : Int) = (p.StartY : Int) + off)) ∧
      (∀ x y : Nat, x < 4294967296 → y < 4294967296 →
        (NewPathway x y).Waypoint (NewPathway x y).CurrentWaypoint = some { X := x, Y := y } ∧
        (NewPathway x y).NextTile x y = some { X := x, Y := y }) := by
  obtain ⟨lx, ly, h1, h2, -, -⟩ := waypoint_defined p w hw
  have zero32 : ∀ a : Nat, a < 4294967296 → Packets.add32 a (Packets.uint32 0) = a := by
    intro a ha
    unfold Packets.add32 Packets.uint32
    omega
  refine ⟨{ X := lx, Y := ly }, by simp [Pathway.Waypoint, h1, h2], ?_, ?_, ?_, ?_, ?_⟩
  · intro hcase
    have : p.waypointXoffset w = some 0 := by
      unfold Pathway.waypointXoffset
      rw [if_pos (by omega)]
    simp only [Pathway.waypointX, this, Option.map_some', Option.some.injEq] at h1
    rw [← h1]
    exact zero32 _ hx
  · intro hcase
    have : p.waypointYoffset w = some 0 := by
      unfold Pathway.waypointYoffset
      rw [if_pos (by omega)]
    simp only [Pathway.waypointY, this, Option.map_some', Option.some.injEq] at h2
    rw [← h2]
    exact zero32 _ hy
  · intro h0 hlt
    obtain ⟨off, hoff⟩ := sliceAt_some p.WaypointsX w h0 hlt
    have hsl := sliceAt_eq p.WaypointsX w h0
    refine ⟨off, by rw [← hsl, hoff], fun a b => ?_⟩
    have : p.waypointXoffset w = some off := by
      unfold Pathway.waypointXoffset
      rw [if_neg (by omega), hoff]
    simp only [Pathway.waypointX, this, Option.map_some', Option.some.injEq] at h1
    show (lx : Int) = _
    rw [← h1]
    exact add32_offset _ _ hx a b
  · intro h0 hlt
    obtain ⟨off, hoff⟩ := sliceAt_some p.WaypointsY w h0 hlt
    have hsl := sliceAt_eq p.WaypointsY w h0
    refine ⟨off, by rw [← hsl, hoff], fun a b => ?_⟩
    have : p.waypointYoffset w = some off := by
      unfold Pathway.waypointYoffset
      rw [if_neg (by omega), hoff]
    simp only [Pathway.waypointY, this, Option.map_some', Option.some.injEq] at h2
    show (ly : Int) = _
    rw [← h2]
    exact add32_offset _ _ hy a b
  · intro x y bx by1
    have ex := zero32 x bx
    have ey := zero32 y by1
    constructor
    · simp [Pathway.Waypoint, Pathway.waypointX, Pathway.waypointY, Pathway.waypointXoffset,
        Pathway.waypointYoffset, NewPathway, ex, ey]
    · simp [Pathway.NextTile, Pathway.waypointX, Pathway.waypointY, Pathway.waypointXoffset,
        Pathway.waypointYoffset, NewPathway, ex, ey, stepAxis]

theorem Waypoint_coordinates_witness :
    (-1 ≤ (1 : Int) ∧ samplePath.StartX < 4294967296 ∧ samplePath.StartY < 4294967296) ∧
    (samplePath.Waypoint 1 = some { X := 118, Y := 500 } ∧
      samplePath.Waypoint (-1) = some { X := 120, Y := 500 } ∧
      samplePath.Waypoint 2 = some { X := 120, Y := 500 }) ∧
    ∃ loc : Packets.Location, samplePath.Waypoint 1 = some loc ∧
      (((1 : Int) = -1 ∨ (1 : Int) ≥ (samplePath.WaypointsX.length : Int)) →
        loc.X = samplePath.StartX) ∧
      (((1 : Int) = -1 ∨ (1 : Int) ≥ (samplePath.WaypointsY.length : Int)) →
        loc.Y = samplePath.StartY) ∧
      (0 ≤ (1 : Int) → (1 : Int) < (samplePath.WaypointsX.length : Int) →
        ∃ off, samplePath.WaypointsX[(1 : Int).toNat]? = some off ∧
          (0 ≤ (samplePath.StartX : Int) + off → (samplePath.StartX : Int) + off < 4294967296 →
            (loc.X : Int) = (samplePath.StartX : Int) + off)) ∧
      (0 ≤ (1 : Int) → (1 : Int) < (samplePath.WaypointsY.length : Int) →
        ∃ off, samplePath.WaypointsY[(1 : Int).toNat]? = some off ∧
          (0 ≤ (samplePath.StartY : Int) + off → (samplePath.StartY : Int) + off < 4294967296 →
            (loc.Y : Int) = (samplePath.StartY : Int) + off)) ∧
      (∀ x y : Nat, x < 4294967296 → y < 4294967296 →
        (NewPathway x y).Waypoint (NewPathway x y).CurrentWaypoint = some { X := x, Y := y } ∧
        (NewPathway x y).NextTile x y = some { X := x, Y := y }) :=
  ⟨⟨by decide, by decide, by decide⟩, ⟨by decide, by decide, by decide⟩,
    Waypoint_coordinates samplePath 1 (by decide) (by decide) (by decide)⟩

end ServerWorld

/-! ## Theorems about the object channels of `builders.go` -/

namespace Packets

/-- The comparison with the stored object is by address: once the object at a cached tile
has been replaced by another object with the same fields, the state is not settled and
`ObjectLocations` writes a removal record for the cached object and evicts it; with the
very object still stored, it returns nothing. -/
theorem ObjectLocations_evicts_replaced_object :
    quietStore 104 99 ≠ replacedStore 104 99 ∧
    (quietStore 104 99).map (fun o => (o.X, o.Y, o.ID, o.Direction, o.Boundary)) =
      (replacedStore 104 99).map (fun o => (o.X, o.Y, o.ID, o.Direction, o.Boundary)) ∧
    ¬ settled (NewNPCs [npcAt 5 101 99]) (fun _ => []) replacedStore [] quietObserver ∧
    (ObjectLocations replacedStore quietObserver []).1 =
      some { Opcode := 48, Payload :=
        [{ width := 16, value := 60000 }, { width := 8, value := 4 },
         { width := 8, value := 255 }] } ∧
    (ObjectLocations replacedStore quietObserver []).2.LocalObjects =
      [{ X := 98, Y := 101, ID := 2, Direction := 1, Boundary := true, ptr := 2 }] ∧
    (ObjectLocations quietStore quietObserver []).1 = none := by
  refine ⟨by decide, by decide, by unfold settled; decide, by decide, by decide, by decide⟩

theorem byte_lt (i : Int) : byte i < 256 := by
  unfold byte
  omega

theorem uint16_lt (i : Int) : uint16 i < 65536 := by
  unfold uint16
  omega

/-- C22 as stated fails: the removal record `BoundaryLocations` writes for a cached boundary
30 tiles away opens with the single byte 255, not with a 16-bit field. -/
theorem boundary_removal_leads_with_a_byte :
    (BoundaryLocations farBoundaryObserver []).1 =
      some { Opcode := 91, Payload :=
        [{ width := 8, value := 255 }, { width := 8, value := 30 }, { width := 8, value := 0 }] } := by
  decide

/-- C22 (amended): every record of `ObjectLocations` is a 16-bit field, the sentinel 60000
on a removal and the scenery id on an addition, followed by the X and Y offset bytes; every
addition record of `BoundaryLocations` is the 16-bit id, the X and Y offset bytes and one
direction byte; every removal record of `BoundaryLocations` is the single byte 255 followed
by the X and Y offset bytes.  Removals come first, additions after. -/
theorem object_wire_shape (G : Nat → Nat → Option Object) (player : Player)
    (newObjects : List Object) :
    (∀ pkt, (ObjectLocations G player newObjects).1 = some pkt →
      ∃ removals additions : List (List Field),
        pkt.Payload = removals.flatMap id ++ additions.flatMap id ∧
        (∀ rec ∈ removals, ∃ x y, x < 256 ∧ y < 256 ∧
          rec = [{ width := 16, value := 60000 }, { width := 8, value := x },
                 { width := 8, value := y }]) ∧
        (∀ rec ∈ additions, ∃ o ∈ newObjects, ∃ x y, o.Boundary = false ∧ x < 256 ∧ y < 256 ∧
          uint16 o.ID < 65536 ∧
          rec = [{ width := 16, value := uint16 o.ID }, { width := 8, value := x },
                 { width := 8, value := y }])) ∧
    (∀ pkt, (BoundaryLocations player newObjects).1 = some pkt →
      ∃ removals additions : List (List Field),
        pkt.Payload = removals.flatMap id ++ additions.flatMap id ∧
        (∀ rec ∈ removals, ∃ x y, x < 256 ∧ y < 256 ∧
          rec = [{ width := 8, value := 255 }, { width := 8, value := x },
                 { width := 8, value := y }]) ∧
        (∀ rec ∈ additions, ∃ o ∈ newObjects, ∃ x y d, o.Boundary = true ∧ x < 256 ∧ y < 256 ∧
          d < 256 ∧ uint16 o.ID < 65536 ∧
          rec = [{ width := 16, value := uint16 o.ID }, { width := 8, value := x },
                 { width := 8, value := y }, { width := 8, value := d }])) := by
  constructor
  · intro pkt h
    rw [ObjectLocations_eq] at h
    dsimp only at h
    split at h
    · exact absurd h (by simp)
    · simp only [Option.some.injEq] at h
      refine ⟨(player.LocalObjects.filter (objGone G player.toLocation)).map
          (objRemoveBits player.toLocation),
        (newObjects.filter (fun o => !o.Boundary)).map (objNewBits player.toLocation), ?_, ?_, ?_⟩
      · rw [← h]
        simp [List.flatMap_map]
      · intro rec hrec
        obtain ⟨o, -, rfl⟩ := List.mem_map.mp hrec
        exact ⟨_, _, byte_lt _, byte_lt _, rfl⟩
      · intro rec hrec
        obtain ⟨o, ho, rfl⟩ := List.mem_map.mp hrec
        obtain ⟨hmem, hb⟩ := List.mem_filter.mp ho
        exact ⟨o, hmem, _, _, by simpa using hb, byte_lt _, byte_lt _, uint16_lt _, rfl⟩
  · intro pkt h
    rw [BoundaryLocations_eq] at h
    dsimp only at h
    split at h
    · exact absurd h (by simp)
    · simp only [Option.some.injEq] at h
      refine ⟨(player.LocalObjects.filter (bndGone player.toLocation)).map
          (bndRemoveBits player.toLocation),
        (newObjects.filter (fun o => o.Boundary)).map (bndNewBits player.toLocation), ?_, ?_, ?_⟩
      · rw [← h]
        simp [List.flatMap_map]
      · intro rec hrec
        obtain ⟨o, -, rfl⟩ := List.mem_map.mp hrec
        exact ⟨_, _, byte_lt _, byte_lt _, rfl⟩
      · intro rec hrec
        obtain ⟨o, ho, rfl⟩ := List.mem_map.mp hrec
        obtain ⟨hmem, hb⟩ := List.mem_filter.mp ho
        exact ⟨o, hmem, _, _, _, hb, byte_lt _, byte_lt _, byte_lt _, uint16_lt _, rfl⟩

theorem offset_byte (a b : Nat) :
    ((byte (sub32 a b) : Nat) : Int) = ((a : Int) - (b : Int)) % 256 := by
  unfold byte sub32 uint32
  omega

/-- C23 as stated fails: for a cached object 200 tiles away the removal record carries the
byte 200, which read as a signed 8-bit integer is -56 and not `o.X - player.X = 200`; and
`ObjectLocations` also writes a removal record for an object 4 tiles away that is no longer
the object stored at its tile. -/
theorem far_offset_does_not_fit_a_signed_byte :
    (ObjectLocations farStore farObjectObserver []).1 =
      some { Opcode := 48, Payload :=
        [{ width := 16, value := 60000 }, { width := 8, value := 200 },
         { width := 8, value := 0 }] } ∧
    int8 200 = -56 ∧
    int8 (byte (sub32 300 farObjectObserver.X)) ≠ (300 : Int) - (farObjectObserver.X : Int) ∧
    (quietObserver.toLocation.LongestDelta { X := 104, Y := 99 } = 4 ∧
      (ObjectLocations emptyStore quietObserver []).1 =
        some { Opcode := 48, Payload :=
          [{ width := 16, value := 60000 }, { width := 8, value := 4 },
           { width := 8, value := 255 }] }) := by
  refine ⟨by decide, by decide, by decide, by decide, by decide⟩

/-- C23 (amended): in every record `ObjectLocations` or `BoundaryLocations` writes, addition
or removal, the two offset bytes hold `o.X - player.X` and `o.Y - player.Y` modulo 256; read
as a signed 8-bit integer a byte yields the difference exactly whenever the difference lies
between -128 and 127.  `BoundaryLocations` writes a removal record for the cached
boundaries more than 21 tiles away, `ObjectLocations` for the cached freestanding objects
that are more than 21 tiles away or are no longer the object stored at their tile. -/
theorem signed_offsets (G : Nat → Nat → Option Object) (player : Player)
    (newObjects : List Object) :
    (∀ pkt, (ObjectLocations G player newObjects).1 = some pkt →
      pkt.Payload =
        (player.LocalObjects.filter (fun o => !o.Boundary &&
            (decide (player.toLocation.LongestDelta o.toLocation > 21) ||
              differsFrom (G o.X o.Y) o))).flatMap
          (fun o => [{ width := 16, value := 60000 },
            { width := 8, value := byte (sub32 o.X player.X) },
            { width := 8, value := byte (sub32 o.Y player.Y) }]) ++
        (newObjects.filter (fun o => !o.Boundary)).flatMap
          (fun o => [{ width := 16, value := uint16 o.ID },
            { width := 8, value := byte (sub32 o.X player.X) },
            { width := 8, value := byte (sub32 o.Y player.Y) }])) ∧
    (∀ pkt, (BoundaryLocations player newObjects).1 = some pkt →
      pkt.Payload =
        (player.LocalObjects.filter (fun o => o.Boundary &&
            decide (player.toLocation.LongestDelta o.toLocation > 21))).flatMap
          (fun o => [{ width := 8, value := 255 },
            { width := 8, value := byte (sub32 o.X player.X) },
            { width := 8, value := byte (sub32 o.Y player.Y) }]) ++
        (newObjects.filter (fun o => o.Boundary)).flatMap
          (fun o => [{ width := 16, value := uint16 o.ID },
            { width := 8, value := byte (sub32 o.X player.X) },
            { width := 8, value := byte (sub32 o.Y player.Y) },
            { width := 8, value := byte o.Direction }])) ∧
    (∀ a b : Nat, ((byte (sub32 a b) : Nat) : Int) = ((a : Int) - (b : Int)) % 256 ∧
      (-128 ≤ (a : Int) - (b : Int) → (a : Int) - (b : Int) ≤ 127 →
        int8 (byte (sub32 a b)) = (a : Int) - (b : Int))) := by
  have gobj : objGone G player.toLocation = (fun o => !o.Boundary &&
      (decide (player.toLocation.LongestDelta o.toLocation > 21) ||
        differsFrom (G o.X o.Y) o)) := by
    funext o
    simp only [objGone, Location.WithinRange]
    congr 2
    rw [Bool.eq_iff_iff]
    simp
  have gbnd : bndGone player.toLocation = (fun o => o.Boundary &&
      decide (player.toLocation.LongestDelta o.toLocation > 21)) := by
    funext o
    simp only [bndGone, Location.WithinRange]
    congr 1
    rw [Bool.eq_iff_iff]
    simp
  refine ⟨?_, ?_, ?_⟩
  · intro pkt h
    rw [ObjectLocations_eq] at h
    dsimp only at h
    split at h
    · exact absurd h (by simp)
    · simp only [Option.some.injEq] at h
      rw [← h, gobj]
      rfl
  · intro pkt h
    rw [BoundaryLocations_eq] at h
    dsimp only at h
    split at h
    · exact absurd h (by simp)
    · simp only [Option.some.injEq] at h
      rw [← h, gbnd]
      rfl
  · intro a b
    have hb := offset_byte a b
    refine ⟨hb, fun h1 h2 => ?_⟩
    unfold int8
    split <;> omega

end Packets

/-! ## Theorems about `NewNpc` -/

namespace GameWorld

theorem defAt_some (NpcDefs : List NpcDefinition) (id : Int) (h0 : 0 ≤ id)
    (h1 : id < (NpcDefs.length : Int)) : ∃ d, defAt NpcDefs id = some d := by
  unfold defAt
  rw [if_neg (by omega)]
  have hlt : id.toNat < NpcDefs.length := by omega
  exact ⟨NpcDefs[id.toNat], List.getElem?_eq_getElem hlt⟩

/-- One accepted call of `NewNpc`: the NPC returned carries the old counter as its index and
is appended to `Npcs`; the counter is the old one plus one, in `uint32`. -/
theorem NewNpc_some (NpcDefs : List NpcDefinition) (w : NpcRegistry) (a : Spawn)
    (h : validSpawn NpcDefs a) :
    ∃ n, NewNpc NpcDefs w a.id a.startX a.startY a.minX a.maxX a.minY a.maxY =
        some (n, { NpcCounter := (w.NpcCounter + 1) % 4294967296, Npcs := w.Npcs ++ [n] }) ∧
      n.Index = (w.NpcCounter : Int) := by
  unfold NewNpc
  by_cases hid : a.id < 794
  · have hv : 0 ≤ a.id ∧ a.id < (NpcDefs.length : Int) := by
      rcases h with h | h
      · omega
      · exact h
    obtain ⟨d, hd⟩ := defAt_some NpcDefs a.id hv.1 hv.2
    simp only [hid, if_true, hd]
    exact ⟨_, rfl, rfl⟩
  · simp only [hid, if_false]
    exact ⟨_, rfl, rfl⟩

/-- A sequence of accepted calls, started with the counter `w.NpcCounter`. -/
theorem spawnAll_spec (NpcDefs : List NpcDefinition) (args : List Spawn) (w : NpcRegistry)
    (hvalid : ∀ a ∈ args, validSpawn NpcDefs a)
    (hlen : w.NpcCounter + args.length < 4294967296) :
    ∃ out w1, spawnAll NpcDefs args w = some (out, w1) ∧
      out.map (fun n => n.Index) =
        (List.range' w.NpcCounter args.length).map (fun (k : Nat) => (k : Int)) ∧
      w1.Npcs = w.Npcs ++ out ∧ w1.NpcCounter = w.NpcCounter + args.length := by
  induction args generalizing w with
  | nil => exact ⟨[], w, rfl, rfl, by simp, rfl⟩
  | cons a rest ih =>
    obtain ⟨n, hn, hidx⟩ := NewNpc_some NpcDefs w a (hvalid a (List.mem_cons_self _ _))
    have hlen1 : w.NpcCounter + 1 + rest.length < 4294967296 := by
      simp only [List.length_cons] at hlen
      omega
    have hmod : (w.NpcCounter + 1) % 4294967296 = w.NpcCounter + 1 := by omega
    obtain ⟨out, w1, hs, hmap, hnpcs, hcnt⟩ :=
      ih { NpcCounter := (w.NpcCounter + 1) % 4294967296, Npcs := w.Npcs ++ [n] }
        (fun b hb => hvalid b (List.mem_cons_of_mem _ hb)) (by simp only [hmod]; exact hlen1)
    refine ⟨n :: out, w1, ?_, ?_, ?_, ?_⟩
    · simp only [spawnAll, hn, hs]
    · simp only [hmod] at hmap
      simp only [List.map_cons, hidx, hmap, List.length_cons, List.range'_succ]
    · rw [hnpcs]
      simp
    · rw [hcnt]
      simp only [hmod, List.length_cons]
      omega

/-- C21: starting from an empty world, a sequence of fewer than 2^32 accepted calls of
`NewNpc` returns, at its k-th call (counted from 1), an NPC of index k - 1; afterwards
`Npcs` is the list of the NPCs returned, `NpcCounter` equals its length, `Npcs[i].Index = i`
for every `i`, and the indices are strictly increasing and pairwise distinct. -/
theorem NewNpc_indices (NpcDefs : List NpcDefinition) (args : List Spawn)
    (hvalid : ∀ a ∈ args, validSpawn NpcDefs a) (hlen : args.length < 4294967296) :
    ∃ out w, spawnAll NpcDefs args emptyRegistry = some (out, w) ∧
      out.length = args.length ∧
      (∀ k, k < args.length → ∃ n, out[k]? = some n ∧ n.Index = (k : Int)) ∧
      w.Npcs = out ∧ w.NpcCounter = w.Npcs.length ∧
      (∀ i, i < w.Npcs.length → ∃ n, w.Npcs[i]? = some n ∧ n.Index = (i : Int)) ∧
      (w.Npcs.map (fun n => n.Index)).Pairwise (fun a b => a < b) ∧
      (w.Npcs.map (fun n => n.Index)).Nodup := by
  obtain ⟨out, w, hs, hmap, hnpcs, hcnt⟩ :=
    spawnAll_spec NpcDefs args emptyRegistry hvalid (by simpa [emptyRegistry] using hlen)
  simp only [emptyRegistry, List.nil_append, Nat.zero_add] at hnpcs hcnt hmap
  have hl : out.length = args.length := by
    have := congrArg List.length hmap
    simpa using this
  have hget : ∀ k, k < args.length → ∃ n, out[k]? = some n ∧ n.Index = (k : Int) := by
    intro k hk
    have hk2 : k < out.length := by omega
    refine ⟨out[k], List.getElem?_eq_getElem hk2, ?_⟩
    have h1 : (out.map (fun n => n.Index))[k]? = some (out[k].Index) := by
      simp [List.getElem?_eq_getElem hk2]
    rw [hmap] at h1
    simp only [List.getElem?_map, List.getElem?_range' _ _ hk, Option.map_some',
      Option.some.injEq] at h1
    rw [← h1]
    simp
  have hpw : (out.map (fun n => n.Index)).Pairwise (fun a b => a < b) := by
    rw [hmap]
    apply List.Pairwise.map _ _ (List.pairwise_lt_range' 0 args.length)
    intro a b hab
    exact Int.ofNat_lt.mpr hab
  refine ⟨out, w, hs, hl, hget, hnpcs, ?_, ?_, ?_, ?_⟩
  · rw [hcnt, hnpcs, hl]
  · rw [hnpcs, hl]
    exact hget
  · rw [hnpcs]
    exact hpw
  · rw [hnpcs]
    exact hpw.imp (fun h => ne_of_lt h)

theorem NewNpc_indices_witness :
    ((∀ a ∈ sampleSpawns, validSpawn sampleDefs a) ∧ sampleSpawns.length < 4294967296) ∧
    (spawnAll sampleDefs sampleSpawns emptyRegistry).map
        (fun o => (o.1.map (fun n => n.Index), o.2.NpcCounter, o.2.Npcs.length)) =
      some ([0, 1, 2], 3, 3) ∧
    ∃ out w, spawnAll sampleDefs sampleSpawns emptyRegistry = some (out, w) ∧
      out.length = sampleSpawns.length ∧
      (∀ k, k < sampleSpawns.length → ∃ n, out[k]? = some n ∧ n.Index = (k : Int)) ∧
      w.Npcs = out ∧ w.NpcCounter = w.Npcs.length ∧
      (∀ i, i < w.Npcs.length → ∃ n, w.Npcs[i]? = some n ∧ n.Index = (i : Int)) ∧
      (w.Npcs.map (fun n => n.Index)).Pairwise (fun a b => a < b) ∧
      (w.Npcs.map (fun n => n.Index)).Nodup :=
  have hvalid : ∀ a ∈ sampleSpawns, validSpawn sampleDefs a := by
    intro a ha
    simp only [sampleSpawns, List.mem_cons, List.mem_singleton, List.not_mem_nil, or_false] at ha
    rcases ha with rfl | rfl | rfl <;> simp [validSpawn, sampleDefs]
  ⟨⟨hvalid, by decide⟩, by decide, NewNpc_indices sampleDefs sampleSpawns hvalid (by decide)⟩

end GameWorld
